import Mathlib

/-! External scanner of tree-sitter-fujin: automatic semicolon insertion

A shallow embedding of `src/scanner.c`.  Code points are natural numbers, the
lexer is an explicit state record, and every `for (;;)` / `while` loop of the
source is a recursive function on a fuel counter that returns `none` when the
fuel is used up (the loop did not finish).  The callers supply
`remaining input + 1` as fuel, which is enough whenever a loop advances the
cursor on each iteration.

The `<wctype.h>` predicates `iswspace`, `iswalpha`, `iswdigit` belong to the
C library, not to the scanner; they are a parameter (`CType`).
-/

namespace Fujin

/-! ## Data model -/

/-- The `<wctype.h>` classification functions used by the scanner. -/
structure CType where
  iswspace : Nat → Bool
  iswalpha : Nat → Bool
  iswdigit : Nat → Bool

/-- `enum TokenType { AUTOMATIC_SEMICOLON }`: the index of the only external token. -/
def AUTOMATIC_SEMICOLON : Nat := 0

/-- `WhitespaceResult` of the source. -/
inductive WhitespaceResult
  | REJECT
  | NO_NEWLINE
  | ACCEPT
  deriving DecidableEq, Repr

/-- Calls made on the host lexer, in order. -/
inductive LexEvent
  | mark_end
  | advance (skip : Bool)
  deriving DecidableEq, Repr

/-- The part of `TSLexer` the scanner sees: the characters from the cursor on
(`lookahead` is the first one, `0` at end of input), the cursor position, the
positions at which an included range starts, `result_symbol`, the token end set
by `mark_end`, and the record of the calls made so far. -/
structure TSLexer where
  input : List Nat
  pos : Nat
  included_range_starts : List Nat
  result_symbol : Nat
  token_end : Option Nat
  trace : List LexEvent
  deriving DecidableEq, Repr

/-- `lexer->lookahead`. -/
def TSLexer.lookahead (l : TSLexer) : Nat := l.input.headD 0

/-- `lexer->advance(lexer, skip)`: at end of input the cursor stays where it is. -/
def TSLexer.advance (l : TSLexer) (skip : Bool) : TSLexer :=
  { l with
    input := l.input.tail
    pos := l.pos + min l.input.length 1
    trace := l.trace ++ [LexEvent.advance skip] }

/-- `lexer->mark_end(lexer)`. -/
def TSLexer.mark_end (l : TSLexer) : TSLexer :=
  { l with token_end := some l.pos, trace := l.trace ++ [LexEvent.mark_end] }

/-- `lexer->is_at_included_range_start(lexer)`. -/
def TSLexer.is_at_included_range_start (l : TSLexer) : Bool :=
  l.included_range_starts.contains l.pos

/-- `static inline void advance(TSLexer *lexer)`. -/
def advance (l : TSLexer) : TSLexer := l.advance false

/-- `static inline void skip(TSLexer *lexer)`. -/
def skip (l : TSLexer) : TSLexer := l.advance true

/-- The test `c == '\n' || c == 0x2028 || c == 0x2029` the source repeats. -/
def isLineTerminator (c : Nat) : Bool := c == 10 || c == 0x2028 || c == 0x2029

/-! ## scan_whitespace_and_comments -/

/-- Line 32-34: `while (iswspace(lexer->lookahead)) skip(lexer);`. -/
def skip_whitespace (ct : CType) : Nat → TSLexer → Option TSLexer
  | 0, _ => none
  | fuel + 1, l =>
    if ct.iswspace l.lookahead then skip_whitespace ct fuel (skip l) else some l

/-- Line 41-44: the body of a line comment, up to a line terminator or end of input. -/
def skip_line_comment : Nat → TSLexer → Option TSLexer
  | 0, _ => none
  | fuel + 1, l =>
    if l.lookahead ≠ 0 ∧ l.lookahead ≠ 10 ∧ l.lookahead ≠ 0x2028 ∧ l.lookahead ≠ 0x2029 then
      skip_line_comment fuel (skip l)
    else some l

/-- How the block-comment loop (line 48-67) is left: by the `return` of line 56,
or by `break` / its loop condition, with the lexer, `*scanned_comment` and
`saw_block_newline`. -/
inductive BlockExit
  | returned (r : WhitespaceResult) (l : TSLexer) (scanned_comment : Bool)
  | done (l : TSLexer) (scanned_comment : Bool) (saw_block_newline : Bool)
  deriving DecidableEq, Repr

/-- Line 48-67: `while (lexer->lookahead != 0) { ... }` inside a block comment. -/
def scan_block_comment (consume : Bool) :
    Nat → TSLexer → Bool → Bool → Option BlockExit
  | 0, _, _, _ => none
  | fuel + 1, l, scanned_comment, saw_block_newline =>
    if l.lookahead ≠ 0 then
      if l.lookahead = 42 then -- '*'
        let l1 := skip l
        if l1.lookahead = 47 then -- '/'
          let l2 := skip l1
          if l2.lookahead ≠ 47 ∧ consume = false then
            some (.returned
              (if saw_block_newline then .ACCEPT else .NO_NEWLINE) l2 true)
          else some (.done l2 true saw_block_newline)
        else scan_block_comment consume fuel l1 scanned_comment saw_block_newline
      else if l.lookahead = 10 ∨ l.lookahead = 0x2028 ∨ l.lookahead = 0x2029 then
        scan_block_comment consume fuel (skip l) scanned_comment true
      else scan_block_comment consume fuel (skip l) scanned_comment saw_block_newline
    else some (.done l scanned_comment saw_block_newline)

/-- Line 31-74: the `for (;;)` of `scan_whitespace_and_comments`, with the
local `saw_block_newline` and the out-parameter `*scanned_comment` as state. -/
def scan_whitespace_and_comments_loop (ct : CType) (consume : Bool) :
    Nat → TSLexer → Bool → Bool → Option (WhitespaceResult × TSLexer × Bool)
  | 0, _, _, _ => none
  | fuel + 1, l, scanned_comment, saw_block_newline =>
    match skip_whitespace ct (l.input.length + 1) l with
    | none => none
    | some l0 =>
      if l0.lookahead = 47 then -- '/'
        let l1 := skip l0
        if l1.lookahead = 47 then -- '/'
          let l2 := skip l1
          match skip_line_comment (l2.input.length + 1) l2 with
          | none => none
          | some l3 =>
            scan_whitespace_and_comments_loop ct consume fuel l3 true saw_block_newline
        else if l1.lookahead = 42 then -- '*'
          let l2 := skip l1
          match scan_block_comment consume (l2.input.length + 1) l2
              scanned_comment saw_block_newline with
          | none => none
          | some (.returned r l3 sc) => some (r, l3, sc)
          | some (.done l3 sc sbn) =>
            scan_whitespace_and_comments_loop ct consume fuel l3 sc sbn
        else some (.REJECT, l1, scanned_comment)
      else some (.ACCEPT, l0, scanned_comment)

/-- `scan_whitespace_and_comments(lexer, scanned_comment, consume)`: the verdict,
the lexer afterwards and the new value of `*scanned_comment`. -/
def scan_whitespace_and_comments (ct : CType) (l : TSLexer) (scanned_comment : Bool)
    (consume : Bool) : Option (WhitespaceResult × TSLexer × Bool) :=
  scan_whitespace_and_comments_loop ct consume (l.input.length + 1) l scanned_comment false

/-! ## scan_automatic_semicolon -/

/-- Outcome of one part of the body of the first loop of `scan_automatic_semicolon`. -/
inductive Flow
  | ret (b : Bool) (l : TSLexer)
  | brk (l : TSLexer) (scanned_comment : Bool)
  | next (l : TSLexer) (scanned_comment : Bool)
  deriving DecidableEq, Repr

/-- Line 87-96: the probe of a comment when the lookahead is `/`. -/
def comment_check (ct : CType) (l : TSLexer) (scanned_comment : Bool) : Option Flow :=
  if l.lookahead = 47 then -- '/'
    match scan_whitespace_and_comments ct l scanned_comment false with
    | none => none
    | some (result, l1, sc) =>
      if result = .REJECT then some (.ret false l1)
      else if result = .ACCEPT ∧ l1.lookahead ≠ 44 ∧ l1.lookahead ≠ 61 then
        some (.ret true l1)
      else some (.next l1 sc)
  else some (.next l scanned_comment)

/-- Line 98-114: closing brace, included-range start, line terminator,
other character, whitespace. -/
def boundary_check (ct : CType) (l : TSLexer) (scanned_comment : Bool) : Flow :=
  if l.lookahead = 125 then .ret true l -- '}'
  else if l.is_at_included_range_start then .ret true l
  else if l.lookahead = 10 ∨ l.lookahead = 0x2028 ∨ l.lookahead = 0x2029 then
    .brk l scanned_comment
  else if ct.iswspace l.lookahead = false then .ret false l
  else .next (skip l) scanned_comment

/-- How the first loop is left: by a `return`, or by the `break` of line 107. -/
inductive LoopExit
  | returned (b : Bool) (l : TSLexer)
  | broke (l : TSLexer) (scanned_comment : Bool)
  deriving DecidableEq, Repr

/-- Line 82-115: the first `for (;;)` of `scan_automatic_semicolon`. -/
def semicolon_loop (ct : CType) : Nat → TSLexer → Bool → Option LoopExit
  | 0, _, _ => none
  | fuel + 1, l, scanned_comment =>
    if l.lookahead = 0 then some (.returned true l)
    else
      match comment_check ct l scanned_comment with
      | none => none
      | some (.ret b l1) => some (.returned b l1)
      | some (.brk l1 sc) => some (.broke l1 sc)
      | some (.next l1 sc) =>
        match boundary_check ct l1 sc with
        | .ret b l2 => some (.returned b l2)
        | .brk l2 sc2 => some (.broke l2 sc2)
        | .next l2 sc2 => semicolon_loop ct fuel l2 sc2

/-- Line 174-179: `for (i = 0; i < 8; i++)` over the characters of `"stanceof"`;
`false` is the `return true` on a mismatch, `true` the end of the loop. -/
def match_keyword_rest : List Nat → TSLexer → Bool × TSLexer
  | [], l => (true, l)
  | k :: ks, l =>
    if l.lookahead ≠ k then (false, l) else match_keyword_rest ks (skip l)

/-- The characters of `"stanceof"`. -/
def stanceof : List Nat := [115, 116, 97, 110, 99, 101, 111, 102]

/-- Line 123-190: the `switch (lexer->lookahead)` and the final `return true`. -/
def restricted_production (ct : CType) (l : TSLexer) : Bool × TSLexer :=
  let c := l.lookahead
  if c = 96 ∨ c = 44 ∨ c = 58 ∨ c = 59 ∨ c = 42 ∨ c = 37 ∨ c = 62 ∨ c = 60 ∨ c = 61 ∨
      c = 91 ∨ c = 40 ∨ c = 63 ∨ c = 94 ∨ c = 124 ∨ c = 38 ∨ c = 47 then
    (false, l)
  else if c = 46 then -- '.'
    let l1 := skip l
    (ct.iswdigit l1.lookahead, l1)
  else if c = 43 then -- '+'
    let l1 := skip l
    (decide (l1.lookahead = 43), l1)
  else if c = 45 then -- '-'
    let l1 := skip l
    (decide (l1.lookahead = 45), l1)
  else if c = 33 then -- '!'
    let l1 := skip l
    (decide (l1.lookahead ≠ 61), l1)
  else if c = 105 then -- 'i'
    let l1 := skip l
    if l1.lookahead ≠ 110 then (true, l1) -- 'n'
    else
      let l2 := skip l1
      if ct.iswalpha l2.lookahead = false then (false, l2)
      else
        match match_keyword_rest stanceof l2 with
        | (false, l3) => (true, l3)
        | (true, l3) =>
          if ct.iswalpha l3.lookahead = false then (false, l3) else (true, l3)
  else (true, l)

/-- Line 78-79: `lexer->result_symbol = AUTOMATIC_SEMICOLON; lexer->mark_end(lexer);`. -/
def begin_token (l : TSLexer) : TSLexer :=
  ({ l with result_symbol := AUTOMATIC_SEMICOLON } : TSLexer).mark_end

/-- `scan_automatic_semicolon(lexer)`: the returned boolean and the lexer afterwards. -/
def scan_automatic_semicolon (ct : CType) (l : TSLexer) : Option (Bool × TSLexer) :=
  let l0 := begin_token l
  match semicolon_loop ct (l0.input.length + 1) l0 false with
  | none => none
  | some (.returned b l1) => some (b, l1)
  | some (.broke l1 sc) =>
    let l2 := skip l1
    match scan_whitespace_and_comments ct l2 sc true with
    | none => none
    | some (result, l3, _) =>
      if result = .REJECT then some (false, l3)
      else some (restricted_production ct l3)

/-- `tree_sitter_fujin_external_scanner_scan(payload, lexer, valid_symbols)`. -/
def tree_sitter_fujin_external_scanner_scan (ct : CType) (l : TSLexer)
    (valid_symbols : Nat → Bool) : Option (Bool × TSLexer) :=
  if valid_symbols AUTOMATIC_SEMICOLON then scan_automatic_semicolon ct l
  else some (false, l)

/-! ## Inputs used in the statements -/

/-- A classification to run the scanner on: the ASCII table of the C locale, with
U+2028 and U+2029 counted as white space. -/
def asciiCType : CType where
  iswspace c := c == 32 || (9 ≤ c && c ≤ 13) || c == 0x2028 || c == 0x2029
  iswalpha c := (65 ≤ c && c ≤ 90) || (97 ≤ c && c ≤ 122)
  iswdigit c := 48 ≤ c && c ≤ 57

/-- A lexer at position `p` in front of the characters `cs`, nothing called yet. -/
def lexerAt (cs : List Nat) (p : Nat) (starts : List Nat) : TSLexer :=
  { input := cs, pos := p, included_range_starts := starts, result_symbol := 0,
    token_end := none, trace := [] }

/-- The code points of a string. -/
def codes (s : String) : List Nat := s.toList.map Char.toNat

/-- The verdict of `scan_automatic_semicolon` alone. -/
def verdict (ct : CType) (l : TSLexer) : Option Bool :=
  (scan_automatic_semicolon ct l).map Prod.fst

/-- The lexer after `n` calls of `skip`. -/
def skipN (n : Nat) (l : TSLexer) : TSLexer :=
  { l with
    input := l.input.drop n
    pos := l.pos + min n l.input.length
    trace := l.trace ++ List.replicate n (LexEvent.advance true) }

/-- The lexer `l1` is `l` after some calls of `skip`, none of them at end of input. -/
def Skipped (l l1 : TSLexer) : Prop := ∃ n, n ≤ l.input.length ∧ l1 = skipN n l

/-- The lexer a block-comment loop ends with. -/
def BlockExit.lexer : BlockExit → TSLexer
  | .returned _ l _ => l
  | .done l _ _ => l

/-- The lexer a part of the loop body ends with. -/
def Flow.lexer : Flow → TSLexer
  | .ret _ l => l
  | .brk l _ => l
  | .next l _ => l

/-- The lexer the first loop ends with. -/
def LoopExit.lexer : LoopExit → TSLexer
  | .returned _ l => l
  | .broke l _ => l

/-- One item of insignificant material: a white-space character, a line comment
`//body` with the line terminator that ends it, or a block comment `/*body*/`. -/
inductive Trivia
  | space (c : Nat)
  | line (body : List Nat) (terminator : Nat)
  | block (body : List Nat)
  deriving DecidableEq, Repr

/-- The characters of an item. -/
def Trivia.chars : Trivia → List Nat
  | .space c => [c]
  | .line body t => 47 :: 47 :: (body ++ [t])
  | .block body => 47 :: 42 :: (body ++ [42, 47])

/-- The characters of a run of items. -/
def render : List Trivia → List Nat
  | [] => []
  | t :: ts => t.chars ++ render ts

/-- No `*` directly followed by `/` occurs in the list. -/
def noStarSlash : List Nat → Bool
  | [] => true
  | [_] => true
  | a :: b :: rest => !(a == 42 && b == 47) && noStarSlash (b :: rest)

/-- The item is what it claims to be: the character is white space; the line
comment body has no line terminator and no NUL and is followed by a line
terminator; the block comment body has no NUL and does not close the comment
early. -/
def Trivia.wf (ct : CType) : Trivia → Bool
  | .space c => ct.iswspace c
  | .line body t => body.all (fun c => c != 0 && !isLineTerminator c) && isLineTerminator t
  | .block body => body.all (fun c => c != 0) && noStarSlash body

/-- The item is a comment. -/
def Trivia.isComment : Trivia → Bool
  | .space _ => false
  | _ => true

/-- The item contains no line terminator: a white-space character other than a
line terminator, or a block comment without one in its body. -/
def Trivia.sameLine : Trivia → Bool
  | .space c => !isLineTerminator c
  | .line _ _ => false
  | .block body => body.all (fun c => !isLineTerminator c)

/-- The item is a white-space character. -/
def Trivia.isSpace : Trivia → Bool
  | .space _ => true
  | _ => false

/-- The item is a line comment. -/
def Trivia.isLine : Trivia → Bool
  | .line _ _ => true
  | _ => false

/-- The item is a block comment with a line terminator in its body. -/
def Trivia.blockNewline : Trivia → Bool
  | .block body => body.any isLineTerminator
  | _ => false

/-- The lexer `l1` is `l` after `n` calls of `skip`, each made with a lookahead
other than 0: the `n` characters passed exist and none of them is NUL. -/
def Advanced (l l1 : TSLexer) (n : Nat) : Prop :=
  n ≤ l.input.length ∧ (∀ c ∈ l.input.take n, c ≠ 0) ∧ l1 = skipN n l

/-- In probe mode the scan does not return inside the run `ts`: every block
comment of the run is directly followed by `/`, where `after` are the
characters behind the run. -/
def noProbeExit : List Trivia → List Nat → Bool
  | [], _ => true
  | .block _ :: ts, after => (render ts ++ after).headD 0 == 47 && noProbeExit ts after
  | _ :: ts, after => noProbeExit ts after

/-- The lexer the `switch` of `scan_automatic_semicolon` is run on, when the call
gets that far: the first loop ended by `break` and the scan in consume mode did
not return REJECT. -/
def switch_lexer (ct : CType) (l : TSLexer) : Option TSLexer :=
  match semicolon_loop ct ((begin_token l).input.length + 1) (begin_token l) false with
  | some (.broke l1 sc) =>
    match scan_whitespace_and_comments ct (skip l1) sc true with
    | some (result, l3, _) => if result = .REJECT then none else some l3
    | none => none
  | _ => none

/-- What the statements assume of the C library: on ASCII `iswspace` is the
table of the C locale, U+2028 and U+2029 are white space, and `iswdigit` holds
of the ten decimal digits only. -/
structure CType.Conforming (ct : CType) : Prop where
  space_ascii : ∀ c, c < 128 → ct.iswspace c = (c == 32 || (9 ≤ c && c ≤ 13))
  space_ls : ct.iswspace 0x2028 = true
  space_ps : ct.iswspace 0x2029 = true
  digit : ∀ c, ct.iswdigit c = (48 ≤ c && c ≤ 57)

/-- The characters of the first `case` group of the `switch` other than `/`:
backquote `,` `:` `;` `*` `%` `>` `<` `=` `[` `(` `?` `^` `|` `&`. -/
def continuation_chars : List Nat :=
  [96, 44, 58, 59, 42, 37, 62, 60, 61, 91, 40, 63, 94, 124, 38]

/-- The characters the `switch` has a `case` for. -/
def switch_chars : List Nat := continuation_chars ++ [47, 46, 43, 45, 33, 105]


/-! ## The lexer after a number of skips -/

theorem skipN_zero (l : TSLexer) : skipN 0 l = l := by
  simp [skipN]

theorem skip_eq_skipN (l : TSLexer) : skip l = skipN 1 l := by
  cases l with
  | mk input pos starts rs te tr =>
    cases input <;> simp [skip, TSLexer.advance, skipN]

theorem skipN_skipN (m n : Nat) (l : TSLexer) : skipN m (skipN n l) = skipN (n + m) l := by
  cases l with
  | mk input pos starts rs te tr =>
    simp only [skipN, List.drop_drop, List.length_drop, List.append_assoc,
      TSLexer.mk.injEq, true_and, and_true]
    refine ⟨?_, ?_⟩
    · omega
    · rw [← List.replicate_add]

theorem skip_skipN (n : Nat) (l : TSLexer) : skip (skipN n l) = skipN (n + 1) l := by
  rw [skip_eq_skipN, skipN_skipN]

theorem skipN_input (n : Nat) (l : TSLexer) : (skipN n l).input = l.input.drop n := rfl

theorem skipN_input_append (l : TSLexer) (xs rest : List Nat) (h : l.input = xs ++ rest) :
    (skipN xs.length l).input = rest := by
  simp [skipN, h]

theorem lookahead_cons (l : TSLexer) (c : Nat) (t : List Nat) (h : l.input = c :: t) :
    l.lookahead = c := by
  simp [TSLexer.lookahead, h]

theorem skip_input_cons (l : TSLexer) (c : Nat) (t : List Nat) (h : l.input = c :: t) :
    (skip l).input = t := by
  simp [skip, TSLexer.advance, h]

theorem input_ne_nil_of_lookahead (l : TSLexer) (h : l.lookahead ≠ 0) :
    ∃ c t, l.input = c :: t ∧ c ≠ 0 := by
  cases hi : l.input with
  | nil => simp [TSLexer.lookahead, hi] at h
  | cons c t => exact ⟨c, t, rfl, by simpa [TSLexer.lookahead, hi] using h⟩

/-! ## Consequences of a conforming classification -/

theorem CType.Conforming.nul {ct : CType} (h : ct.Conforming) : ct.iswspace 0 = false := by
  rw [h.space_ascii 0 (by decide)]; rfl

theorem CType.Conforming.slash {ct : CType} (h : ct.Conforming) : ct.iswspace 47 = false := by
  rw [h.space_ascii 47 (by decide)]; rfl

theorem CType.Conforming.line_terminator {ct : CType} (h : ct.Conforming) (c : Nat)
    (hc : isLineTerminator c = true) : ct.iswspace c = true := by
  simp only [isLineTerminator, Bool.or_eq_true, beq_iff_eq] at hc
  rcases hc with (hc | hc) | hc
  · subst hc; rw [h.space_ascii 10 (by decide)]; rfl
  · subst hc; exact h.space_ls
  · subst hc; exact h.space_ps

theorem CType.Conforming.not_space {ct : CType} (h : ct.Conforming) (c : Nat)
    (h1 : c < 128) (h2 : c ≠ 32) (h3 : c < 9 ∨ 13 < c) : ct.iswspace c = false := by
  rw [h.space_ascii c h1]
  rcases h3 with h3 | h3 <;> simp [h2] <;> omega

theorem asciiCType_conforming : asciiCType.Conforming where
  space_ascii := by
    intro c hc
    have h1 : (c == 0x2028) = false := beq_eq_false_iff_ne.mpr (by omega)
    have h2 : (c == 0x2029) = false := beq_eq_false_iff_ne.mpr (by omega)
    simp only [asciiCType, h1, h2, Bool.or_false]
  space_ls := by decide
  space_ps := by decide
  digit := fun _ => rfl

/-! ## The inner loops on well-formed material -/

theorem skip_whitespace_stop (ct : CType) (fuel : Nat) (l : TSLexer)
    (h : ct.iswspace l.lookahead = false) : skip_whitespace ct (fuel + 1) l = some l := by
  simp [skip_whitespace, h]

theorem skip_whitespace_step (ct : CType) (fuel : Nat) (l : TSLexer)
    (h : ct.iswspace l.lookahead = true) :
    skip_whitespace ct (fuel + 1) l = skip_whitespace ct fuel (skip l) := by
  simp [skip_whitespace, h]

theorem skip_line_comment_run (body rest : List Nat)
    (hbody : body.all (fun c => c != 0 && !isLineTerminator c) = true)
    (hrest : rest.headD 0 = 0 ∨ isLineTerminator (rest.headD 0) = true) :
    ∀ (fuel : Nat) (l : TSLexer), l.input = body ++ rest → body.length < fuel →
      skip_line_comment fuel l = some (skipN body.length l) := by
  induction body with
  | nil =>
    intro fuel l hin hf
    cases fuel with
    | zero => omega
    | succ f =>
      have hl : l.lookahead = rest.headD 0 := by simp [TSLexer.lookahead, hin]
      have : ¬ (l.lookahead ≠ 0 ∧ l.lookahead ≠ 10 ∧ l.lookahead ≠ 0x2028 ∧
          l.lookahead ≠ 0x2029) := by
        rw [hl]
        rcases hrest with h | h
        · intro hh; exact hh.1 h
        · simp only [isLineTerminator, Bool.or_eq_true, beq_iff_eq] at h
          omega
      rw [skip_line_comment, if_neg this]
      simp [skipN_zero]
  | cons c t ih =>
    intro fuel l hin hf
    cases fuel with
    | zero => omega
    | succ f =>
      have hl : l.lookahead = c := lookahead_cons l c _ hin
      simp only [List.all_cons, Bool.and_eq_true, bne_iff_ne, ne_eq, Bool.not_eq_true',
        isLineTerminator, Bool.or_eq_false_iff, beq_eq_false_iff_ne] at hbody
      obtain ⟨⟨hc0, ⟨hc1, hc2⟩, hc3⟩, ht⟩ := hbody
      have hcond : l.lookahead ≠ 0 ∧ l.lookahead ≠ 10 ∧ l.lookahead ≠ 0x2028 ∧
          l.lookahead ≠ 0x2029 := by
        rw [hl]; exact ⟨hc0, hc1, hc2, hc3⟩
      have ht2 : t.all (fun c => c != 0 && !isLineTerminator c) = true := by
        simpa [isLineTerminator] using ht
      rw [skip_line_comment, if_pos hcond]
      rw [ih ht2 f (skip l) (skip_input_cons l c _ hin) (by simpa using hf),
        skip_eq_skipN, skipN_skipN]
      simp [Nat.add_comm]

theorem noStarSlash_tail (c : Nat) (t : List Nat) (h : noStarSlash (c :: t) = true) :
    noStarSlash t = true := by
  cases t with
  | nil => rfl
  | cons d u =>
    simp only [noStarSlash, Bool.and_eq_true] at h
    exact h.2

theorem noStarSlash_head (d : Nat) (u : List Nat) (h : noStarSlash (42 :: d :: u) = true) :
    d ≠ 47 := by
  intro hd
  subst hd
  simp [noStarSlash] at h

theorem skip_skip (l : TSLexer) : skip (skip l) = skipN 2 l := by
  rw [skip_eq_skipN, skip_eq_skipN, skipN_skipN]

theorem scan_block_comment_run (consume : Bool) (body rest : List Nat)
    (h0 : body.all (fun c => c != 0) = true) (hns : noStarSlash body = true) :
    ∀ (fuel : Nat) (l : TSLexer) (sc sbn : Bool),
      l.input = body ++ 42 :: 47 :: rest → body.length < fuel →
      scan_block_comment consume fuel l sc sbn =
        some (if rest.headD 0 ≠ 47 ∧ consume = false then
            .returned (if (sbn || body.any isLineTerminator) = true then .ACCEPT
              else .NO_NEWLINE) (skipN (body.length + 2) l) true
          else .done (skipN (body.length + 2) l) true (sbn || body.any isLineTerminator)) := by
  induction body with
  | nil =>
    intro fuel l sc sbn hin hf
    cases fuel with
    | zero => omega
    | succ f =>
      have hin1 : l.input = 42 :: 47 :: rest := by simpa using hin
      have hl : l.lookahead = 42 := lookahead_cons l _ _ hin1
      have hin2 : (skip l).input = 47 :: rest := skip_input_cons l _ _ hin1
      have hl1 : (skip l).lookahead = 47 := lookahead_cons _ _ _ hin2
      have hin3 : (skip (skip l)).input = rest := skip_input_cons _ _ _ hin2
      have hl2 : (skipN 2 l).lookahead = rest.headD 0 := by
        rw [← skip_skip, TSLexer.lookahead, hin3]
      rw [scan_block_comment, if_pos (by rw [hl]; decide), if_pos hl]
      simp only [hl1, if_true, skip_skip, hl2, List.any_nil, Bool.or_false, List.length_nil,
        Nat.zero_add]
      split_ifs <;> rfl
  | cons c t ih =>
    intro fuel l sc sbn hin hf
    cases fuel with
    | zero => omega
    | succ f =>
      have hin1 : l.input = c :: (t ++ 42 :: 47 :: rest) := by simpa using hin
      have hl : l.lookahead = c := lookahead_cons l _ _ hin1
      have hin2 : (skip l).input = t ++ 42 :: 47 :: rest := skip_input_cons l _ _ hin1
      simp only [List.all_cons, Bool.and_eq_true, bne_iff_ne, ne_eq] at h0
      have ht := ih h0.2 (noStarSlash_tail c t hns) f (skip l)
      have hlen : t.length < f := by simpa using hf
      have hsk : skipN (t.length + 2) (skip l) = skipN ((c :: t).length + 2) l := by
        rw [skip_eq_skipN, skipN_skipN]
        congr 1
        simp only [List.length_cons]
        omega
      rw [scan_block_comment, if_pos (by rw [hl]; exact h0.1)]
      by_cases hc : c = 42
      · have hl1 : (skip l).lookahead ≠ 47 := by
          cases t with
          | nil => simp [TSLexer.lookahead, hin2]
          | cons d u =>
            have := noStarSlash_head d u (by rw [← hc]; exact hns)
            simpa [TSLexer.lookahead, hin2] using this
        rw [if_pos (by rw [hl]; exact hc)]
        simp only [hl1, if_false]
        rw [ht sc sbn hin2 hlen, hsk]
        simp [List.any_cons, hc, isLineTerminator]
      · rw [if_neg (by rw [hl]; exact hc)]
        by_cases hlt : c = 10 ∨ c = 0x2028 ∨ c = 0x2029
        · rw [if_pos (by rw [hl]; exact hlt)]
          rw [ht sc true hin2 hlen, hsk]
          have : isLineTerminator c = true := by
            simp only [isLineTerminator, Bool.or_eq_true, beq_iff_eq]
            omega
          simp [List.any_cons, this]
        · rw [if_neg (by rw [hl]; exact hlt)]
          rw [ht sc sbn hin2 hlen, hsk]
          have : isLineTerminator c = false := by
            simp only [isLineTerminator, Bool.or_eq_false_iff, beq_eq_false_iff_ne]
            omega
          simp [List.any_cons, this]

/-! ## One iteration of the loop of `scan_whitespace_and_comments` -/

theorem loop_space (ct : CType) (consume : Bool) (f : Nat) (l : TSLexer) (sc sbn : Bool)
    (c : Nat) (t : List Nat) (hin : l.input = c :: t) (hc : ct.iswspace c = true) :
    scan_whitespace_and_comments_loop ct consume (f + 1) l sc sbn =
      scan_whitespace_and_comments_loop ct consume (f + 1) (skip l) sc sbn := by
  have hl : ct.iswspace l.lookahead = true := by rw [lookahead_cons l c t hin]; exact hc
  have h1 : skip_whitespace ct (l.input.length + 1) l =
      skip_whitespace ct ((skip l).input.length + 1) (skip l) := by
    rw [skip_whitespace_step ct _ l hl, skip_input_cons l c t hin, hin]
    rfl
  rw [scan_whitespace_and_comments_loop, h1]
  conv_rhs => rw [scan_whitespace_and_comments_loop]

theorem loop_stop (ct : CType) (consume : Bool) (f : Nat) (l : TSLexer) (sc sbn : Bool)
    (hws : ct.iswspace l.lookahead = false) (hne : l.lookahead ≠ 47) :
    scan_whitespace_and_comments_loop ct consume (f + 1) l sc sbn =
      some (.ACCEPT, l, sc) := by
  rw [scan_whitespace_and_comments_loop, skip_whitespace_stop ct _ l hws]
  simp only [hne, if_false]

theorem loop_reject (ct : CType) (consume : Bool) (f : Nat) (l : TSLexer) (sc sbn : Bool)
    (rest : List Nat) (hslash : ct.iswspace 47 = false) (hin : l.input = 47 :: rest)
    (h1 : rest.headD 0 ≠ 47) (h2 : rest.headD 0 ≠ 42) :
    scan_whitespace_and_comments_loop ct consume (f + 1) l sc sbn =
      some (.REJECT, skip l, sc) := by
  have hl : l.lookahead = 47 := lookahead_cons l _ _ hin
  have hl1 : (skip l).lookahead = rest.headD 0 := by
    rw [TSLexer.lookahead, skip_input_cons l _ _ hin]
  rw [scan_whitespace_and_comments_loop, skip_whitespace_stop ct _ l (by rw [hl]; exact hslash)]
  simp only [hl, if_true, hl1, h1, h2, if_false]

theorem loop_line (ct : CType) (consume : Bool) (f : Nat) (l : TSLexer) (sc sbn : Bool)
    (body rest : List Nat) (hslash : ct.iswspace 47 = false)
    (hin : l.input = 47 :: 47 :: (body ++ rest))
    (hbody : body.all (fun c => c != 0 && !isLineTerminator c) = true)
    (hrest : rest.headD 0 = 0 ∨ isLineTerminator (rest.headD 0) = true) :
    scan_whitespace_and_comments_loop ct consume (f + 1) l sc sbn =
      scan_whitespace_and_comments_loop ct consume f (skipN (body.length + 2) l) true sbn := by
  have hl : l.lookahead = 47 := lookahead_cons l _ _ hin
  have hin1 : (skip l).input = 47 :: (body ++ rest) := skip_input_cons l _ _ hin
  have hl1 : (skip l).lookahead = 47 := lookahead_cons _ _ _ hin1
  have hin2 : (skipN 2 l).input = body ++ rest := by
    rw [← skip_skip]; exact skip_input_cons _ _ _ hin1
  have hrun := skip_line_comment_run body rest hbody hrest ((skipN 2 l).input.length + 1)
    (skipN 2 l) hin2 (by rw [hin2]; simp; omega)
  rw [scan_whitespace_and_comments_loop, skip_whitespace_stop ct _ l (by rw [hl]; exact hslash)]
  simp only [hl, if_true, hl1, skip_skip, hrun, skipN_skipN]
  rw [Nat.add_comm 2]

theorem loop_block (ct : CType) (consume : Bool) (f : Nat) (l : TSLexer) (sc sbn : Bool)
    (body rest : List Nat) (hslash : ct.iswspace 47 = false)
    (hin : l.input = 47 :: 42 :: (body ++ 42 :: 47 :: rest))
    (h0 : body.all (fun c => c != 0) = true) (hns : noStarSlash body = true) :
    scan_whitespace_and_comments_loop ct consume (f + 1) l sc sbn =
      if rest.headD 0 ≠ 47 ∧ consume = false then
        some (if (sbn || body.any isLineTerminator) = true then .ACCEPT else .NO_NEWLINE,
          skipN (body.length + 4) l, true)
      else
        scan_whitespace_and_comments_loop ct consume f (skipN (body.length + 4) l) true
          (sbn || body.any isLineTerminator) := by
  have hl : l.lookahead = 47 := lookahead_cons l _ _ hin
  have hin1 : (skip l).input = 42 :: (body ++ 42 :: 47 :: rest) := skip_input_cons l _ _ hin
  have hl1 : (skip l).lookahead = 42 := lookahead_cons _ _ _ hin1
  have hin2 : (skipN 2 l).input = body ++ 42 :: 47 :: rest := by
    rw [← skip_skip]; exact skip_input_cons _ _ _ hin1
  have hrun := scan_block_comment_run consume body rest h0 hns ((skipN 2 l).input.length + 1)
    (skipN 2 l) sc sbn hin2 (by rw [hin2]; simp; omega)
  have hadd : 2 + (body.length + 2) = body.length + 4 := by omega
  rw [scan_whitespace_and_comments_loop, skip_whitespace_stop ct _ l (by rw [hl]; exact hslash)]
  have h4247 : ¬ ((42 : Nat) = 47) := by decide
  simp only [hl, if_true, hl1, h4247, if_false, skip_skip, hrun, skipN_skipN, hadd]
  by_cases hcond : rest.headD 0 ≠ 47 ∧ consume = false
  · simp only [hcond, and_self, if_true, ne_eq, not_false_eq_true]
  · simp only [hcond, if_false]

/-! ## Runs of insignificant material -/

theorem skipN_input_of (l : TSLexer) (xs ys : List Nat) (k : Nat) (h : l.input = xs ++ ys)
    (hk : k = xs.length) : (skipN k l).input = ys := by
  subst hk
  exact skipN_input_append l xs ys h

theorem skipN_lookahead_of (l : TSLexer) (xs ys : List Nat) (k : Nat) (h : l.input = xs ++ ys)
    (hk : k = xs.length) : (skipN k l).lookahead = ys.headD 0 := by
  rw [TSLexer.lookahead, skipN_input_of l xs ys k h hk]

theorem render_cons (t : Trivia) (ts : List Trivia) : render (t :: ts) = t.chars ++ render ts :=
  rfl

theorem render_append (ts us : List Trivia) : render (ts ++ us) = render ts ++ render us := by
  induction ts with
  | nil => rfl
  | cons t ts ih => simp [render, ih]

theorem length_le_render (ts : List Trivia) : ts.length ≤ (render ts).length := by
  induction ts with
  | nil => simp
  | cons t ts ih =>
    cases t <;> simp [render, Trivia.chars] <;> omega

theorem wf_line_terminator (ct : CType) (body : List Nat) (t : Nat)
    (h : (Trivia.line body t).wf ct = true) : isLineTerminator t = true := by
  simp only [Trivia.wf, Bool.and_eq_true] at h
  exact h.2

theorem wf_line_body (ct : CType) (body : List Nat) (t : Nat)
    (h : (Trivia.line body t).wf ct = true) :
    body.all (fun c => c != 0 && !isLineTerminator c) = true := by
  simp only [Trivia.wf, Bool.and_eq_true] at h
  exact h.1

theorem wf_block (ct : CType) (body : List Nat) (h : (Trivia.block body).wf ct = true) :
    body.all (fun c => c != 0) = true ∧ noStarSlash body = true := by
  simpa only [Trivia.wf, Bool.and_eq_true] using h

/-- In consume mode the loop runs through a whole run of well-formed items. -/
theorem consume_trivia (ct : CType) (hct : ct.Conforming) (ts : List Trivia)
    (hwf : ∀ t ∈ ts, t.wf ct = true) :
    ∀ (fuel : Nat) (l : TSLexer) (sc sbn : Bool) (rest : List Nat),
      l.input = render ts ++ rest → ts.length < fuel →
      ∃ fuel1 sbn1, 0 < fuel1 ∧
        scan_whitespace_and_comments_loop ct true fuel l sc sbn =
          scan_whitespace_and_comments_loop ct true fuel1 (skipN (render ts).length l)
            (sc || ts.any Trivia.isComment) sbn1 := by
  induction ts with
  | nil =>
    intro fuel l sc sbn rest _ hf
    exact ⟨fuel, sbn, hf, by simp [render, skipN_zero]⟩
  | cons t ts ih =>
    intro fuel l sc sbn rest hin hf
    have hwf1 : ∀ t ∈ ts, t.wf ct = true := fun x hx => hwf x (by simp [hx])
    have ht := hwf t (by simp)
    cases fuel with
    | zero => omega
    | succ f =>
      have hlen : ts.length < f := by simpa using hf
      cases t with
      | space c =>
        have hin1 : l.input = c :: (render ts ++ rest) := by simpa [render, Trivia.chars] using hin
        obtain ⟨fuel1, sbn1, hpos, heq⟩ := ih hwf1 (f + 1) (skip l) sc sbn rest
          (skip_input_cons l _ _ hin1) (by omega)
        refine ⟨fuel1, sbn1, hpos, ?_⟩
        rw [loop_space ct true f l sc sbn c _ hin1 ht, heq, skip_eq_skipN, skipN_skipN]
        simp [render, Trivia.chars, Trivia.isComment, Nat.add_comm]
      | line body t =>
        have hin1 : l.input = 47 :: 47 :: (body ++ (t :: (render ts ++ rest))) := by
          simpa [render, Trivia.chars] using hin
        have hlt := wf_line_terminator ct body t ht
        have hstep := loop_line ct true f l sc sbn body (t :: (render ts ++ rest)) hct.slash hin1
          (wf_line_body ct body t ht) (Or.inr hlt)
        have hin2 : (skipN (body.length + 2) l).input = t :: (render ts ++ rest) :=
          skipN_input_of l (47 :: 47 :: body) _ _ (by simpa using hin1) (by simp)
        cases f with
        | zero => omega
        | succ g =>
          obtain ⟨fuel1, sbn1, hpos, heq⟩ := ih hwf1 (g + 1) (skip (skipN (body.length + 2) l))
            true sbn rest (skip_input_cons _ _ _ hin2) (by omega)
          refine ⟨fuel1, sbn1, hpos, ?_⟩
          rw [hstep, loop_space ct true g _ true sbn t _ hin2 (hct.line_terminator t hlt), heq,
            skip_skipN, skipN_skipN]
          have : body.length + 2 + 1 + (render ts).length =
              (render (Trivia.line body t :: ts)).length := by
            simp [render, Trivia.chars]; omega
          rw [this]
          simp [Trivia.isComment]
      | block body =>
        have hin1 : l.input = 47 :: 42 :: (body ++ 42 :: 47 :: (render ts ++ rest)) := by
          simpa [render, Trivia.chars] using hin
        obtain ⟨hb0, hbns⟩ := wf_block ct body ht
        have hstep := loop_block ct true f l sc sbn body (render ts ++ rest) hct.slash hin1
          hb0 hbns
        have hin2 : (skipN (body.length + 4) l).input = render ts ++ rest :=
          skipN_input_of l (47 :: 42 :: (body ++ [42, 47])) _ _ (by simpa using hin1) (by simp)
        obtain ⟨fuel1, sbn1, hpos, heq⟩ := ih hwf1 f (skipN (body.length + 4) l)
          true (sbn || body.any isLineTerminator) rest hin2 hlen
        refine ⟨fuel1, sbn1, hpos, ?_⟩
        rw [hstep, if_neg (by simp), heq, skipN_skipN]
        have : body.length + 4 + (render ts).length =
            (render (Trivia.block body :: ts)).length := by
          simp [render, Trivia.chars]; omega
        rw [this]
        simp [Trivia.isComment]

theorem consume_accept (ct : CType) (hct : ct.Conforming) (ts : List Trivia)
    (hwf : ∀ t ∈ ts, t.wf ct = true) (l : TSLexer) (sc : Bool) (rest : List Nat)
    (hin : l.input = render ts ++ rest) (hws : ct.iswspace (rest.headD 0) = false)
    (hne : rest.headD 0 ≠ 47) :
    scan_whitespace_and_comments ct l sc true =
      some (.ACCEPT, skipN (render ts).length l, sc || ts.any Trivia.isComment) := by
  have hfuel : ts.length < l.input.length + 1 := by
    have := length_le_render ts
    rw [hin, List.length_append]; omega
  obtain ⟨fuel1, sbn1, hpos, heq⟩ :=
    consume_trivia ct hct ts hwf (l.input.length + 1) l sc false rest hin hfuel
  have hla := skipN_lookahead_of l (render ts) rest _ hin rfl
  obtain ⟨g, rfl⟩ : ∃ g, fuel1 = g + 1 := ⟨fuel1 - 1, by omega⟩
  rw [scan_whitespace_and_comments, heq, loop_stop ct true g _ _ _ (by rw [hla]; exact hws)
    (by rw [hla]; exact hne)]

theorem consume_reject (ct : CType) (hct : ct.Conforming) (ts : List Trivia)
    (hwf : ∀ t ∈ ts, t.wf ct = true) (l : TSLexer) (sc : Bool) (rest : List Nat)
    (hin : l.input = render ts ++ 47 :: rest) (h1 : rest.headD 0 ≠ 47)
    (h2 : rest.headD 0 ≠ 42) :
    scan_whitespace_and_comments ct l sc true =
      some (.REJECT, skipN ((render ts).length + 1) l, sc || ts.any Trivia.isComment) := by
  have hfuel : ts.length < l.input.length + 1 := by
    have := length_le_render ts
    rw [hin, List.length_append]; omega
  obtain ⟨fuel1, sbn1, hpos, heq⟩ :=
    consume_trivia ct hct ts hwf (l.input.length + 1) l sc false _ hin hfuel
  have hin1 := skipN_input_of l (render ts) _ _ hin rfl
  obtain ⟨g, rfl⟩ : ∃ g, fuel1 = g + 1 := ⟨fuel1 - 1, by omega⟩
  rw [scan_whitespace_and_comments, heq, loop_reject ct true g _ _ _ rest hct.slash hin1 h1 h2,
    skip_skipN]

/-- In probe mode the loop either returns at the close of a block comment that is
not directly followed by `/`, or runs through the whole run; the second happens
only when the run is all white space, or holds a line comment, or is followed
by `/`. -/
theorem probe_trivia (ct : CType) (hct : ct.Conforming) (ts : List Trivia)
    (hwf : ∀ t ∈ ts, t.wf ct = true) :
    ∀ (fuel : Nat) (l : TSLexer) (sc sbn : Bool) (rest : List Nat),
      l.input = render ts ++ rest → ts.length < fuel →
      (∃ ts0 b ts1, ts = ts0 ++ Trivia.block b :: ts1 ∧
        (render ts1 ++ rest).headD 0 ≠ 47 ∧
        scan_whitespace_and_comments_loop ct false fuel l sc sbn =
          some (if (sbn || (ts0 ++ [Trivia.block b]).any Trivia.blockNewline) = true
              then .ACCEPT else .NO_NEWLINE,
            skipN (render (ts0 ++ [Trivia.block b])).length l, true)) ∨
      ((ts.all Trivia.isSpace = true ∨ rest.headD 0 = 47 ∨ ts.any Trivia.isLine = true) ∧
        ∃ fuel1, 0 < fuel1 ∧
          scan_whitespace_and_comments_loop ct false fuel l sc sbn =
            scan_whitespace_and_comments_loop ct false fuel1 (skipN (render ts).length l)
              (sc || ts.any Trivia.isComment) (sbn || ts.any Trivia.blockNewline)) := by
  induction ts with
  | nil =>
    intro fuel l sc sbn rest _ hf
    exact Or.inr ⟨Or.inl rfl, fuel, hf, by simp [render, skipN_zero]⟩
  | cons t ts ih =>
    intro fuel l sc sbn rest hin hf
    have hwf1 : ∀ t ∈ ts, t.wf ct = true := fun x hx => hwf x (by simp [hx])
    have ht := hwf t (by simp)
    cases fuel with
    | zero => omega
    | succ f =>
      have hlen : ts.length < f := by simpa using hf
      cases t with
      | space c =>
        have hin1 : l.input = c :: (render ts ++ rest) := by simpa [render, Trivia.chars] using hin
        have hstep := loop_space ct false f l sc sbn c _ hin1 ht
        rcases ih hwf1 (f + 1) (skip l) sc sbn rest (skip_input_cons l _ _ hin1) (by omega) with
          ⟨ts0, b, ts1, hts, hhd, heq⟩ | ⟨hinfo, fuel1, hpos, heq⟩
        · refine Or.inl ⟨Trivia.space c :: ts0, b, ts1, by simp [hts], hhd, ?_⟩
          rw [hstep, heq, skip_eq_skipN, skipN_skipN]
          simp [render, Trivia.chars, Trivia.blockNewline, Nat.add_comm]
        · refine Or.inr ⟨?_, fuel1, hpos, ?_⟩
          · rcases hinfo with h | h | h
            · exact Or.inl (by simp [Trivia.isSpace, h])
            · exact Or.inr (Or.inl h)
            · exact Or.inr (Or.inr (by simp [h]))
          · rw [hstep, heq, skip_eq_skipN, skipN_skipN]
            simp [render, Trivia.chars, Trivia.isComment, Trivia.blockNewline, Nat.add_comm]
      | line body t =>
        have hin1 : l.input = 47 :: 47 :: (body ++ (t :: (render ts ++ rest))) := by
          simpa [render, Trivia.chars] using hin
        have hlt := wf_line_terminator ct body t ht
        have hstep := loop_line ct false f l sc sbn body (t :: (render ts ++ rest)) hct.slash hin1
          (wf_line_body ct body t ht) (Or.inr hlt)
        have hin2 : (skipN (body.length + 2) l).input = t :: (render ts ++ rest) :=
          skipN_input_of l (47 :: 47 :: body) _ _ (by simpa using hin1) (by simp)
        cases f with
        | zero => omega
        | succ g =>
          have hstep2 := loop_space ct false g _ true sbn t _ hin2 (hct.line_terminator t hlt)
          have hlen3 : body.length + 2 + 1 = (Trivia.line body t).chars.length := by
            simp [Trivia.chars]
          rcases ih hwf1 (g + 1) (skip (skipN (body.length + 2) l)) true sbn rest
            (skip_input_cons _ _ _ hin2) (by omega) with
            ⟨ts0, b, ts1, hts, hhd, heq⟩ | ⟨hinfo, fuel1, hpos, heq⟩
          · refine Or.inl ⟨Trivia.line body t :: ts0, b, ts1, by simp [hts], hhd, ?_⟩
            rw [hstep, hstep2, heq, skip_skipN, skipN_skipN, hlen3]
            simp [render, Trivia.blockNewline]
          · refine Or.inr ⟨Or.inr (Or.inr (by simp [Trivia.isLine])), fuel1, hpos, ?_⟩
            rw [hstep, hstep2, heq, skip_skipN, skipN_skipN, hlen3]
            simp [render, Trivia.isComment, Trivia.blockNewline]
      | block body =>
        have hin1 : l.input = 47 :: 42 :: (body ++ 42 :: 47 :: (render ts ++ rest)) := by
          simpa [render, Trivia.chars] using hin
        obtain ⟨hb0, hbns⟩ := wf_block ct body ht
        have hstep := loop_block ct false f l sc sbn body (render ts ++ rest) hct.slash hin1
          hb0 hbns
        have hin2 : (skipN (body.length + 4) l).input = render ts ++ rest :=
          skipN_input_of l (47 :: 42 :: (body ++ [42, 47])) _ _ (by simpa using hin1) (by simp)
        have hlen4 : body.length + 4 = (Trivia.block body).chars.length := by
          simp [Trivia.chars]
        by_cases hnext : (render ts ++ rest).headD 0 = 47
        · rw [if_neg (fun h => h.1 hnext)] at hstep
          rcases ih hwf1 f (skipN (body.length + 4) l) true (sbn || body.any isLineTerminator)
            rest hin2 hlen with ⟨ts0, b, ts1, hts, hhd, heq⟩ | ⟨hinfo, fuel1, hpos, heq⟩
          · refine Or.inl ⟨Trivia.block body :: ts0, b, ts1, by simp [hts], hhd, ?_⟩
            rw [hstep, heq, skipN_skipN, hlen4]
            simp [render, Trivia.blockNewline, Bool.or_assoc]
          · refine Or.inr ⟨?_, fuel1, hpos, ?_⟩
            · rcases hinfo with h | h | h
              · cases ts with
                | nil => exact Or.inr (Or.inl (by simpa [render] using hnext))
                | cons u us =>
                  exfalso
                  cases u with
                  | space c =>
                    have hc : ct.iswspace c = true := hwf1 (Trivia.space c) (by simp)
                    have : c = 47 := by simpa [render, Trivia.chars] using hnext
                    rw [this, hct.slash] at hc
                    exact Bool.noConfusion hc
                  | line _ _ => simp [Trivia.isSpace] at h
                  | block _ => simp [Trivia.isSpace] at h
              · exact Or.inr (Or.inl h)
              · exact Or.inr (Or.inr (by simp [h]))
            · rw [hstep, heq, skipN_skipN, hlen4]
              simp [render, Trivia.isComment, Trivia.blockNewline, Bool.or_assoc]
        · rw [if_pos ⟨hnext, rfl⟩] at hstep
          refine Or.inl ⟨[], body, ts, rfl, hnext, ?_⟩
          rw [hstep, hlen4]
          simp [render, Trivia.blockNewline]

/-! ## One iteration of the first loop of `scan_automatic_semicolon` -/

theorem comment_check_other (ct : CType) (l : TSLexer) (sc : Bool) (h : l.lookahead ≠ 47) :
    comment_check ct l sc = some (.next l sc) := by
  rw [comment_check, if_neg h]

theorem comment_check_probe (ct : CType) (l l1 : TSLexer) (sc sc1 : Bool)
    (r : WhitespaceResult) (h : l.lookahead = 47)
    (hp : scan_whitespace_and_comments ct l sc false = some (r, l1, sc1)) :
    comment_check ct l sc =
      some (if r = .REJECT then .ret false l1
        else if r = .ACCEPT ∧ l1.lookahead ≠ 44 ∧ l1.lookahead ≠ 61 then .ret true l1
        else .next l1 sc1) := by
  rw [comment_check, if_pos h, hp]
  simp only
  split_ifs <;> rfl

theorem boundary_check_brace (ct : CType) (l : TSLexer) (sc : Bool) (h : l.lookahead = 125) :
    boundary_check ct l sc = .ret true l := by
  rw [boundary_check, if_pos h]

theorem boundary_check_range (ct : CType) (l : TSLexer) (sc : Bool)
    (h : l.is_at_included_range_start = true) : boundary_check ct l sc = .ret true l := by
  rw [boundary_check]
  split_ifs <;> rfl

theorem boundary_check_terminator (ct : CType) (l : TSLexer) (sc : Bool)
    (h1 : l.lookahead ≠ 125) (h2 : l.is_at_included_range_start = false)
    (h3 : isLineTerminator l.lookahead = true) : boundary_check ct l sc = .brk l sc := by
  have h4 : l.lookahead = 10 ∨ l.lookahead = 0x2028 ∨ l.lookahead = 0x2029 := by
    simp only [isLineTerminator, Bool.or_eq_true, beq_iff_eq] at h3
    omega
  rw [boundary_check, if_neg h1, if_neg (by simp [h2]), if_pos h4]

theorem boundary_check_other (ct : CType) (l : TSLexer) (sc : Bool)
    (h1 : l.lookahead ≠ 125) (h2 : l.is_at_included_range_start = false)
    (h3 : isLineTerminator l.lookahead = false) (h4 : ct.iswspace l.lookahead = false) :
    boundary_check ct l sc = .ret false l := by
  have h5 : ¬ (l.lookahead = 10 ∨ l.lookahead = 0x2028 ∨ l.lookahead = 0x2029) := by
    simp only [isLineTerminator, Bool.or_eq_false_iff, beq_eq_false_iff_ne] at h3
    omega
  rw [boundary_check, if_neg h1, if_neg (by simp [h2]), if_neg h5, if_pos h4]

theorem boundary_check_space (ct : CType) (l : TSLexer) (sc : Bool)
    (h1 : l.lookahead ≠ 125) (h2 : l.is_at_included_range_start = false)
    (h3 : isLineTerminator l.lookahead = false) (h4 : ct.iswspace l.lookahead = true) :
    boundary_check ct l sc = .next (skip l) sc := by
  have h5 : ¬ (l.lookahead = 10 ∨ l.lookahead = 0x2028 ∨ l.lookahead = 0x2029) := by
    simp only [isLineTerminator, Bool.or_eq_false_iff, beq_eq_false_iff_ne] at h3
    omega
  rw [boundary_check, if_neg h1, if_neg (by simp [h2]), if_neg h5, if_neg (by simp [h4])]

theorem semicolon_loop_eof (ct : CType) (f : Nat) (l : TSLexer) (sc : Bool)
    (h : l.lookahead = 0) : semicolon_loop ct (f + 1) l sc = some (.returned true l) := by
  rw [semicolon_loop, if_pos h]

theorem semicolon_loop_ret (ct : CType) (f : Nat) (l l1 : TSLexer) (sc b : Bool)
    (h0 : l.lookahead ≠ 0) (hc : comment_check ct l sc = some (.ret b l1)) :
    semicolon_loop ct (f + 1) l sc = some (.returned b l1) := by
  rw [semicolon_loop, if_neg h0, hc]

theorem semicolon_loop_next (ct : CType) (f : Nat) (l l1 : TSLexer) (sc sc1 : Bool)
    (h0 : l.lookahead ≠ 0) (hc : comment_check ct l sc = some (.next l1 sc1)) :
    semicolon_loop ct (f + 1) l sc =
      match boundary_check ct l1 sc1 with
      | .ret b l2 => some (.returned b l2)
      | .brk l2 sc2 => some (.broke l2 sc2)
      | .next l2 sc2 => semicolon_loop ct f l2 sc2 := by
  rw [semicolon_loop, if_neg h0, hc]

theorem semicolon_loop_next_ret (ct : CType) (f : Nat) (l l1 l2 : TSLexer) (sc sc1 b : Bool)
    (h0 : l.lookahead ≠ 0) (hc : comment_check ct l sc = some (.next l1 sc1))
    (hb : boundary_check ct l1 sc1 = .ret b l2) :
    semicolon_loop ct (f + 1) l sc = some (.returned b l2) := by
  rw [semicolon_loop_next ct f l l1 sc sc1 h0 hc, hb]

theorem semicolon_loop_next_brk (ct : CType) (f : Nat) (l l1 l2 : TSLexer) (sc sc1 sc2 : Bool)
    (h0 : l.lookahead ≠ 0) (hc : comment_check ct l sc = some (.next l1 sc1))
    (hb : boundary_check ct l1 sc1 = .brk l2 sc2) :
    semicolon_loop ct (f + 1) l sc = some (.broke l2 sc2) := by
  rw [semicolon_loop_next ct f l l1 sc sc1 h0 hc, hb]

theorem semicolon_loop_next_next (ct : CType) (f : Nat) (l l1 l2 : TSLexer) (sc sc1 sc2 : Bool)
    (h0 : l.lookahead ≠ 0) (hc : comment_check ct l sc = some (.next l1 sc1))
    (hb : boundary_check ct l1 sc1 = .next l2 sc2) :
    semicolon_loop ct (f + 1) l sc = semicolon_loop ct f l2 sc2 := by
  rw [semicolon_loop_next ct f l l1 sc sc1 h0 hc, hb]

/-- A white-space character is none of NUL, `/`, `}`. -/
theorem CType.Conforming.space_ne {ct : CType} (h : ct.Conforming) (c : Nat)
    (hc : ct.iswspace c = true) : c ≠ 0 ∧ c ≠ 47 ∧ c ≠ 125 := by
  refine ⟨?_, ?_, ?_⟩ <;> intro hh <;> subst hh
  · rw [h.nul] at hc; exact Bool.noConfusion hc
  · rw [h.slash] at hc; exact Bool.noConfusion hc
  · rw [h.not_space 125 (by decide) (by decide) (by decide)] at hc; exact Bool.noConfusion hc

/-! ## The first loop in front of a closing brace -/

theorem probe_result_ne_reject (b : Bool) :
    (if b = true then WhitespaceResult.ACCEPT else WhitespaceResult.NO_NEWLINE) ≠ .REJECT := by
  cases b <;> simp

/-- In front of well-formed insignificant material followed by `}` the first loop
returns `true`, or breaks at a white-space item of the material. -/
theorem semicolon_loop_brace (ct : CType) (hct : ct.Conforming) (rest : List Nat) :
    ∀ (fuel : Nat) (ts : List Trivia) (l : TSLexer) (sc : Bool),
      (∀ t ∈ ts, t.wf ct = true) → l.input = render ts ++ 125 :: rest →
      (render ts).length < fuel →
      (∃ l1, semicolon_loop ct fuel l sc = some (.returned true l1)) ∨
      (∃ ts0 c ts1 sc1, ts = ts0 ++ Trivia.space c :: ts1 ∧
        semicolon_loop ct fuel l sc = some (.broke (skipN (render ts0).length l) sc1)) := by
  intro fuel
  induction fuel with
  | zero => intro ts l sc _ _ hf; omega
  | succ f ih =>
    have tail : ∀ (ts1 : List Trivia) (l l1 : TSLexer) (sc sc1 : Bool),
        (∀ t ∈ ts1, t.wf ct = true) → l.lookahead ≠ 0 →
        comment_check ct l sc = some (.next l1 sc1) →
        l1.input = render ts1 ++ 125 :: rest → l1.lookahead ≠ 47 →
        (render ts1).length < f + 1 →
        (∃ l2, semicolon_loop ct (f + 1) l sc = some (.returned true l2)) ∨
        (∃ ts0 c ts2 sc2, ts1 = ts0 ++ Trivia.space c :: ts2 ∧
          semicolon_loop ct (f + 1) l sc =
            some (.broke (skipN (render ts0).length l1) sc2)) := by
      intro ts1 l l1 sc sc1 hwf h0 hcc hin hne hlen
      cases ts1 with
      | nil =>
        have hl : l1.lookahead = 125 := lookahead_cons l1 _ _ (by simpa [render] using hin)
        exact Or.inl ⟨l1, semicolon_loop_next_ret ct f l l1 l1 sc sc1 true h0 hcc
          (boundary_check_brace ct l1 sc1 hl)⟩
      | cons t ts2 =>
        cases t with
        | space c =>
          have hin1 : l1.input = c :: (render ts2 ++ 125 :: rest) := by
            simpa [render, Trivia.chars] using hin
          have hl : l1.lookahead = c := lookahead_cons l1 _ _ hin1
          have hc : ct.iswspace c = true := hwf (Trivia.space c) (by simp)
          have hcne := hct.space_ne c hc
          by_cases hr : l1.is_at_included_range_start = true
          · exact Or.inl ⟨l1, semicolon_loop_next_ret ct f l l1 l1 sc sc1 true h0 hcc
              (boundary_check_range ct l1 sc1 hr)⟩
          · have hr2 : l1.is_at_included_range_start = false := by simpa using hr
            by_cases hlt : isLineTerminator c = true
            · refine Or.inr ⟨[], c, ts2, sc1, rfl, ?_⟩
              rw [semicolon_loop_next_brk ct f l l1 l1 sc sc1 sc1 h0 hcc
                (boundary_check_terminator ct l1 sc1 (by rw [hl]; exact hcne.2.2) hr2
                  (by rw [hl]; exact hlt))]
              simp [render, skipN_zero]
            · have hlt2 : isLineTerminator c = false := by simpa using hlt
              have hstep := semicolon_loop_next_next ct f l l1 (skip l1) sc sc1 sc1 h0 hcc
                (boundary_check_space ct l1 sc1 (by rw [hl]; exact hcne.2.2) hr2
                  (by rw [hl]; exact hlt2) (by rw [hl]; exact hc))
              have hlen2 : (render ts2).length < f := by
                simp [render, Trivia.chars] at hlen; omega
              rcases ih ts2 (skip l1) sc1 (fun x hx => hwf x (by simp [hx]))
                (skip_input_cons l1 _ _ hin1) hlen2 with ⟨l2, heq⟩ | ⟨ts0, d, ts3, sc2, hts, heq⟩
              · exact Or.inl ⟨l2, by rw [hstep, heq]⟩
              · refine Or.inr ⟨Trivia.space c :: ts0, d, ts3, sc2, by simp [hts], ?_⟩
                rw [hstep, heq, skip_eq_skipN, skipN_skipN]
                simp [render, Trivia.chars, Nat.add_comm]
        | line body t =>
          exact absurd (lookahead_cons l1 47 _ (by simpa [render, Trivia.chars] using hin)) hne
        | block body =>
          exact absurd (lookahead_cons l1 47 _ (by simpa [render, Trivia.chars] using hin)) hne
    intro ts l sc hwf hin hlen
    have hmain : ∀ (_ : l.lookahead = 47),
        (∃ l1, semicolon_loop ct (f + 1) l sc = some (.returned true l1)) ∨
        (∃ ts0 c ts1 sc1, ts = ts0 ++ Trivia.space c :: ts1 ∧
          semicolon_loop ct (f + 1) l sc =
            some (.broke (skipN (render ts0).length l) sc1)) := by
      intro hl47
      have h0 : l.lookahead ≠ 0 := by rw [hl47]; decide
      have hfuel : ts.length < l.input.length + 1 := by
        have := length_le_render ts
        rw [hin, List.length_append]; omega
      rcases probe_trivia ct hct ts hwf (l.input.length + 1) l sc false (125 :: rest) hin hfuel
        with ⟨ts0, b, ts1, hts, hhd, heq⟩ | ⟨_, fuel1, hpos, heq⟩
      · have hin1 : (skipN (render (ts0 ++ [Trivia.block b])).length l).input =
            render ts1 ++ 125 :: rest :=
          skipN_input_of l (render (ts0 ++ [Trivia.block b])) _ _
            (by rw [hin, hts, render_append, render_append]; simp [render]) rfl
        have hla : (skipN (render (ts0 ++ [Trivia.block b])).length l).lookahead ≠ 47 := by
          rw [TSLexer.lookahead, hin1]; exact hhd
        have hcc := comment_check_probe ct l _ sc true _ hl47 heq
        rw [if_neg (probe_result_ne_reject _)] at hcc
        by_cases hacc : ((if (false || (ts0 ++ [Trivia.block b]).any Trivia.blockNewline) = true
            then WhitespaceResult.ACCEPT else WhitespaceResult.NO_NEWLINE) = .ACCEPT ∧
            (skipN (render (ts0 ++ [Trivia.block b])).length l).lookahead ≠ 44 ∧
            (skipN (render (ts0 ++ [Trivia.block b])).length l).lookahead ≠ 61)
        · rw [if_pos hacc] at hcc
          exact Or.inl ⟨_, semicolon_loop_ret ct f l _ sc true h0 hcc⟩
        · rw [if_neg hacc] at hcc
          have hlen1 : (render ts1).length < f + 1 := by
            rw [hts, render_append, render_cons] at hlen
            simp at hlen; omega
          rcases tail ts1 l _ sc true (fun x hx => hwf x (by simp [hts, hx])) h0 hcc hin1 hla
            hlen1 with ⟨l2, heq2⟩ | ⟨ts2, c, ts3, sc2, hts2, heq2⟩
          · exact Or.inl ⟨l2, heq2⟩
          · refine Or.inr ⟨ts0 ++ Trivia.block b :: ts2, c, ts3, sc2, by simp [hts, hts2], ?_⟩
            rw [heq2, skipN_skipN]
            simp [render_append, render, Nat.add_assoc]
      · have hla : (skipN (render ts).length l).lookahead = 125 := by
          rw [skipN_lookahead_of l (render ts) _ _ hin rfl]; rfl
        obtain ⟨g, rfl⟩ : ∃ g, fuel1 = g + 1 := ⟨fuel1 - 1, by omega⟩
        rw [loop_stop ct false g _ _ _
          (by rw [hla]; exact hct.not_space 125 (by decide) (by decide) (by decide))
          (by rw [hla]; decide)] at heq
        have hcc := comment_check_probe ct l _ sc _ _ hl47 heq
        rw [if_neg (by decide), if_pos ⟨rfl, by rw [hla]; decide, by rw [hla]; decide⟩] at hcc
        exact Or.inl ⟨_, semicolon_loop_ret ct f l _ sc true h0 hcc⟩
    have hother : l.lookahead ≠ 0 → l.lookahead ≠ 47 →
        (∃ l1, semicolon_loop ct (f + 1) l sc = some (.returned true l1)) ∨
        (∃ ts0 c ts1 sc1, ts = ts0 ++ Trivia.space c :: ts1 ∧
          semicolon_loop ct (f + 1) l sc =
            some (.broke (skipN (render ts0).length l) sc1)) :=
      fun h0 h47 => tail ts l l sc sc hwf h0 (comment_check_other ct l sc h47) hin h47 hlen
    cases ts with
    | nil =>
      have hl : l.lookahead = 125 := lookahead_cons l _ _ (by simpa [render] using hin)
      exact hother (by rw [hl]; decide) (by rw [hl]; decide)
    | cons t ts2 =>
      cases t with
      | space c =>
        have hl : l.lookahead = c :=
          lookahead_cons l c (render ts2 ++ 125 :: rest) (by simpa [render, Trivia.chars] using hin)
        have hcne := hct.space_ne c (hwf (Trivia.space c) (by simp))
        exact hother (by rw [hl]; exact hcne.1) (by rw [hl]; exact hcne.2.1)
      | line body t =>
        exact hmain (lookahead_cons l 47 _ (by simpa [render, Trivia.chars] using hin))
      | block body =>
        exact hmain (lookahead_cons l 47 _ (by simpa [render, Trivia.chars] using hin))

/-! ## The first loop over material without a line terminator -/

theorem skipN_pos (l : TSLexer) (k : Nat) (h : k ≤ l.input.length) :
    (skipN k l).pos = l.pos + k := by
  simp only [skipN]
  rw [Nat.min_eq_left h]

theorem skipN_starts (l : TSLexer) (k : Nat) :
    (skipN k l).included_range_starts = l.included_range_starts := rfl

theorem skip_pos (l : TSLexer) (c : Nat) (t : List Nat) (h : l.input = c :: t) :
    (skip l).pos = l.pos + 1 := by
  rw [skip_eq_skipN, skipN_pos l 1 (by rw [h]; simp)]

theorem skip_starts (l : TSLexer) :
    (skip l).included_range_starts = l.included_range_starts := rfl

theorem not_range_start (l : TSLexer) (n : Nat) (hn : 0 < n)
    (h : ∀ q ∈ l.included_range_starts, q < l.pos ∨ l.pos + n ≤ q) :
    l.is_at_included_range_start = false := by
  simp only [TSLexer.is_at_included_range_start, List.contains_eq_any_beq, List.any_eq_false,
    beq_iff_eq]
  intro q hq hqe
  have := h q hq
  omega

theorem sameLine_blockNewline (ts : List Trivia) (h : ∀ t ∈ ts, t.sameLine = true) :
    ts.any Trivia.blockNewline = false := by
  rw [List.any_eq_false]
  intro t ht
  have hs := h t ht
  cases t with
  | space c => simp [Trivia.blockNewline]
  | line b c => simp [Trivia.blockNewline]
  | block b =>
    simp only [Trivia.sameLine, List.all_eq_true, Bool.not_eq_true'] at hs
    simp only [Trivia.blockNewline, List.any_eq_true, not_exists, not_and, Bool.not_eq_true]
    exact hs

theorem boundary_check_not_next (ct : CType) (l l2 : TSLexer) (sc sc2 : Bool)
    (h : ct.iswspace l.lookahead = false ∨ isLineTerminator l.lookahead = true) :
    boundary_check ct l sc ≠ .next l2 sc2 := by
  rw [boundary_check]
  split_ifs with h1 h2 h3 h4
  · simp
  · simp
  · simp
  · simp
  · exfalso
    rcases h with h | h
    · exact h4 h
    · simp only [isLineTerminator, Bool.or_eq_true, beq_iff_eq] at h
      omega

theorem semicolon_loop_fuel_one (ct : CType) (f : Nat) (l : TSLexer) (sc : Bool)
    (h0 : l.lookahead ≠ 0) (h47 : l.lookahead ≠ 47)
    (h : ct.iswspace l.lookahead = false ∨ isLineTerminator l.lookahead = true) :
    semicolon_loop ct (f + 1) l sc = semicolon_loop ct 1 l sc := by
  have hcc := comment_check_other ct l sc h47
  rw [semicolon_loop_next ct f l l sc sc h0 hcc, semicolon_loop_next ct 0 l l sc sc h0 hcc]
  cases hb : boundary_check ct l sc with
  | ret b l2 => rfl
  | brk l2 sc2 => rfl
  | next l2 sc2 => exact absurd hb (boundary_check_not_next ct l l2 sc sc2 h)

theorem semicolon_loop_tail_fuel_one (ct : CType) (f : Nat) (l l1 : TSLexer) (sc sc1 : Bool)
    (h0 : l.lookahead ≠ 0) (hcc : comment_check ct l sc = some (.next l1 sc1))
    (h10 : l1.lookahead ≠ 0) (h47 : l1.lookahead ≠ 47)
    (h : ct.iswspace l1.lookahead = false ∨ isLineTerminator l1.lookahead = true) :
    semicolon_loop ct (f + 1) l sc = semicolon_loop ct 1 l1 sc1 := by
  rw [semicolon_loop_next ct f l l1 sc sc1 h0 hcc,
    semicolon_loop_next ct 0 l1 l1 sc1 sc1 h10 (comment_check_other ct l1 sc1 h47)]
  cases hb : boundary_check ct l1 sc1 with
  | ret b l2 => rfl
  | brk l2 sc2 => rfl
  | next l2 sc2 => exact absurd hb (boundary_check_not_next ct l1 l2 sc1 sc2 h)

theorem semicolon_loop_reject (ct : CType) (hct : ct.Conforming) (f : Nat) (l : TSLexer)
    (sc : Bool) (r : List Nat) (hin : l.input = 47 :: r) (h1 : r.headD 0 ≠ 47)
    (h2 : r.headD 0 ≠ 42) :
    semicolon_loop ct (f + 1) l sc = some (.returned false (skip l)) := by
  have hl : l.lookahead = 47 := lookahead_cons l _ _ hin
  have hp : scan_whitespace_and_comments ct l sc false = some (.REJECT, skip l, sc) := by
    rw [scan_whitespace_and_comments, loop_reject ct false _ l sc false r hct.slash hin h1 h2]
  have hcc := comment_check_probe ct l _ sc _ _ hl hp
  rw [if_pos rfl] at hcc
  exact semicolon_loop_ret ct f l _ sc false (by rw [hl]; decide) hcc

/-- Over white space other than line terminators and block comments without a
line terminator the first loop either returns `true` at an included-range start
inside that material, or comes to the character `c` behind it as if it had
started there; `c` is not NUL, is a line terminator or no white space, and does
not open a comment. -/
theorem semicolon_loop_same_line (ct : CType) (hct : ct.Conforming) (c : Nat) (r : List Nat)
    (hc0 : c ≠ 0) (hc : ct.iswspace c = false ∨ isLineTerminator c = true)
    (hslash : c = 47 → r.headD 0 ≠ 47 ∧ r.headD 0 ≠ 42) :
    ∀ (fuel : Nat) (p : List Trivia) (l : TSLexer) (sc : Bool),
      (∀ t ∈ p, t.wf ct = true) → (∀ t ∈ p, t.sameLine = true) →
      l.input = render p ++ c :: r → (render p).length < fuel →
      (∃ k, k < (render p).length ∧ (skipN k l).is_at_included_range_start = true ∧
        semicolon_loop ct fuel l sc = some (.returned true (skipN k l))) ∨
      (∃ sc1, semicolon_loop ct fuel l sc =
        semicolon_loop ct 1 (skipN (render p).length l) sc1) := by
  intro fuel
  induction fuel with
  | zero => intro p l sc _ _ _ hf; omega
  | succ f ih =>
    have tail : ∀ (ts1 : List Trivia) (l l1 : TSLexer) (sc sc1 : Bool),
        (∀ t ∈ ts1, t.wf ct = true) → (∀ t ∈ ts1, t.sameLine = true) → l.lookahead ≠ 0 →
        comment_check ct l sc = some (.next l1 sc1) →
        l1.input = render ts1 ++ c :: r → l1.lookahead ≠ 47 →
        (render ts1).length < f + 1 →
        (∃ k, k < (render ts1).length ∧ (skipN k l1).is_at_included_range_start = true ∧
          semicolon_loop ct (f + 1) l sc = some (.returned true (skipN k l1))) ∨
        (∃ sc2, semicolon_loop ct (f + 1) l sc =
          semicolon_loop ct 1 (skipN (render ts1).length l1) sc2) := by
      intro ts1 l l1 sc sc1 hwf hsl h0 hcc hin hne hlen
      cases ts1 with
      | nil =>
        have hl : l1.lookahead = c := lookahead_cons l1 _ _ (by simpa [render] using hin)
        refine Or.inr ⟨sc1, ?_⟩
        rw [semicolon_loop_tail_fuel_one ct f l l1 sc sc1 h0 hcc (by rw [hl]; exact hc0) hne
          (by rw [hl]; exact hc)]
        simp [render, skipN_zero]
      | cons t ts2 =>
        cases t with
        | space d =>
          have hin1 : l1.input = d :: (render ts2 ++ c :: r) := by
            simpa [render, Trivia.chars] using hin
          have hl : l1.lookahead = d := lookahead_cons l1 _ _ hin1
          have hd : ct.iswspace d = true := hwf (Trivia.space d) (by simp)
          have hdne := hct.space_ne d hd
          have hlt : isLineTerminator d = false := by
            simpa [Trivia.sameLine] using hsl (Trivia.space d) (by simp)
          by_cases hr : l1.is_at_included_range_start = true
          · refine Or.inl ⟨0, by simp [render, Trivia.chars], by rw [skipN_zero]; exact hr, ?_⟩
            rw [skipN_zero]
            exact semicolon_loop_next_ret ct f l l1 l1 sc sc1 true h0 hcc
              (boundary_check_range ct l1 sc1 hr)
          · have hr2 : l1.is_at_included_range_start = false := by simpa using hr
            have hstep := semicolon_loop_next_next ct f l l1 (skip l1) sc sc1 sc1 h0 hcc
              (boundary_check_space ct l1 sc1 (by rw [hl]; exact hdne.2.2) hr2
                (by rw [hl]; exact hlt) (by rw [hl]; exact hd))
            have hlen2 : (render ts2).length < f := by
              simp [render, Trivia.chars] at hlen; omega
            have hlen3 : (render (Trivia.space d :: ts2)).length = 1 + (render ts2).length := by
              simp [render, Trivia.chars, Nat.add_comm]
            rcases ih ts2 (skip l1) sc1 (fun x hx => hwf x (by simp [hx]))
              (fun x hx => hsl x (by simp [hx])) (skip_input_cons l1 _ _ hin1) hlen2 with
              ⟨k, hk, hkr, heq⟩ | ⟨sc2, heq⟩
            · rw [skip_eq_skipN, skipN_skipN] at hkr heq
              exact Or.inl ⟨1 + k, by rw [hlen3]; omega, hkr, by rw [hstep, skip_eq_skipN, heq]⟩
            · refine Or.inr ⟨sc2, ?_⟩
              rw [hstep, heq, skip_eq_skipN, skipN_skipN, hlen3]
        | line body t =>
          have := hsl (Trivia.line body t) (by simp)
          simp [Trivia.sameLine] at this
        | block body =>
          exact absurd (lookahead_cons l1 47 _ (by simpa [render, Trivia.chars] using hin)) hne
    intro p l sc hwf hsl hin hlen
    have hother : l.lookahead ≠ 0 → l.lookahead ≠ 47 →
        (∃ k, k < (render p).length ∧ (skipN k l).is_at_included_range_start = true ∧
          semicolon_loop ct (f + 1) l sc = some (.returned true (skipN k l))) ∨
        (∃ sc1, semicolon_loop ct (f + 1) l sc =
          semicolon_loop ct 1 (skipN (render p).length l) sc1) :=
      fun h0 h47 => tail p l l sc sc hwf hsl h0 (comment_check_other ct l sc h47) hin h47 hlen
    cases p with
    | nil =>
      have hin1 : l.input = c :: r := by simpa [render] using hin
      have hl : l.lookahead = c := lookahead_cons l _ _ hin1
      by_cases h47 : c = 47
      · subst h47
        refine Or.inr ⟨sc, ?_⟩
        rw [semicolon_loop_reject ct hct f l sc r hin1 (hslash rfl).1 (hslash rfl).2]
        simp only [render, List.length_nil, skipN_zero]
        rw [semicolon_loop_reject ct hct 0 l sc r hin1 (hslash rfl).1 (hslash rfl).2]
      · exact hother (by rw [hl]; exact hc0) (by rw [hl]; exact h47)
    | cons t ts2 =>
      cases t with
      | space d =>
        have hl : l.lookahead = d :=
          lookahead_cons l d (render ts2 ++ c :: r) (by simpa [render, Trivia.chars] using hin)
        have hdne := hct.space_ne d (hwf (Trivia.space d) (by simp))
        exact hother (by rw [hl]; exact hdne.1) (by rw [hl]; exact hdne.2.1)
      | line body t =>
        have := hsl (Trivia.line body t) (by simp)
        simp [Trivia.sameLine] at this
      | block body =>
        have hl47 : l.lookahead = 47 :=
          lookahead_cons l 47 _ (by simpa [render, Trivia.chars] using hin)
        have h0 : l.lookahead ≠ 0 := by rw [hl47]; decide
        have hfuel : (Trivia.block body :: ts2).length < l.input.length + 1 := by
          have := length_le_render (Trivia.block body :: ts2)
          rw [hin, List.length_append]; omega
        rcases probe_trivia ct hct _ hwf (l.input.length + 1) l sc false (c :: r) hin hfuel
          with ⟨ts0, b, ts1, hts, hhd, heq⟩ | ⟨hinfo, fuel1, hpos, heq⟩
        · have hrender : render (Trivia.block body :: ts2) =
              render (ts0 ++ [Trivia.block b]) ++ render ts1 := by
            rw [hts, render_append, render_append]; simp [render]
          have hin1 : (skipN (render (ts0 ++ [Trivia.block b])).length l).input =
              render ts1 ++ c :: r :=
            skipN_input_of l (render (ts0 ++ [Trivia.block b])) _ _
              (by rw [hin, hrender, List.append_assoc]) rfl
          have hla : (skipN (render (ts0 ++ [Trivia.block b])).length l).lookahead ≠ 47 := by
            rw [TSLexer.lookahead, hin1]; exact hhd
          have hsl0 : ∀ t ∈ ts0 ++ [Trivia.block b], t.sameLine = true := by
            intro x hx
            apply hsl x
            rw [hts]
            simp only [List.mem_append, List.mem_singleton, List.mem_cons] at hx ⊢
            tauto
          have hnl : (false || (ts0 ++ [Trivia.block b]).any Trivia.blockNewline) = false := by
            rw [sameLine_blockNewline _ hsl0]; rfl
          rw [hnl] at heq
          have hcc := comment_check_probe ct l _ sc true _ hl47 heq
          rw [if_neg (by simp), if_neg (by simp)] at hcc
          have hlen1 : (render ts1).length < f + 1 := by
            rw [hrender, List.length_append] at hlen; omega
          rcases tail ts1 l _ sc true (fun x hx => hwf x (by simp [hts, hx]))
            (fun x hx => hsl x (by simp [hts, hx])) h0 hcc hin1 hla hlen1 with
            ⟨k, hk, hkr, heq2⟩ | ⟨sc2, heq2⟩
          · rw [skipN_skipN] at hkr heq2
            exact Or.inl ⟨_, by rw [hrender, List.length_append]; omega, hkr, heq2⟩
          · refine Or.inr ⟨sc2, ?_⟩
            rw [heq2, skipN_skipN, hrender, List.length_append]
        · have hc47 : c = 47 := by
            rcases hinfo with h | h | h
            · simp [Trivia.isSpace] at h
            · simpa using h
            · exfalso
              rw [List.any_eq_true] at h
              obtain ⟨x, hx, hxl⟩ := h
              have := hsl x hx
              cases x <;> simp [Trivia.isLine, Trivia.sameLine] at hxl this
          subst hc47
          have hin1 := skipN_input_of l (render (Trivia.block body :: ts2)) _ _ hin rfl
          obtain ⟨g, rfl⟩ : ∃ g, fuel1 = g + 1 := ⟨fuel1 - 1, by omega⟩
          rw [loop_reject ct false g _ _ _ r hct.slash hin1 (hslash rfl).1 (hslash rfl).2] at heq
          have hcc := comment_check_probe ct l _ sc _ _ hl47 heq
          rw [if_pos rfl] at hcc
          refine Or.inr ⟨sc, ?_⟩
          rw [semicolon_loop_ret ct f l _ sc false h0 hcc,
            semicolon_loop_reject ct hct 0 _ sc r hin1 (hslash rfl).1 (hslash rfl).2]

/-- The same when no included range starts inside the material. -/
theorem semicolon_loop_same_line_clear (ct : CType) (hct : ct.Conforming) (c : Nat)
    (r : List Nat) (hc0 : c ≠ 0) (hc : ct.iswspace c = false ∨ isLineTerminator c = true)
    (hslash : c = 47 → r.headD 0 ≠ 47 ∧ r.headD 0 ≠ 42) (fuel : Nat) (p : List Trivia)
    (l : TSLexer) (sc : Bool) (hwf : ∀ t ∈ p, t.wf ct = true)
    (hsl : ∀ t ∈ p, t.sameLine = true) (hin : l.input = render p ++ c :: r)
    (hrange : ∀ q ∈ l.included_range_starts, q < l.pos ∨ l.pos + (render p).length ≤ q)
    (hlen : (render p).length < fuel) :
    ∃ sc1, semicolon_loop ct fuel l sc =
      semicolon_loop ct 1 (skipN (render p).length l) sc1 := by
  rcases semicolon_loop_same_line ct hct c r hc0 hc hslash fuel p l sc hwf hsl hin hlen with
    ⟨k, hk, hkr, _⟩ | h
  · exfalso
    have hk2 : k ≤ l.input.length := by rw [hin, List.length_append]; omega
    have hrange2 : ∀ q ∈ (skipN k l).included_range_starts,
        q < (skipN k l).pos ∨ (skipN k l).pos + 1 ≤ q := by
      intro q hq
      rw [skipN_pos l k hk2]
      have := hrange q hq
      omega
    rw [not_range_start (skipN k l) 1 (by decide) hrange2] at hkr
    exact Bool.noConfusion hkr
  · exact h

/-! ## Every loop ends, having only skipped -/

theorem Skipped.refl (l : TSLexer) : Skipped l l := ⟨0, Nat.zero_le _, (skipN_zero l).symm⟩

theorem Skipped.trans {a b c : TSLexer} (h1 : Skipped a b) (h2 : Skipped b c) :
    Skipped a c := by
  obtain ⟨n, hn, rfl⟩ := h1
  obtain ⟨m, hm, rfl⟩ := h2
  rw [skipN_input, List.length_drop] at hm
  exact ⟨n + m, by omega, skipN_skipN m n a⟩

theorem Skipped.length_le {a b : TSLexer} (h : Skipped a b) :
    b.input.length ≤ a.input.length := by
  obtain ⟨n, _, rfl⟩ := h
  rw [skipN_input, List.length_drop]
  omega

theorem skipped_skip (l : TSLexer) (h : l.lookahead ≠ 0) :
    Skipped l (skip l) ∧ (skip l).input.length < l.input.length := by
  obtain ⟨c, t, hin, _⟩ := input_ne_nil_of_lookahead l h
  refine ⟨⟨1, by rw [hin]; simp, skip_eq_skipN l⟩, ?_⟩
  rw [skip_input_cons l c t hin, hin]
  simp

theorem skip_whitespace_total (ct : CType) (h0 : ct.iswspace 0 = false) :
    ∀ (fuel : Nat) (l : TSLexer), l.input.length < fuel →
      ∃ l1, skip_whitespace ct fuel l = some l1 ∧ Skipped l l1 := by
  intro fuel
  induction fuel with
  | zero => intro l h; omega
  | succ f ih =>
    intro l hf
    by_cases hw : ct.iswspace l.lookahead = true
    · have hne : l.lookahead ≠ 0 := by
        intro h; rw [h, h0] at hw; exact Bool.noConfusion hw
      obtain ⟨hs, hlt⟩ := skipped_skip l hne
      obtain ⟨l1, heq, hsk⟩ := ih (skip l) (by omega)
      exact ⟨l1, by rw [skip_whitespace_step ct f l hw, heq], hs.trans hsk⟩
    · exact ⟨l, skip_whitespace_stop ct f l (by simpa using hw), Skipped.refl l⟩

theorem skip_line_comment_total :
    ∀ (fuel : Nat) (l : TSLexer), l.input.length < fuel →
      ∃ l1, skip_line_comment fuel l = some l1 ∧ Skipped l l1 := by
  intro fuel
  induction fuel with
  | zero => intro l h; omega
  | succ f ih =>
    intro l hf
    by_cases hc : l.lookahead ≠ 0 ∧ l.lookahead ≠ 10 ∧ l.lookahead ≠ 0x2028 ∧
        l.lookahead ≠ 0x2029
    · obtain ⟨hs, hlt⟩ := skipped_skip l hc.1
      obtain ⟨l1, heq, hsk⟩ := ih (skip l) (by omega)
      exact ⟨l1, by rw [skip_line_comment, if_pos hc, heq], hs.trans hsk⟩
    · exact ⟨l, by rw [skip_line_comment, if_neg hc], Skipped.refl l⟩

theorem scan_block_comment_total (consume : Bool) :
    ∀ (fuel : Nat) (l : TSLexer) (sc sbn : Bool), l.input.length < fuel →
      ∃ e, scan_block_comment consume fuel l sc sbn = some e ∧ Skipped l e.lexer := by
  intro fuel
  induction fuel with
  | zero => intro l _ _ h; omega
  | succ f ih =>
    intro l sc sbn hf
    by_cases h0 : l.lookahead ≠ 0
    · obtain ⟨hs, hlt⟩ := skipped_skip l h0
      rw [scan_block_comment, if_pos h0]
      by_cases hstar : l.lookahead = 42
      · rw [if_pos hstar]
        by_cases hslash : (skip l).lookahead = 47
        · have hs2 := (skipped_skip (skip l) (by rw [hslash]; decide)).1
          simp only [hslash, if_true]
          split_ifs <;> exact ⟨_, rfl, hs.trans hs2⟩
        · simp only [hslash, if_false]
          obtain ⟨e, heq, hsk⟩ := ih (skip l) sc sbn (by omega)
          exact ⟨e, heq, hs.trans hsk⟩
      · rw [if_neg hstar]
        split_ifs
        · obtain ⟨e, heq, hsk⟩ := ih (skip l) sc true (by omega)
          exact ⟨e, heq, hs.trans hsk⟩
        · obtain ⟨e, heq, hsk⟩ := ih (skip l) sc sbn (by omega)
          exact ⟨e, heq, hs.trans hsk⟩
    · exact ⟨.done l sc sbn, by rw [scan_block_comment, if_neg h0], Skipped.refl l⟩

theorem scan_whitespace_and_comments_loop_total (ct : CType) (h0 : ct.iswspace 0 = false)
    (consume : Bool) :
    ∀ (fuel : Nat) (l : TSLexer) (sc sbn : Bool), l.input.length < fuel →
      ∃ r l1 sc1, scan_whitespace_and_comments_loop ct consume fuel l sc sbn =
        some (r, l1, sc1) ∧ Skipped l l1 := by
  intro fuel
  induction fuel with
  | zero => intro l _ _ h; omega
  | succ f ih =>
    intro l sc sbn hf
    obtain ⟨l0, hw, hs0⟩ := skip_whitespace_total ct h0 (l.input.length + 1) l (by omega)
    rw [scan_whitespace_and_comments_loop, hw]
    by_cases h47 : l0.lookahead = 47
    · obtain ⟨hs1, hlt1⟩ := skipped_skip l0 (by rw [h47]; decide)
      have hle0 := hs0.length_le
      simp only [h47, if_true]
      by_cases h47b : (skip l0).lookahead = 47
      · obtain ⟨hs2, hlt2⟩ := skipped_skip (skip l0) (by rw [h47b]; decide)
        obtain ⟨l3, hlc, hs3⟩ := skip_line_comment_total ((skip (skip l0)).input.length + 1)
          (skip (skip l0)) (by omega)
        have hle3 := hs3.length_le
        obtain ⟨r, l4, sc4, heq, hs4⟩ := ih l3 true sbn (by omega)
        simp only [h47b, if_true, hlc]
        exact ⟨r, l4, sc4, heq, hs0.trans (hs1.trans (hs2.trans (hs3.trans hs4)))⟩
      · simp only [h47b, if_false]
        by_cases h42 : (skip l0).lookahead = 42
        · obtain ⟨hs2, hlt2⟩ := skipped_skip (skip l0) (by rw [h42]; decide)
          obtain ⟨e, hbc, hs3⟩ := scan_block_comment_total consume
            ((skip (skip l0)).input.length + 1) (skip (skip l0)) sc sbn (by omega)
          have hle3 := hs3.length_le
          simp only [h42, if_true, hbc]
          cases e with
          | returned r l3 sc3 =>
            exact ⟨r, l3, sc3, rfl, hs0.trans (hs1.trans (hs2.trans hs3))⟩
          | done l3 sc3 sbn3 =>
            simp only [BlockExit.lexer] at hs3 hle3
            obtain ⟨r, l4, sc4, heq, hs4⟩ := ih l3 sc3 sbn3 (by omega)
            exact ⟨r, l4, sc4, heq, hs0.trans (hs1.trans (hs2.trans (hs3.trans hs4)))⟩
        · simp only [h42, if_false]
          exact ⟨_, _, _, rfl, hs0.trans hs1⟩
    · simp only [h47, if_false]
      exact ⟨_, _, _, rfl, hs0⟩

theorem scan_whitespace_and_comments_total (ct : CType) (h0 : ct.iswspace 0 = false)
    (l : TSLexer) (sc consume : Bool) :
    ∃ r l1 sc1, scan_whitespace_and_comments ct l sc consume = some (r, l1, sc1) ∧
      Skipped l l1 :=
  scan_whitespace_and_comments_loop_total ct h0 consume _ l sc false (Nat.lt_succ_self _)

/-! ## `scan_automatic_semicolon` from the outcome of its first loop -/

theorem begin_token_input (l : TSLexer) : (begin_token l).input = l.input := rfl

theorem begin_token_pos (l : TSLexer) : (begin_token l).pos = l.pos := rfl

theorem begin_token_starts (l : TSLexer) :
    (begin_token l).included_range_starts = l.included_range_starts := rfl

theorem scan_of_returned (ct : CType) (l l1 : TSLexer) (b : Bool)
    (h : semicolon_loop ct ((begin_token l).input.length + 1) (begin_token l) false =
      some (.returned b l1)) :
    scan_automatic_semicolon ct l = some (b, l1) := by
  simp only [scan_automatic_semicolon, h]

theorem scan_of_broke (ct : CType) (l l1 l3 : TSLexer) (sc sc3 : Bool) (r : WhitespaceResult)
    (h : semicolon_loop ct ((begin_token l).input.length + 1) (begin_token l) false =
      some (.broke l1 sc))
    (hs : scan_whitespace_and_comments ct (skip l1) sc true = some (r, l3, sc3)) :
    scan_automatic_semicolon ct l =
      some (if r = .REJECT then (false, l3) else restricted_production ct l3) := by
  simp only [scan_automatic_semicolon, h, hs]
  split_ifs <;> rfl

theorem comment_check_total (ct : CType) (h0 : ct.iswspace 0 = false) (l : TSLexer)
    (sc : Bool) :
    ∃ flow, comment_check ct l sc = some flow ∧ Skipped l flow.lexer ∧
      ∀ l1 s, flow ≠ .brk l1 s := by
  by_cases h47 : l.lookahead = 47
  · obtain ⟨r, l1, sc1, hp, hs⟩ := scan_whitespace_and_comments_total ct h0 l sc false
    rw [comment_check_probe ct l l1 sc sc1 r h47 hp]
    split_ifs
    · exact ⟨_, rfl, hs, fun _ _ h => Flow.noConfusion h⟩
    · exact ⟨_, rfl, hs, fun _ _ h => Flow.noConfusion h⟩
    · exact ⟨_, rfl, hs, fun _ _ h => Flow.noConfusion h⟩
  · exact ⟨_, comment_check_other ct l sc h47, Skipped.refl l, fun _ _ h => Flow.noConfusion h⟩

theorem boundary_check_skipped (ct : CType) (h0 : ct.iswspace 0 = false) (l : TSLexer)
    (sc : Bool) :
    Skipped l (boundary_check ct l sc).lexer ∧
    (∀ l2 s2, boundary_check ct l sc = .next l2 s2 → l2.input.length < l.input.length) ∧
    (∀ l2 s2, boundary_check ct l sc = .brk l2 s2 → l2 = l ∧ l.lookahead ≠ 0) := by
  rw [boundary_check]
  split_ifs with h1 h2 h3 h4
  · exact ⟨Skipped.refl l, fun _ _ h => by simp at h, fun _ _ h => by simp at h⟩
  · exact ⟨Skipped.refl l, fun _ _ h => by simp at h, fun _ _ h => by simp at h⟩
  · refine ⟨Skipped.refl l, fun _ _ h => by simp at h, fun l2 s2 h => ?_⟩
    simp only [Flow.brk.injEq] at h
    exact ⟨h.1.symm, by omega⟩
  · exact ⟨Skipped.refl l, fun _ _ h => by simp at h, fun _ _ h => by simp at h⟩
  · have hne : l.lookahead ≠ 0 := by
      intro h; rw [h] at h4; exact h4 h0
    obtain ⟨hs, hlt⟩ := skipped_skip l hne
    refine ⟨hs, fun l2 s2 h => ?_, fun _ _ h => by simp at h⟩
    simp only [Flow.next.injEq] at h
    rw [← h.1]; exact hlt

theorem semicolon_loop_total (ct : CType) (h0 : ct.iswspace 0 = false) :
    ∀ (fuel : Nat) (l : TSLexer) (sc : Bool), l.input.length < fuel →
      ∃ e, semicolon_loop ct fuel l sc = some e ∧ Skipped l e.lexer ∧
        ∀ l1 s, e = .broke l1 s → l1.lookahead ≠ 0 := by
  intro fuel
  induction fuel with
  | zero => intro l _ h; omega
  | succ f ih =>
    intro l sc hf
    by_cases hz : l.lookahead = 0
    · exact ⟨_, semicolon_loop_eof ct f l sc hz, Skipped.refl l,
        fun _ _ h => LoopExit.noConfusion h⟩
    · obtain ⟨flow, hcc, hs1, hnb⟩ := comment_check_total ct h0 l sc
      cases flow with
      | ret b l1 =>
        exact ⟨_, semicolon_loop_ret ct f l l1 sc b hz hcc, hs1,
          fun _ _ h => LoopExit.noConfusion h⟩
      | brk l1 s1 => exact absurd rfl (hnb l1 s1)
      | next l1 s1 =>
        simp only [Flow.lexer] at hs1
        obtain ⟨hs2, hn2, hb2⟩ := boundary_check_skipped ct h0 l1 s1
        rw [semicolon_loop_next ct f l l1 sc s1 hz hcc]
        cases hb : boundary_check ct l1 s1 with
        | ret b l2 =>
          rw [hb] at hs2
          exact ⟨_, rfl, hs1.trans hs2, fun _ _ h => LoopExit.noConfusion h⟩
        | brk l2 s2 =>
          rw [hb] at hs2
          refine ⟨_, rfl, hs1.trans hs2, fun l3 s3 h => ?_⟩
          simp only [LoopExit.broke.injEq] at h
          obtain ⟨rfl, hne⟩ := hb2 l2 s2 hb
          rw [← h.1]; exact hne
        | next l2 s2 =>
          rw [hb] at hs2
          have hlt := hn2 l2 s2 hb
          have hle := hs1.length_le
          obtain ⟨e, heq, hs3, hbr⟩ := ih l2 s2 (by omega)
          exact ⟨e, heq, hs1.trans (hs2.trans hs3), hbr⟩

theorem match_keyword_rest_skipped (ks : List Nat) (hks : ∀ k ∈ ks, k ≠ 0) :
    ∀ l : TSLexer, Skipped l (match_keyword_rest ks l).2 := by
  induction ks with
  | nil => intro l; exact Skipped.refl l
  | cons k ks ih =>
    intro l
    rw [match_keyword_rest]
    split_ifs with h
    · exact Skipped.refl l
    · have hk : l.lookahead = k := by simpa using h
      exact (skipped_skip l (by rw [hk]; exact hks k (by simp))).1.trans
        (ih (fun x hx => hks x (by simp [hx])) (skip l))

theorem restricted_production_skipped (ct : CType) (l : TSLexer) :
    Skipped l (restricted_production ct l).2 := by
  simp only [restricted_production]
  split_ifs with h1 h2 h3 h4 h5 h6 h7 h8
  · exact Skipped.refl l
  · exact (skipped_skip l (by rw [h2]; decide)).1
  · exact (skipped_skip l (by rw [h3]; decide)).1
  · exact (skipped_skip l (by rw [h4]; decide)).1
  · exact (skipped_skip l (by rw [h5]; decide)).1
  · exact (skipped_skip l (by rw [h6]; decide)).1
  · have h110 : (skip l).lookahead = 110 := by simpa using h7
    exact (skipped_skip l (by rw [h6]; decide)).1.trans
      (skipped_skip (skip l) (by rw [h110]; decide)).1
  · have h110 : (skip l).lookahead = 110 := by simpa using h7
    have hs := (skipped_skip l (by rw [h6]; decide)).1.trans
      (skipped_skip (skip l) (by rw [h110]; decide)).1
    have hm := match_keyword_rest_skipped stanceof (by decide) (skip (skip l))
    rcases hmk : match_keyword_rest stanceof (skip (skip l)) with ⟨b, l3⟩
    rw [hmk] at hm
    cases b
    · exact hs.trans hm
    · simp only
      split_ifs <;> exact hs.trans hm
  · exact Skipped.refl l

theorem scan_automatic_semicolon_total (ct : CType) (h0 : ct.iswspace 0 = false)
    (l : TSLexer) :
    ∃ b l1, scan_automatic_semicolon ct l = some (b, l1) ∧ Skipped (begin_token l) l1 := by
  obtain ⟨e, heq, hs, hbr⟩ := semicolon_loop_total ct h0 ((begin_token l).input.length + 1)
    (begin_token l) false (Nat.lt_succ_self _)
  cases e with
  | returned b l1 => exact ⟨b, l1, scan_of_returned ct l l1 b heq, hs⟩
  | broke l1 sc =>
    simp only [LoopExit.lexer] at hs
    have hs1 := (skipped_skip l1 (hbr l1 sc rfl)).1
    obtain ⟨r, l3, sc3, hp, hs3⟩ := scan_whitespace_and_comments_total ct h0 (skip l1) sc true
    have hfin := scan_of_broke ct l l1 l3 sc sc3 r heq hp
    by_cases hr : r = .REJECT
    · rw [if_pos hr] at hfin
      exact ⟨false, l3, hfin, hs.trans (hs1.trans hs3)⟩
    · rw [if_neg hr] at hfin
      exact ⟨_, _, hfin, hs.trans (hs1.trans (hs3.trans (restricted_production_skipped ct l3)))⟩

theorem restricted_production_brace (ct : CType) (l : TSLexer) (h : l.lookahead = 125) :
    restricted_production ct l = (true, l) := by
  simp [restricted_production, h]

theorem semicolon_loop_at_terminator (ct : CType) (hct : ct.Conforming) (l : TSLexer)
    (sc : Bool) (t : Nat) (r : List Nat) (hin : l.input = t :: r)
    (ht : isLineTerminator t = true) :
    semicolon_loop ct 1 l sc =
      if l.is_at_included_range_start = true then some (.returned true l)
      else some (.broke l sc) := by
  have hl : l.lookahead = t := lookahead_cons l _ _ hin
  have htne := hct.space_ne t (hct.line_terminator t ht)
  have h0 : l.lookahead ≠ 0 := by rw [hl]; exact htne.1
  have hcc := comment_check_other ct l sc (by rw [hl]; exact htne.2.1)
  by_cases hr : l.is_at_included_range_start = true
  · rw [if_pos hr]
    exact semicolon_loop_next_ret ct 0 l l l sc sc true h0 hcc (boundary_check_range ct l sc hr)
  · rw [if_neg hr]
    exact semicolon_loop_next_brk ct 0 l l l sc sc sc h0 hcc
      (boundary_check_terminator ct l sc (by rw [hl]; exact htne.2.2) (by simpa using hr)
        (by rw [hl]; exact ht))

/-- After material without a line terminator, a line terminator and further
material, the scanner either has accepted at an included-range start up to the
line terminator, or gives the verdict of `restricted_production` on what follows. -/
theorem scan_after_terminator (ct : CType) (hct : ct.Conforming) (p : List Trivia)
    (hwfp : ∀ x ∈ p, x.wf ct = true) (hslp : ∀ x ∈ p, x.sameLine = true) (t : Nat)
    (ht : isLineTerminator t = true) (ts : List Trivia) (hwf : ∀ x ∈ ts, x.wf ct = true)
    (rest : List Nat) (hws : ct.iswspace (rest.headD 0) = false) (hne : rest.headD 0 ≠ 47)
    (l : TSLexer) (hin : l.input = render p ++ t :: (render ts ++ rest)) :
    (∃ k, k ≤ (render p).length ∧
      (skipN k (begin_token l)).is_at_included_range_start = true ∧
      scan_automatic_semicolon ct l = some (true, skipN k (begin_token l))) ∨
    (scan_automatic_semicolon ct l = some (restricted_production ct
        (skipN ((render p).length + 1 + (render ts).length) (begin_token l))) ∧
      (skipN ((render p).length + 1 + (render ts).length) (begin_token l)).input = rest) := by
  have htne := hct.space_ne t (hct.line_terminator t ht)
  have hlen : (render p).length < (begin_token l).input.length + 1 := by
    rw [begin_token_input, hin, List.length_append]; omega
  have hin0 : (begin_token l).input = render p ++ t :: (render ts ++ rest) := hin
  have hin1 := skipN_input_of (begin_token l) (render p) _ _ hin0 rfl
  have hterm := semicolon_loop_at_terminator ct hct (skipN (render p).length (begin_token l))
  rcases semicolon_loop_same_line ct hct t (render ts ++ rest) htne.1 (Or.inr ht)
    (fun h => absurd h htne.2.1) _ p (begin_token l) false hwfp hslp hin0 hlen with
    ⟨k, hk, hkr, heq⟩ | ⟨sc1, heq⟩
  · exact Or.inl ⟨k, by omega, hkr, scan_of_returned ct l _ true heq⟩
  · rw [hterm sc1 t _ hin1 ht] at heq
    by_cases hr : (skipN (render p).length (begin_token l)).is_at_included_range_start = true
    · rw [if_pos hr] at heq
      exact Or.inl ⟨_, Nat.le_refl _, hr, scan_of_returned ct l _ true heq⟩
    · rw [if_neg hr] at heq
      have hin2 : (skip (skipN (render p).length (begin_token l))).input = render ts ++ rest :=
        skip_input_cons _ _ _ hin1
      have hacc := consume_accept ct hct ts hwf _ sc1 rest hin2 hws hne
      have hfin := scan_of_broke ct l _ _ sc1 _ _ heq hacc
      rw [if_neg (by decide), skip_skipN, skipN_skipN] at hfin
      refine Or.inr ⟨hfin, ?_⟩
      exact skipN_input_of (begin_token l) (render p ++ t :: render ts) _ _
        (by rw [hin0]; simp) (by simp; omega)

/-- The same when no included range starts up to the line terminator. -/
theorem scan_after_terminator_clear (ct : CType) (hct : ct.Conforming) (p : List Trivia)
    (hwfp : ∀ x ∈ p, x.wf ct = true) (hslp : ∀ x ∈ p, x.sameLine = true) (t : Nat)
    (ht : isLineTerminator t = true) (ts : List Trivia) (hwf : ∀ x ∈ ts, x.wf ct = true)
    (rest : List Nat) (hws : ct.iswspace (rest.headD 0) = false) (hne : rest.headD 0 ≠ 47)
    (l : TSLexer) (hin : l.input = render p ++ t :: (render ts ++ rest))
    (hrange : ∀ q ∈ l.included_range_starts, q < l.pos ∨ l.pos + (render p).length < q) :
    ∃ l1, scan_automatic_semicolon ct l = some (restricted_production ct l1) ∧
      l1.input = rest := by
  rcases scan_after_terminator ct hct p hwfp hslp t ht ts hwf rest hws hne l hin with
    ⟨k, hk, hkr, _⟩ | h
  · exfalso
    have hk2 : k ≤ (begin_token l).input.length := by
      rw [begin_token_input, hin, List.length_append]; omega
    have hrange2 : ∀ q ∈ (skipN k (begin_token l)).included_range_starts,
        q < (skipN k (begin_token l)).pos ∨ (skipN k (begin_token l)).pos + 1 ≤ q := by
      intro q hq
      rw [skipN_pos _ k hk2, begin_token_pos]
      have := hrange q hq
      omega
    rw [not_range_start _ 1 (by decide) hrange2] at hkr
    exact Bool.noConfusion hkr
  · exact ⟨_, h⟩

theorem first_loop_terminator_clear (ct : CType) (hct : ct.Conforming) (p : List Trivia)
    (hwfp : ∀ x ∈ p, x.wf ct = true) (hslp : ∀ x ∈ p, x.sameLine = true) (t : Nat)
    (ht : isLineTerminator t = true) (r : List Nat) (l : TSLexer)
    (hin : l.input = render p ++ t :: r)
    (hrange : ∀ q ∈ l.included_range_starts, q < l.pos ∨ l.pos + (render p).length < q) :
    ∃ sc1, semicolon_loop ct ((begin_token l).input.length + 1) (begin_token l) false =
      some (.broke (skipN (render p).length (begin_token l)) sc1) := by
  have htne := hct.space_ne t (hct.line_terminator t ht)
  have hlen : (render p).length < (begin_token l).input.length + 1 := by
    rw [begin_token_input, hin, List.length_append]; omega
  have hin0 : (begin_token l).input = render p ++ t :: r := hin
  have hin1 := skipN_input_of (begin_token l) (render p) _ _ hin0 rfl
  obtain ⟨sc1, heq⟩ := semicolon_loop_same_line_clear ct hct t r htne.1 (Or.inr ht)
    (fun h => absurd h htne.2.1) _ p (begin_token l) false hwfp hslp hin0
    (fun q hq => by have := hrange q hq; rw [begin_token_pos]; omega) hlen
  have hk2 : (render p).length ≤ (begin_token l).input.length := by
    rw [hin0, List.length_append]; omega
  have hrange2 : ∀ q ∈ (skipN (render p).length (begin_token l)).included_range_starts,
      q < (skipN (render p).length (begin_token l)).pos ∨
      (skipN (render p).length (begin_token l)).pos + 1 ≤ q := by
    intro q hq
    rw [skipN_pos _ _ hk2, begin_token_pos]
    have := hrange q hq
    omega
  rw [semicolon_loop_at_terminator ct hct _ sc1 t r hin1 ht,
    if_neg (by rw [not_range_start _ 1 (by decide) hrange2]; decide)] at heq
  exact ⟨sc1, heq⟩

/-! ## The `switch` on the character after the line terminator -/

theorem restricted_production_continuation (ct : CType) (l : TSLexer)
    (h : l.lookahead ∈ continuation_chars ∨ l.lookahead = 47) :
    restricted_production ct l = (false, l) := by
  have h1 : l.lookahead = 96 ∨ l.lookahead = 44 ∨ l.lookahead = 58 ∨ l.lookahead = 59 ∨
      l.lookahead = 42 ∨ l.lookahead = 37 ∨ l.lookahead = 62 ∨ l.lookahead = 60 ∨
      l.lookahead = 61 ∨ l.lookahead = 91 ∨ l.lookahead = 40 ∨ l.lookahead = 63 ∨
      l.lookahead = 94 ∨ l.lookahead = 124 ∨ l.lookahead = 38 ∨ l.lookahead = 47 := by
    simp only [continuation_chars, List.mem_cons, List.mem_singleton, List.not_mem_nil,
      or_false] at h
    omega
  simp only [restricted_production]
  rw [if_pos h1]

theorem restricted_production_default (ct : CType) (l : TSLexer)
    (h : l.lookahead ∉ switch_chars) : restricted_production ct l = (true, l) := by
  simp only [switch_chars, continuation_chars, List.cons_append, List.nil_append, List.mem_cons,
    List.mem_singleton, List.not_mem_nil, or_false, not_or] at h
  simp only [restricted_production]
  rw [if_neg (by omega), if_neg (by omega), if_neg (by omega), if_neg (by omega),
    if_neg (by omega), if_neg (by omega)]

theorem continuation_not_space (ct : CType) (hct : ct.Conforming) (c : Nat)
    (h : c ∈ continuation_chars) : ct.iswspace c = false ∧ c ≠ 47 := by
  have h1 : c < 128 ∧ c ≠ 32 ∧ 13 < c ∧ c ≠ 47 := by
    simp only [continuation_chars, List.mem_cons, List.mem_singleton, List.not_mem_nil,
      or_false] at h
    omega
  exact ⟨hct.not_space c h1.1 h1.2.1 (Or.inr h1.2.2.1), h1.2.2.2⟩

theorem not_space_not_terminator (ct : CType) (hct : ct.Conforming) (c : Nat)
    (h : ct.iswspace c = false) : isLineTerminator c = false := by
  by_contra hlt
  have := hct.line_terminator c (by simpa using hlt)
  rw [h] at this
  exact Bool.noConfusion this

theorem isLineTerminator_iff (c : Nat) :
    isLineTerminator c = true ↔ c = 10 ∨ c = 0x2028 ∨ c = 0x2029 := by
  simp only [isLineTerminator, Bool.or_eq_true, beq_iff_eq]
  omega

theorem match_keyword_rest_spec (ks : List Nat) (hks : ∀ k ∈ ks, k ≠ 0) :
    ∀ l : TSLexer,
      (∀ r2, l.input = ks ++ r2 → match_keyword_rest ks l = (true, skipN ks.length l)) ∧
      ((¬ ∃ r2, l.input = ks ++ r2) → ∃ l1, match_keyword_rest ks l = (false, l1)) := by
  induction ks with
  | nil =>
    intro l
    exact ⟨fun r2 _ => by simp [match_keyword_rest, skipN_zero],
      fun h => absurd ⟨l.input, rfl⟩ h⟩
  | cons k ks ih =>
    intro l
    have hk0 : k ≠ 0 := hks k (by simp)
    have ih1 := ih (fun x hx => hks x (by simp [hx])) (skip l)
    refine ⟨?_, ?_⟩
    · intro r2 hin
      have hin1 : l.input = k :: (ks ++ r2) := by simpa using hin
      rw [match_keyword_rest, if_neg (by rw [lookahead_cons l _ _ hin1]; simp),
        ih1.1 r2 (skip_input_cons l _ _ hin1), skip_eq_skipN, skipN_skipN]
      simp [Nat.add_comm]
    · intro hno
      by_cases hl : l.lookahead = k
      · obtain ⟨c, t, hin, _⟩ := input_ne_nil_of_lookahead l (by rw [hl]; exact hk0)
        have hck : c = k := by rw [← lookahead_cons l c t hin]; exact hl
        subst hck
        rw [match_keyword_rest, if_neg (by simp [hl])]
        apply ih1.2
        rintro ⟨r2, hr2⟩
        rw [skip_input_cons l _ _ hin] at hr2
        exact hno ⟨r2, by rw [hin, hr2]; rfl⟩
      · exact ⟨l, by rw [match_keyword_rest, if_pos hl]⟩

theorem restricted_production_i (ct : CType) (l : TSLexer) (r : List Nat)
    (hin : l.input = 105 :: r) :
    (restricted_production ct l).1 = false ↔
      ∃ r1, r = 110 :: r1 ∧ (ct.iswalpha (r1.headD 0) = false ∨
        ∃ r2, r1 = stanceof ++ r2 ∧ ct.iswalpha (r2.headD 0) = false) := by
  have hl : l.lookahead = 105 := lookahead_cons l _ _ hin
  have hin1 : (skip l).input = r := skip_input_cons l _ _ hin
  simp only [restricted_production]
  rw [if_neg (by rw [hl]; decide), if_neg (by rw [hl]; decide), if_neg (by rw [hl]; decide),
    if_neg (by rw [hl]; decide), if_neg (by rw [hl]; decide), if_pos hl]
  cases r with
  | nil =>
    rw [if_pos (by rw [TSLexer.lookahead, hin1]; decide)]
    simp
  | cons d r1 =>
    have hl1 : (skip l).lookahead = d := lookahead_cons _ _ _ hin1
    have hin2 : (skip (skip l)).input = r1 := skip_input_cons _ _ _ hin1
    have hl2 : (skip (skip l)).lookahead = r1.headD 0 := by rw [TSLexer.lookahead, hin2]
    by_cases hd : d = 110
    · subst hd
      rw [if_neg (by rw [hl1]; simp)]
      by_cases ha : ct.iswalpha (r1.headD 0) = false
      · rw [if_pos (by rw [hl2]; exact ha)]
        simp only [true_iff]
        exact ⟨r1, rfl, Or.inl ha⟩
      · rw [if_neg (by rw [hl2]; exact ha)]
        have hspec := match_keyword_rest_spec stanceof (by decide) (skip (skip l))
        by_cases hk : ∃ r2, r1 = stanceof ++ r2
        · obtain ⟨r2, hr2⟩ := hk
          rw [hspec.1 r2 (by rw [hin2, hr2])]
          have hl3 : (skipN stanceof.length (skip (skip l))).lookahead = r2.headD 0 :=
            skipN_lookahead_of _ stanceof r2 _ (by rw [hin2, hr2]) rfl
          simp only [hl3]
          by_cases ha2 : ct.iswalpha (r2.headD 0) = false
          · rw [if_pos ha2]
            simp only [true_iff]
            exact ⟨r1, rfl, Or.inr ⟨r2, hr2, ha2⟩⟩
          · rw [if_neg ha2]
            simp only [Bool.true_eq_false, false_iff]
            rintro ⟨r1', hr1', h⟩
            obtain rfl : r1 = r1' := by simpa using hr1'
            rcases h with h | ⟨r2', hr2', h⟩
            · exact ha h
            · have : r2 = r2' := by
                rw [hr2] at hr2'
                exact List.append_cancel_left hr2'
              subst this
              exact ha2 h
        · obtain ⟨l3, hl3⟩ := hspec.2 (by rw [hin2]; exact hk)
          rw [hl3]
          simp only [Bool.true_eq_false, false_iff]
          rintro ⟨r1', hr1', h⟩
          obtain rfl : r1 = r1' := by simpa using hr1'
          rcases h with h | ⟨r2', hr2', _⟩
          · exact ha h
          · exact hk ⟨r2', hr2'⟩
    · rw [if_pos (by rw [hl1]; exact hd)]
      simp only [Bool.true_eq_false, false_iff]
      rintro ⟨r1', hr1', _⟩
      exact hd (by simpa using congrArg List.head? hr1')

theorem restricted_production_dot (ct : CType) (l : TSLexer) (r : List Nat)
    (hin : l.input = 46 :: r) :
    restricted_production ct l = (ct.iswdigit (r.headD 0), skip l) := by
  have hl : l.lookahead = 46 := lookahead_cons l _ _ hin
  have hl1 : (skip l).lookahead = r.headD 0 := by
    rw [TSLexer.lookahead, skip_input_cons l _ _ hin]
  simp only [restricted_production]
  rw [if_neg (by rw [hl]; decide), if_pos hl, hl1]

theorem restricted_production_plus (ct : CType) (l : TSLexer) (r : List Nat)
    (hin : l.input = 43 :: r) :
    restricted_production ct l = (decide (r.headD 0 = 43), skip l) := by
  have hl : l.lookahead = 43 := lookahead_cons l _ _ hin
  have hl1 : (skip l).lookahead = r.headD 0 := by
    rw [TSLexer.lookahead, skip_input_cons l _ _ hin]
  simp only [restricted_production]
  rw [if_neg (by rw [hl]; decide), if_neg (by rw [hl]; decide), if_pos hl, hl1]

theorem restricted_production_minus (ct : CType) (l : TSLexer) (r : List Nat)
    (hin : l.input = 45 :: r) :
    restricted_production ct l = (decide (r.headD 0 = 45), skip l) := by
  have hl : l.lookahead = 45 := lookahead_cons l _ _ hin
  have hl1 : (skip l).lookahead = r.headD 0 := by
    rw [TSLexer.lookahead, skip_input_cons l _ _ hin]
  simp only [restricted_production]
  rw [if_neg (by rw [hl]; decide), if_neg (by rw [hl]; decide), if_neg (by rw [hl]; decide),
    if_pos hl, hl1]

theorem restricted_production_bang (ct : CType) (l : TSLexer) (r : List Nat)
    (hin : l.input = 33 :: r) :
    restricted_production ct l = (decide (r.headD 0 ≠ 61), skip l) := by
  have hl : l.lookahead = 33 := lookahead_cons l _ _ hin
  have hl1 : (skip l).lookahead = r.headD 0 := by
    rw [TSLexer.lookahead, skip_input_cons l _ _ hin]
  simp only [restricted_production]
  rw [if_neg (by rw [hl]; decide), if_neg (by rw [hl]; decide), if_neg (by rw [hl]; decide),
    if_neg (by rw [hl]; decide), if_pos hl, hl1]

/-- C1: whatever white space, line comments ended by a line terminator and closed
block comments precede it, in front of a `}` the scanner accepts (the terminator
symbol being valid). -/
theorem C1_accept_before_closing_brace (ct : CType) (hct : ct.Conforming)
    (ts : List Trivia) (hwf : ∀ t ∈ ts, t.wf ct = true) (rest : List Nat) (l : TSLexer)
    (valid_symbols : Nat → Bool) (hvalid : valid_symbols AUTOMATIC_SEMICOLON = true)
    (hin : l.input = render ts ++ 125 :: rest) :
    ∃ l1, tree_sitter_fujin_external_scanner_scan ct l valid_symbols = some (true, l1) := by
  rw [tree_sitter_fujin_external_scanner_scan, if_pos hvalid]
  have hlen : (render ts).length < (begin_token l).input.length + 1 := by
    rw [begin_token_input, hin, List.length_append]; omega
  rcases semicolon_loop_brace ct hct rest _ ts (begin_token l) false hwf
    (by rw [begin_token_input]; exact hin) hlen with ⟨l1, heq⟩ | ⟨ts0, c, ts1, sc1, hts, heq⟩
  · exact ⟨l1, scan_of_returned ct l l1 true heq⟩
  · have hin1 : (skip (skipN (render ts0).length (begin_token l))).input =
        render ts1 ++ 125 :: rest := by
      rw [skip_skipN]
      exact skipN_input_of _ (render ts0 ++ [c]) _ _
        (by rw [begin_token_input, hin, hts, render_append]; simp [render, Trivia.chars])
        (by simp)
    have hacc := consume_accept ct hct ts1 (fun x hx => hwf x (by simp [hts, hx])) _ sc1
      (125 :: rest) hin1 (hct.not_space 125 (by decide) (by decide) (by decide)) (by simp)
    have hfin := scan_of_broke ct l _ _ sc1 _ _ heq hacc
    rw [if_neg (by decide), restricted_production_brace ct _
      (skipN_lookahead_of _ (render ts1) _ _ hin1 rfl)] at hfin
    exact ⟨_, hfin⟩

/-- C1 on `/* a */ // b` + newline + `  }x`, with the terminator symbol valid. -/
theorem C1_accept_before_closing_brace_witness :
    ∃ l1, tree_sitter_fujin_external_scanner_scan asciiCType
      (lexerAt (codes "/* a */ // b\n  \x7dx") 3 []) (fun _ => true) = some (true, l1) :=
  C1_accept_before_closing_brace asciiCType asciiCType_conforming
    [.block (codes " a "), .space 32, .line (codes " b") 10, .space 32, .space 32]
    (by decide) (codes "x") _ (fun _ => true) rfl (by decide)

/-- C2: when only white space other than line terminators and block comments
without a line terminator stand between the start and the next significant
character `c` (not NUL, not `}`, not a comment opener), and no included range
starts at or before `c`, `scan_automatic_semicolon` declines. -/
theorem C2_decline_without_line_terminator (ct : CType) (hct : ct.Conforming)
    (p : List Trivia) (hwf : ∀ x ∈ p, x.wf ct = true) (hsl : ∀ x ∈ p, x.sameLine = true)
    (c : Nat) (r : List Nat) (hc0 : c ≠ 0) (hcb : c ≠ 125) (hcs : ct.iswspace c = false)
    (hslash : c = 47 → r.headD 0 ≠ 47 ∧ r.headD 0 ≠ 42) (l : TSLexer)
    (hin : l.input = render p ++ c :: r)
    (hrange : ∀ q ∈ l.included_range_starts, q < l.pos ∨ l.pos + (render p).length < q) :
    ∃ l1, scan_automatic_semicolon ct l = some (false, l1) := by
  have hlen : (render p).length < (begin_token l).input.length + 1 := by
    rw [begin_token_input, hin, List.length_append]; omega
  have hin0 : (begin_token l).input = render p ++ c :: r := hin
  have hin1 := skipN_input_of (begin_token l) (render p) _ _ hin0 rfl
  have hl1 := lookahead_cons _ _ _ hin1
  obtain ⟨sc1, heq⟩ := semicolon_loop_same_line_clear ct hct c r hc0 (Or.inl hcs) hslash _ p
    (begin_token l) false hwf hsl hin0
    (fun q hq => by have := hrange q hq; rw [begin_token_pos]; omega) hlen
  by_cases h47 : c = 47
  · subst h47
    rw [semicolon_loop_reject ct hct 0 _ sc1 r hin1 (hslash rfl).1 (hslash rfl).2] at heq
    exact ⟨_, scan_of_returned ct l _ false heq⟩
  · have hk2 : (render p).length ≤ (begin_token l).input.length := by
      rw [hin0, List.length_append]; omega
    have hrange2 : ∀ q ∈ (skipN (render p).length (begin_token l)).included_range_starts,
        q < (skipN (render p).length (begin_token l)).pos ∨
        (skipN (render p).length (begin_token l)).pos + 1 ≤ q := by
      intro q hq
      rw [skipN_pos _ _ hk2, begin_token_pos]
      have := hrange q hq
      omega
    rw [semicolon_loop_next_ret ct 0 _ _ _ sc1 sc1 false (by rw [hl1]; exact hc0)
      (comment_check_other ct _ sc1 (by rw [hl1]; exact h47))
      (boundary_check_other ct _ sc1 (by rw [hl1]; exact hcb)
        (not_range_start _ 1 (by decide) hrange2)
        (by rw [hl1]; exact not_space_not_terminator ct hct c hcs)
        (by rw [hl1]; exact hcs))] at heq
    exact ⟨_, scan_of_returned ct l _ false heq⟩

/-- C2 on ` /* c */ = b`: declined. -/
theorem C2_decline_without_line_terminator_witness :
    ∃ l1, scan_automatic_semicolon asciiCType (lexerAt (codes " /* c */ = b") 1 [0, 1000]) =
      some (false, l1) :=
  C2_decline_without_line_terminator asciiCType asciiCType_conforming
    [.space 32, .block (codes " c "), .space 32] (by decide) (by decide) 61 (codes " b")
    (by decide) (by decide) (by decide) (by decide) _ rfl (by decide)

/-- C3: after material without a line terminator, a line terminator and any run
of white space and complete comments, a character of the first `case` group (or
a `/` that opens no comment) makes `scan_automatic_semicolon` decline, when no
included range starts at or before the line terminator. -/
theorem C3_decline_before_continuation (ct : CType) (hct : ct.Conforming)
    (p : List Trivia) (hwfp : ∀ x ∈ p, x.wf ct = true) (hslp : ∀ x ∈ p, x.sameLine = true)
    (t : Nat) (ht : isLineTerminator t = true) (ts : List Trivia)
    (hwf : ∀ x ∈ ts, x.wf ct = true) (c : Nat) (r : List Nat)
    (hc : c ∈ continuation_chars ∨ (c = 47 ∧ r.headD 0 ≠ 47 ∧ r.headD 0 ≠ 42))
    (l : TSLexer) (hin : l.input = render p ++ t :: (render ts ++ c :: r))
    (hrange : ∀ q ∈ l.included_range_starts, q < l.pos ∨ l.pos + (render p).length < q) :
    ∃ l1, scan_automatic_semicolon ct l = some (false, l1) := by
  rcases hc with hc | ⟨hc47, h1, h2⟩
  · obtain ⟨hcs, hcne⟩ := continuation_not_space ct hct c hc
    obtain ⟨l1, heq, hl1⟩ := scan_after_terminator_clear ct hct p hwfp hslp t ht ts hwf
      (c :: r) hcs hcne l hin hrange
    rw [restricted_production_continuation ct l1
      (Or.inl (by rw [lookahead_cons l1 c r hl1]; exact hc))] at heq
    exact ⟨l1, heq⟩
  · subst hc47
    obtain ⟨sc1, heq⟩ := first_loop_terminator_clear ct hct p hwfp hslp t ht _ l hin hrange
    have hin1 := skipN_input_of (begin_token l) (render p) _ _
      (show (begin_token l).input = _ from hin) rfl
    have hrej := consume_reject ct hct ts hwf _ sc1 r (skip_input_cons _ _ _ hin1) h1 h2
    have hfin := scan_of_broke ct l _ _ sc1 _ _ heq hrej
    rw [if_pos rfl] at hfin
    exact ⟨_, hfin⟩

/-- C3 on `/* x */ ` + newline + ` // y` + newline + `* z`: declined. -/
theorem C3_decline_before_continuation_witness :
    ∃ l1, scan_automatic_semicolon asciiCType
      (lexerAt (codes "/* x */ \n // y\n* z") 1 []) = some (false, l1) :=
  C3_decline_before_continuation asciiCType asciiCType_conforming
    [.block (codes " x "), .space 32] (by decide) (by decide) 10 (by decide)
    [.space 32, .line (codes " y") 10] (by decide) 42 (codes " z") (Or.inl (by decide)) _ rfl
    (by decide)

/-- C4: after material without a line terminator, a line terminator and any run
of white space and complete comments, end of input or a significant character
the `switch` has no `case` for makes `scan_automatic_semicolon` accept. -/
theorem C4_accept_after_line_terminator (ct : CType) (hct : ct.Conforming)
    (p : List Trivia) (hwfp : ∀ x ∈ p, x.wf ct = true) (hslp : ∀ x ∈ p, x.sameLine = true)
    (t : Nat) (ht : isLineTerminator t = true) (ts : List Trivia)
    (hwf : ∀ x ∈ ts, x.wf ct = true) (rest : List Nat)
    (hws : ct.iswspace (rest.headD 0) = false) (hc : rest.headD 0 ∉ switch_chars)
    (l : TSLexer) (hin : l.input = render p ++ t :: (render ts ++ rest)) :
    ∃ l1, scan_automatic_semicolon ct l = some (true, l1) := by
  have hne : rest.headD 0 ≠ 47 := by
    intro h; rw [h] at hc; exact hc (by decide)
  rcases scan_after_terminator ct hct p hwfp hslp t ht ts hwf rest hws hne l hin with
    ⟨k, _, _, heq⟩ | ⟨heq, hl1⟩
  · exact ⟨_, heq⟩
  · rw [restricted_production_default ct _ (by rw [TSLexer.lookahead, hl1]; exact hc)] at heq
    exact ⟨_, heq⟩

/-- C4 on `/* x */ ` + newline + ` 5`, and on `/* x */ ` + newline at end of input: accepted. -/
theorem C4_accept_after_line_terminator_witness :
    (∃ l1, scan_automatic_semicolon asciiCType (lexerAt (codes "/* x */ \n 5") 1 []) =
      some (true, l1)) ∧
    (∃ l1, scan_automatic_semicolon asciiCType (lexerAt (codes "/* x */ \n") 1 [4]) =
      some (true, l1)) :=
  ⟨C4_accept_after_line_terminator asciiCType asciiCType_conforming
      [.block (codes " x "), .space 32] (by decide) (by decide) 10 (by decide) [.space 32]
      (by decide) (codes "5") (by decide) (by decide) _ rfl,
    C4_accept_after_line_terminator asciiCType asciiCType_conforming
      [.block (codes " x "), .space 32] (by decide) (by decide) 10 (by decide) []
      (by decide) [] (by decide) (by decide) _ rfl⟩

/-- After a line terminator at the start, further material and a significant
character, with no included range starting at the line terminator, the verdict
is that of `restricted_production` at that character. -/
theorem scan_from_terminator (ct : CType) (hct : ct.Conforming) (t : Nat)
    (ht : isLineTerminator t = true) (ts : List Trivia) (hwf : ∀ x ∈ ts, x.wf ct = true)
    (rest : List Nat) (hws : ct.iswspace (rest.headD 0) = false) (hne : rest.headD 0 ≠ 47)
    (l : TSLexer) (hin : l.input = t :: (render ts ++ rest))
    (hrange : ∀ q ∈ l.included_range_starts, q ≠ l.pos) :
    ∃ l1, scan_automatic_semicolon ct l = some (restricted_production ct l1) ∧
      l1.input = rest :=
  scan_after_terminator_clear ct hct [] (by simp) (by simp) t ht ts hwf rest hws hne l
    (by simpa [render] using hin)
    (fun q hq => by have := hrange q hq; simp only [render, List.length_nil]; omega)

/-- C5: after a line terminator and any run of white space and complete comments,
in front of `i` followed by `r` the scanner declines exactly when `r` begins
with `n` and either the character after that `n` is not alphabetic, or `r`
begins with `nstanceof` and the character after it is not alphabetic; otherwise
it accepts. -/
theorem C5_in_instanceof_lookahead (ct : CType) (hct : ct.Conforming) (t : Nat)
    (ht : isLineTerminator t = true) (ts : List Trivia) (hwf : ∀ x ∈ ts, x.wf ct = true)
    (r : List Nat) (l : TSLexer) (hin : l.input = t :: (render ts ++ 105 :: r))
    (hrange : ∀ q ∈ l.included_range_starts, q ≠ l.pos) :
    ∃ b l1, scan_automatic_semicolon ct l = some (b, l1) ∧
      (b = false ↔ ∃ r1, r = 110 :: r1 ∧ (ct.iswalpha (r1.headD 0) = false ∨
        ∃ r2, r1 = stanceof ++ r2 ∧ ct.iswalpha (r2.headD 0) = false)) := by
  obtain ⟨l1, heq, hl1⟩ := scan_from_terminator ct hct t ht ts hwf (105 :: r)
    (hct.not_space 105 (by decide) (by decide) (by decide)) (by simp) l hin hrange
  exact ⟨(restricted_production ct l1).1, (restricted_production ct l1).2, heq,
    restricted_production_i ct l1 r hl1⟩

/-- C5 on newline + ` instanceofx`; and the verdicts on `instanceofx` (accepted),
`instanceof(` and `in ` (declined) after a newline. -/
theorem C5_in_instanceof_lookahead_witness :
    (∃ b l1, scan_automatic_semicolon asciiCType (lexerAt (codes "\n instanceofx") 1 []) =
        some (b, l1) ∧
      (b = false ↔ ∃ r1, codes "nstanceofx" = 110 :: r1 ∧
        (asciiCType.iswalpha (r1.headD 0) = false ∨
          ∃ r2, r1 = stanceof ++ r2 ∧ asciiCType.iswalpha (r2.headD 0) = false))) ∧
    verdict asciiCType (lexerAt (codes "\ninstanceofx") 1 []) = some true ∧
    verdict asciiCType (lexerAt (codes "\ninstanceof(") 1 []) = some false ∧
    verdict asciiCType (lexerAt (codes "\nin ") 1 []) = some false :=
  ⟨C5_in_instanceof_lookahead asciiCType asciiCType_conforming 10 (by decide) [.space 32]
      (by decide) (codes "nstanceofx") _ rfl (by decide),
    by decide, by decide, by decide⟩

/-- C6: after a line terminator and any run of white space and complete comments,
in front of `.` the scanner accepts exactly when the character after the `.` is
a decimal digit. -/
theorem C6_dot_accepts_iff_digit (ct : CType) (hct : ct.Conforming) (t : Nat)
    (ht : isLineTerminator t = true) (ts : List Trivia) (hwf : ∀ x ∈ ts, x.wf ct = true)
    (r : List Nat) (l : TSLexer) (hin : l.input = t :: (render ts ++ 46 :: r))
    (hrange : ∀ q ∈ l.included_range_starts, q ≠ l.pos) :
    ∃ l1, scan_automatic_semicolon ct l =
      some (decide (48 ≤ r.headD 0 ∧ r.headD 0 ≤ 57), l1) := by
  obtain ⟨l1, heq, hl1⟩ := scan_from_terminator ct hct t ht ts hwf (46 :: r)
    (hct.not_space 46 (by decide) (by decide) (by decide)) (by simp) l hin hrange
  rw [restricted_production_dot ct l1 r hl1, hct.digit] at heq
  exact ⟨skip l1, by rw [heq]; simp⟩

/-- C6 on newline + `.5` (accepted) and newline + `.b` (declined). -/
theorem C6_dot_accepts_iff_digit_witness :
    (∃ l1, scan_automatic_semicolon asciiCType (lexerAt (codes "\n.5") 1 []) =
      some (true, l1)) ∧
    (∃ l1, scan_automatic_semicolon asciiCType (lexerAt (codes "\n.b") 1 []) =
      some (false, l1)) :=
  ⟨C6_dot_accepts_iff_digit asciiCType asciiCType_conforming 10 (by decide) [] (by decide)
      (codes "5") _ rfl (by decide),
    C6_dot_accepts_iff_digit asciiCType asciiCType_conforming 10 (by decide) [] (by decide)
      (codes "b") _ rfl (by decide)⟩

/-- C7: after a line terminator and any run of white space and complete comments,
in front of a sign `+` or `-` the scanner accepts exactly when the character
after the sign is the same sign. -/
theorem C7_sign_accepts_iff_doubled (ct : CType) (hct : ct.Conforming) (t : Nat)
    (ht : isLineTerminator t = true) (ts : List Trivia) (hwf : ∀ x ∈ ts, x.wf ct = true)
    (sign : Nat) (hsign : sign = 43 ∨ sign = 45) (r : List Nat) (l : TSLexer)
    (hin : l.input = t :: (render ts ++ sign :: r))
    (hrange : ∀ q ∈ l.included_range_starts, q ≠ l.pos) :
    ∃ l1, scan_automatic_semicolon ct l = some (decide (r.headD 0 = sign), l1) := by
  rcases hsign with rfl | rfl
  · obtain ⟨l1, heq, hl1⟩ := scan_from_terminator ct hct t ht ts hwf (43 :: r)
      (hct.not_space 43 (by decide) (by decide) (by decide)) (by simp) l hin hrange
    rw [restricted_production_plus ct l1 r hl1] at heq
    exact ⟨skip l1, heq⟩
  · obtain ⟨l1, heq, hl1⟩ := scan_from_terminator ct hct t ht ts hwf (45 :: r)
      (hct.not_space 45 (by decide) (by decide) (by decide)) (by simp) l hin hrange
    rw [restricted_production_minus ct l1 r hl1] at heq
    exact ⟨skip l1, heq⟩

/-- C7 on newline + `++b` (accepted) and newline + `-b` (declined). -/
theorem C7_sign_accepts_iff_doubled_witness :
    (∃ l1, scan_automatic_semicolon asciiCType (lexerAt (codes "\n++b") 1 []) =
      some (true, l1)) ∧
    (∃ l1, scan_automatic_semicolon asciiCType (lexerAt (codes "\n-b") 1 []) =
      some (false, l1)) :=
  ⟨C7_sign_accepts_iff_doubled asciiCType asciiCType_conforming 10 (by decide) [] (by decide)
      43 (Or.inl rfl) (codes "+b") _ rfl (by decide),
    C7_sign_accepts_iff_doubled asciiCType asciiCType_conforming 10 (by decide) [] (by decide)
      45 (Or.inr rfl) (codes "b") _ rfl (by decide)⟩

/-- C8: after a line terminator and any run of white space and complete comments,
in front of `!` the scanner declines exactly when the character after the `!`
is `=`. -/
theorem C8_bang_declines_iff_equals (ct : CType) (hct : ct.Conforming) (t : Nat)
    (ht : isLineTerminator t = true) (ts : List Trivia) (hwf : ∀ x ∈ ts, x.wf ct = true)
    (r : List Nat) (l : TSLexer) (hin : l.input = t :: (render ts ++ 33 :: r))
    (hrange : ∀ q ∈ l.included_range_starts, q ≠ l.pos) :
    ∃ l1, scan_automatic_semicolon ct l = some (decide (r.headD 0 ≠ 61), l1) := by
  obtain ⟨l1, heq, hl1⟩ := scan_from_terminator ct hct t ht ts hwf (33 :: r)
    (hct.not_space 33 (by decide) (by decide) (by decide)) (by simp) l hin hrange
  rw [restricted_production_bang ct l1 r hl1] at heq
  exact ⟨skip l1, heq⟩

/-- C8 on newline + `!a` (accepted) and newline + `!= a` (declined). -/
theorem C8_bang_declines_iff_equals_witness :
    (∃ l1, scan_automatic_semicolon asciiCType (lexerAt (codes "\n!a") 1 []) =
      some (true, l1)) ∧
    (∃ l1, scan_automatic_semicolon asciiCType (lexerAt (codes "\n!= a") 1 []) =
      some (false, l1)) :=
  ⟨C8_bang_declines_iff_equals asciiCType asciiCType_conforming 10 (by decide) [] (by decide)
      (codes "a") _ rfl (by decide),
    C8_bang_declines_iff_equals asciiCType asciiCType_conforming 10 (by decide) [] (by decide)
      (codes "= a") _ rfl (by decide)⟩

theorem render_spaces (ws : List Nat) : render (ws.map Trivia.space) = ws := by
  induction ws with
  | nil => rfl
  | cons c t ih => simp [render, Trivia.chars, ih]

/-- C9: a `/` followed by neither `/` nor `*` makes `scan_whitespace_and_comments`
return REJECT in probe and in consume mode; and behind white space other than
line terminators, with no included range starting before it, it makes
`scan_automatic_semicolon` return false. -/
theorem C9_lone_slash_rejects (ct : CType) (hct : ct.Conforming) (ws r : List Nat)
    (hws : ∀ c ∈ ws, ct.iswspace c = true ∧ isLineTerminator c = false)
    (h1 : r.headD 0 ≠ 47) (h2 : r.headD 0 ≠ 42) :
    (∀ (l : TSLexer) (sc consume : Bool), l.input = 47 :: r →
      ∃ l1 sc1, scan_whitespace_and_comments ct l sc consume = some (.REJECT, l1, sc1)) ∧
    (∀ l : TSLexer, l.input = ws ++ 47 :: r →
      (∀ q ∈ l.included_range_starts, q < l.pos ∨ l.pos + ws.length ≤ q) →
      ∃ l1, scan_automatic_semicolon ct l = some (false, l1)) := by
  refine ⟨?_, ?_⟩
  · intro l sc consume hin
    exact ⟨skip l, sc, by
      rw [scan_whitespace_and_comments, loop_reject ct consume _ l sc false r hct.slash hin h1 h2]⟩
  · intro l hin hrange
    have hlen : (render (ws.map Trivia.space)).length < (begin_token l).input.length + 1 := by
      rw [begin_token_input, hin, render_spaces, List.length_append]; omega
    have hin0 : (begin_token l).input = render (ws.map Trivia.space) ++ 47 :: r := by
      rw [render_spaces]; exact hin
    obtain ⟨sc1, heq⟩ := semicolon_loop_same_line_clear ct hct 47 r (by decide)
      (Or.inl hct.slash) (fun _ => ⟨h1, h2⟩) _ (ws.map Trivia.space) (begin_token l) false
      (by
        intro x hx
        obtain ⟨c, hc, rfl⟩ := List.mem_map.mp hx
        exact (hws c hc).1)
      (by
        intro x hx
        obtain ⟨c, hc, rfl⟩ := List.mem_map.mp hx
        simp [Trivia.sameLine, (hws c hc).2])
      hin0 (by rw [render_spaces]; exact hrange) hlen
    rw [semicolon_loop_reject ct hct 0 _ sc1 r
      (skipN_input_of (begin_token l) _ _ _ hin0 rfl) h1 h2] at heq
    exact ⟨_, scan_of_returned ct l _ false heq⟩

/-- C9 on `/x` for the comment scanner in both modes and ` /x` for the semicolon scanner. -/
theorem C9_lone_slash_rejects_witness :
    (∃ l1 sc1, scan_whitespace_and_comments asciiCType (lexerAt (codes "/x") 1 []) false false =
      some (.REJECT, l1, sc1)) ∧
    (∃ l1 sc1, scan_whitespace_and_comments asciiCType (lexerAt (codes "/x") 1 []) false true =
      some (.REJECT, l1, sc1)) ∧
    (∃ l1, scan_automatic_semicolon asciiCType (lexerAt (codes " /x") 1 []) =
      some (false, l1)) :=
  ⟨(C9_lone_slash_rejects asciiCType asciiCType_conforming (codes " ") (codes "x") (by decide)
      (by decide) (by decide)).1 _ false false rfl,
    (C9_lone_slash_rejects asciiCType asciiCType_conforming (codes " ") (codes "x") (by decide)
      (by decide) (by decide)).1 _ false true rfl,
    (C9_lone_slash_rejects asciiCType asciiCType_conforming (codes " ") (codes "x") (by decide)
      (by decide) (by decide)).2 _ rfl (by decide)⟩

/-- C10: `scan_automatic_semicolon` always returns (when NUL is no white space);
it sets `result_symbol` to `AUTOMATIC_SEMICOLON`, calls `mark_end` once, before
any advance, and afterwards only skips, so the marked token end is the starting
position whatever the number `n` of characters skipped to decide. -/
theorem C10_zero_width_token (ct : CType) (h0 : ct.iswspace 0 = false) (l : TSLexer) :
    ∃ b l1 n, scan_automatic_semicolon ct l = some (b, l1) ∧
      l1.trace = l.trace ++ LexEvent.mark_end :: List.replicate n (LexEvent.advance true) ∧
      l1.result_symbol = AUTOMATIC_SEMICOLON ∧
      l1.token_end = some l.pos ∧
      l1.pos = l.pos + n := by
  obtain ⟨b, l1, heq, n, hn, rfl⟩ := scan_automatic_semicolon_total ct h0 l
  refine ⟨b, _, n, heq, ?_, rfl, rfl, ?_⟩
  · simp [skipN, begin_token, TSLexer.mark_end]
  · rw [skipN_pos _ n hn, begin_token_pos]

/-- C10 on newline + `/* c */ instanceof x`. -/
theorem C10_zero_width_token_witness :
    ∃ b l1 n, scan_automatic_semicolon asciiCType
        (lexerAt (codes "\n/* c */ instanceof x") 7 []) = some (b, l1) ∧
      l1.trace = [] ++ LexEvent.mark_end :: List.replicate n (LexEvent.advance true) ∧
      l1.result_symbol = AUTOMATIC_SEMICOLON ∧
      l1.token_end = some 7 ∧
      l1.pos = 7 + n :=
  C10_zero_width_token asciiCType (by decide) (lexerAt (codes "\n/* c */ instanceof x") 7 [])

/-- C11: when `valid_symbols[AUTOMATIC_SEMICOLON]` is false the entry point returns
false and the lexer is left as it was: no advance, no `mark_end`, `result_symbol`
not written. -/
theorem C11_invalid_symbol_declines (ct : CType) (l : TSLexer) (valid_symbols : Nat → Bool)
    (hvalid : valid_symbols AUTOMATIC_SEMICOLON = false) :
    tree_sitter_fujin_external_scanner_scan ct l valid_symbols = some (false, l) := by
  simp [tree_sitter_fujin_external_scanner_scan, hvalid]

/-- C11 on `;x` with `result_symbol` 5 and no symbol valid. -/
theorem C11_invalid_symbol_declines_witness :
    tree_sitter_fujin_external_scanner_scan asciiCType
        { lexerAt (codes ";x") 3 [] with result_symbol := 5 } (fun _ => false) =
      some (false, { lexerAt (codes ";x") 3 [] with result_symbol := 5 }) :=
  C11_invalid_symbol_declines asciiCType _ (fun _ => false) rfl

/-- C12: with the terminator symbol valid and the lookahead 0 (end of input) the
entry point returns true; the lexer afterwards is the one after `result_symbol`
is set and `mark_end` is called, so no advance was made and the cursor has not
moved. -/
theorem C12_accept_at_end_of_input (ct : CType) (l : TSLexer) (valid_symbols : Nat → Bool)
    (hvalid : valid_symbols AUTOMATIC_SEMICOLON = true) (heof : l.lookahead = 0) :
    tree_sitter_fujin_external_scanner_scan ct l valid_symbols =
        some (true, begin_token l) ∧
      (begin_token l).pos = l.pos ∧ (begin_token l).input = l.input ∧
      (begin_token l).trace = l.trace ++ [LexEvent.mark_end] := by
  refine ⟨?_, rfl, rfl, rfl⟩
  rw [tree_sitter_fujin_external_scanner_scan, if_pos hvalid]
  exact scan_of_returned ct l _ true (semicolon_loop_eof ct _ (begin_token l) false heof)

/-- C12 at the end of the input, position 9. -/
theorem C12_accept_at_end_of_input_witness :
    tree_sitter_fujin_external_scanner_scan asciiCType (lexerAt [] 9 []) (fun _ => true) =
        some (true, begin_token (lexerAt [] 9 [])) ∧
      (begin_token (lexerAt [] 9 [])).pos = 9 ∧ (begin_token (lexerAt [] 9 [])).input = [] ∧
      (begin_token (lexerAt [] 9 [])).trace = [] ++ [LexEvent.mark_end] :=
  C12_accept_at_end_of_input asciiCType (lexerAt [] 9 []) (fun _ => true) rfl rfl

/-- C13: in consume mode, over any run `w` of white space, line comments ended by
a line terminator and closed block comments, followed by a character `c` that is
neither white space nor `/`, `scan_whitespace_and_comments` returns ACCEPT with
the cursor advanced by exactly the length of `w`, the lookahead `c`, and the
scanned-comment flag its value on entry or-ed with `w` holding a comment. -/
theorem C13_consume_skips_whole_run (ct : CType) (hct : ct.Conforming) (ts : List Trivia)
    (hwf : ∀ t ∈ ts, t.wf ct = true) (c : Nat) (rest : List Nat)
    (hc : ct.iswspace c = false) (hslash : c ≠ 47) (l : TSLexer) (sc : Bool)
    (hin : l.input = render ts ++ c :: rest) :
    scan_whitespace_and_comments ct l sc true =
        some (.ACCEPT, skipN (render ts).length l, sc || ts.any Trivia.isComment) ∧
      (skipN (render ts).length l).lookahead = c ∧
      (skipN (render ts).length l).input = c :: rest ∧
      (skipN (render ts).length l).pos = l.pos + (render ts).length :=
  ⟨consume_accept ct hct ts hwf l sc (c :: rest) hin hc hslash,
    skipN_lookahead_of l (render ts) (c :: rest) _ hin rfl,
    skipN_input_of l (render ts) (c :: rest) _ hin rfl,
    skipN_pos l _ (by rw [hin, List.length_append]; omega)⟩

/-- C13 on `/* x */ ` + newline + ` 5`: the cursor ends at `5`, ten characters on,
with the flag set. -/
theorem C13_consume_skips_whole_run_witness :
    scan_whitespace_and_comments asciiCType (lexerAt (codes "/* x */ \n 5") 0 []) false true =
        some (.ACCEPT, skipN 10 (lexerAt (codes "/* x */ \n 5") 0 []), true) ∧
      (skipN 10 (lexerAt (codes "/* x */ \n 5") 0 [])).lookahead = 53 ∧
      (skipN 10 (lexerAt (codes "/* x */ \n 5") 0 [])).input = [53] ∧
      (skipN 10 (lexerAt (codes "/* x */ \n 5") 0 [])).pos = 0 + 10 :=
  C13_consume_skips_whole_run asciiCType asciiCType_conforming
    [.block (codes " x "), .space 32, .space 10, .space 32] (by decide) 53 [] (by decide)
    (by decide) (lexerAt (codes "/* x */ \n 5") 0 []) false rfl

/-! ## Every advance is made on a character that exists -/

theorem Advanced.here (l : TSLexer) : Advanced l l 0 :=
  ⟨Nat.zero_le _, by simp, (skipN_zero l).symm⟩

theorem Advanced.followed {a b c : TSLexer} {n m : Nat} (h1 : Advanced a b n)
    (h2 : Advanced b c m) : Advanced a c (n + m) := by
  obtain ⟨hn, hz1, rfl⟩ := h1
  obtain ⟨hm, hz2, rfl⟩ := h2
  rw [skipN_input, List.length_drop] at hm
  rw [skipN_input] at hz2
  refine ⟨by omega, ?_, skipN_skipN m n a⟩
  intro x hx
  rw [List.take_add, List.mem_append] at hx
  rcases hx with hx | hx
  · exact hz1 x hx
  · exact hz2 x hx

theorem Advanced.length {a b : TSLexer} {n : Nat} (h : Advanced a b n) :
    b.input.length + n = a.input.length := by
  obtain ⟨hn, _, rfl⟩ := h
  rw [skipN_input, List.length_drop]
  omega

theorem advanced_skip (l : TSLexer) (h : l.lookahead ≠ 0) : Advanced l (skip l) 1 := by
  obtain ⟨c, t, hin, hc⟩ := input_ne_nil_of_lookahead l h
  refine ⟨by rw [hin]; simp, ?_, skip_eq_skipN l⟩
  intro x hx
  rw [hin] at hx
  simp only [List.take_succ_cons, List.take_zero, List.mem_singleton] at hx
  rw [hx]; exact hc

theorem skip_whitespace_advanced (ct : CType) (h0 : ct.iswspace 0 = false) :
    ∀ (fuel : Nat) (l : TSLexer), l.input.length < fuel →
      ∃ l1 n, skip_whitespace ct fuel l = some l1 ∧ Advanced l l1 n := by
  intro fuel
  induction fuel with
  | zero => intro l h; omega
  | succ f ih =>
    intro l hf
    by_cases hw : ct.iswspace l.lookahead = true
    · have hne : l.lookahead ≠ 0 := by
        intro h; rw [h, h0] at hw; exact Bool.noConfusion hw
      have hs := advanced_skip l hne
      have hlen := hs.length
      obtain ⟨l1, n, heq, hsk⟩ := ih (skip l) (by omega)
      exact ⟨l1, _, by rw [skip_whitespace_step ct f l hw, heq], hs.followed hsk⟩
    · exact ⟨l, 0, skip_whitespace_stop ct f l (by simpa using hw), Advanced.here l⟩

theorem skip_line_comment_advanced :
    ∀ (fuel : Nat) (l : TSLexer), l.input.length < fuel →
      ∃ l1 n, skip_line_comment fuel l = some l1 ∧ Advanced l l1 n := by
  intro fuel
  induction fuel with
  | zero => intro l h; omega
  | succ f ih =>
    intro l hf
    by_cases hc : l.lookahead ≠ 0 ∧ l.lookahead ≠ 10 ∧ l.lookahead ≠ 0x2028 ∧
        l.lookahead ≠ 0x2029
    · have hs := advanced_skip l hc.1
      have hlen := hs.length
      obtain ⟨l1, n, heq, hsk⟩ := ih (skip l) (by omega)
      exact ⟨l1, _, by rw [skip_line_comment, if_pos hc, heq], hs.followed hsk⟩
    · exact ⟨l, 0, by rw [skip_line_comment, if_neg hc], Advanced.here l⟩

theorem scan_block_comment_advanced (consume : Bool) :
    ∀ (fuel : Nat) (l : TSLexer) (sc sbn : Bool), l.input.length < fuel →
      ∃ e n, scan_block_comment consume fuel l sc sbn = some e ∧ Advanced l e.lexer n := by
  intro fuel
  induction fuel with
  | zero => intro l _ _ h; omega
  | succ f ih =>
    intro l sc sbn hf
    by_cases h0 : l.lookahead ≠ 0
    · have hs := advanced_skip l h0
      have hlen := hs.length
      rw [scan_block_comment, if_pos h0]
      by_cases hstar : l.lookahead = 42
      · rw [if_pos hstar]
        by_cases hslash : (skip l).lookahead = 47
        · have hs2 := advanced_skip (skip l) (by rw [hslash]; decide)
          simp only [hslash, if_true]
          split_ifs <;> exact ⟨_, _, rfl, hs.followed hs2⟩
        · simp only [hslash, if_false]
          obtain ⟨e, n, heq, hsk⟩ := ih (skip l) sc sbn (by omega)
          exact ⟨e, _, heq, hs.followed hsk⟩
      · rw [if_neg hstar]
        split_ifs
        · obtain ⟨e, n, heq, hsk⟩ := ih (skip l) sc true (by omega)
          exact ⟨e, _, heq, hs.followed hsk⟩
        · obtain ⟨e, n, heq, hsk⟩ := ih (skip l) sc sbn (by omega)
          exact ⟨e, _, heq, hs.followed hsk⟩
    · exact ⟨.done l sc sbn, 0, by rw [scan_block_comment, if_neg h0], Advanced.here l⟩

theorem scan_whitespace_and_comments_loop_advanced (ct : CType) (h0 : ct.iswspace 0 = false)
    (consume : Bool) :
    ∀ (fuel : Nat) (l : TSLexer) (sc sbn : Bool), l.input.length < fuel →
      ∃ r l1 sc1 n, scan_whitespace_and_comments_loop ct consume fuel l sc sbn =
        some (r, l1, sc1) ∧ Advanced l l1 n := by
  intro fuel
  induction fuel with
  | zero => intro l _ _ h; omega
  | succ f ih =>
    intro l sc sbn hf
    obtain ⟨l0, n0, hw, hs0⟩ := skip_whitespace_advanced ct h0 (l.input.length + 1) l (by omega)
    have hle0 := hs0.length
    rw [scan_whitespace_and_comments_loop, hw]
    by_cases h47 : l0.lookahead = 47
    · have hs1 := advanced_skip l0 (by rw [h47]; decide)
      have hle1 := hs1.length
      simp only [h47, if_true]
      by_cases h47b : (skip l0).lookahead = 47
      · have hs2 := advanced_skip (skip l0) (by rw [h47b]; decide)
        have hle2 := hs2.length
        obtain ⟨l3, n3, hlc, hs3⟩ := skip_line_comment_advanced
          ((skip (skip l0)).input.length + 1) (skip (skip l0)) (by omega)
        have hle3 := hs3.length
        obtain ⟨r, l4, sc4, n4, heq, hs4⟩ := ih l3 true sbn (by omega)
        simp only [h47b, if_true, hlc]
        exact ⟨r, l4, sc4, _, heq, hs0.followed (hs1.followed (hs2.followed (hs3.followed hs4)))⟩
      · simp only [h47b, if_false]
        by_cases h42 : (skip l0).lookahead = 42
        · have hs2 := advanced_skip (skip l0) (by rw [h42]; decide)
          have hle2 := hs2.length
          obtain ⟨e, n3, hbc, hs3⟩ := scan_block_comment_advanced consume
            ((skip (skip l0)).input.length + 1) (skip (skip l0)) sc sbn (by omega)
          have hle3 := hs3.length
          simp only [h42, if_true, hbc]
          cases e with
          | returned r l3 sc3 =>
            exact ⟨r, l3, sc3, _, rfl, hs0.followed (hs1.followed (hs2.followed hs3))⟩
          | done l3 sc3 sbn3 =>
            simp only [BlockExit.lexer] at hs3 hle3
            obtain ⟨r, l4, sc4, n4, heq, hs4⟩ := ih l3 sc3 sbn3 (by omega)
            exact ⟨r, l4, sc4, _, heq, hs0.followed (hs1.followed (hs2.followed (hs3.followed hs4)))⟩
        · simp only [h42, if_false]
          exact ⟨_, _, _, _, rfl, hs0.followed hs1⟩
    · simp only [h47, if_false]
      exact ⟨_, _, _, _, rfl, hs0⟩

theorem scan_whitespace_and_comments_advanced (ct : CType) (h0 : ct.iswspace 0 = false)
    (l : TSLexer) (sc consume : Bool) :
    ∃ r l1 sc1 n, scan_whitespace_and_comments ct l sc consume = some (r, l1, sc1) ∧
      Advanced l l1 n :=
  scan_whitespace_and_comments_loop_advanced ct h0 consume _ l sc false (Nat.lt_succ_self _)

theorem comment_check_advanced (ct : CType) (h0 : ct.iswspace 0 = false) (l : TSLexer)
    (sc : Bool) :
    ∃ flow n, comment_check ct l sc = some flow ∧ Advanced l flow.lexer n ∧
      ∀ l1 s, flow ≠ .brk l1 s := by
  by_cases h47 : l.lookahead = 47
  · obtain ⟨r, l1, sc1, n, hp, hs⟩ := scan_whitespace_and_comments_advanced ct h0 l sc false
    rw [comment_check_probe ct l l1 sc sc1 r h47 hp]
    split_ifs
    · exact ⟨_, n, rfl, hs, fun _ _ h => Flow.noConfusion h⟩
    · exact ⟨_, n, rfl, hs, fun _ _ h => Flow.noConfusion h⟩
    · exact ⟨_, n, rfl, hs, fun _ _ h => Flow.noConfusion h⟩
  · exact ⟨_, 0, comment_check_other ct l sc h47, Advanced.here l,
      fun _ _ h => Flow.noConfusion h⟩

theorem boundary_check_advanced (ct : CType) (h0 : ct.iswspace 0 = false) (l : TSLexer)
    (sc : Bool) :
    ∃ n, Advanced l (boundary_check ct l sc).lexer n ∧
      (∀ l2 s2, boundary_check ct l sc = .next l2 s2 → 0 < n) := by
  rw [boundary_check]
  split_ifs with h1 h2 h3 h4
  · exact ⟨0, Advanced.here l, fun _ _ h => by simp at h⟩
  · exact ⟨0, Advanced.here l, fun _ _ h => by simp at h⟩
  · exact ⟨0, Advanced.here l, fun _ _ h => by simp at h⟩
  · exact ⟨0, Advanced.here l, fun _ _ h => by simp at h⟩
  · have hne : l.lookahead ≠ 0 := by
      intro h; rw [h] at h4; exact h4 h0
    exact ⟨1, advanced_skip l hne, fun _ _ _ => Nat.one_pos⟩

theorem semicolon_loop_advanced (ct : CType) (h0 : ct.iswspace 0 = false) :
    ∀ (fuel : Nat) (l : TSLexer) (sc : Bool), l.input.length < fuel →
      ∃ e n, semicolon_loop ct fuel l sc = some e ∧ Advanced l e.lexer n ∧
        ∀ l1 s, e = .broke l1 s → l1.lookahead ≠ 0 := by
  intro fuel
  induction fuel with
  | zero => intro l _ h; omega
  | succ f ih =>
    intro l sc hf
    by_cases hz : l.lookahead = 0
    · exact ⟨_, 0, semicolon_loop_eof ct f l sc hz, Advanced.here l,
        fun _ _ h => LoopExit.noConfusion h⟩
    · obtain ⟨flow, n1, hcc, hs1, hnb⟩ := comment_check_advanced ct h0 l sc
      cases flow with
      | ret b l1 =>
        exact ⟨_, n1, semicolon_loop_ret ct f l l1 sc b hz hcc, hs1,
          fun _ _ h => LoopExit.noConfusion h⟩
      | brk l1 s1 => exact absurd rfl (hnb l1 s1)
      | next l1 s1 =>
        simp only [Flow.lexer] at hs1
        obtain ⟨n2, hs2, hn2⟩ := boundary_check_advanced ct h0 l1 s1
        obtain ⟨_, _, hb2⟩ := boundary_check_skipped ct h0 l1 s1
        rw [semicolon_loop_next ct f l l1 sc s1 hz hcc]
        cases hb : boundary_check ct l1 s1 with
        | ret b l2 =>
          rw [hb] at hs2
          exact ⟨_, _, rfl, hs1.followed hs2, fun _ _ h => LoopExit.noConfusion h⟩
        | brk l2 s2 =>
          rw [hb] at hs2
          refine ⟨_, _, rfl, hs1.followed hs2, fun l3 s3 h => ?_⟩
          simp only [LoopExit.broke.injEq] at h
          obtain ⟨rfl, hne⟩ := hb2 l2 s2 hb
          rw [← h.1]; exact hne
        | next l2 s2 =>
          rw [hb] at hs2
          have hpos := hn2 l2 s2 hb
          simp only [Flow.lexer] at hs2
          have hle1 := hs1.length
          have hle2 := hs2.length
          obtain ⟨e, n3, heq, hs3, hbr⟩ := ih l2 s2 (by omega)
          exact ⟨e, _, heq, hs1.followed (hs2.followed hs3), hbr⟩

theorem match_keyword_rest_advanced (ks : List Nat) (hks : ∀ k ∈ ks, k ≠ 0) :
    ∀ l : TSLexer, ∃ n, Advanced l (match_keyword_rest ks l).2 n := by
  induction ks with
  | nil => intro l; exact ⟨0, Advanced.here l⟩
  | cons k ks ih =>
    intro l
    rw [match_keyword_rest]
    split_ifs with h
    · exact ⟨0, Advanced.here l⟩
    · have hk : l.lookahead = k := by simpa using h
      obtain ⟨n, hn⟩ := ih (fun x hx => hks x (by simp [hx])) (skip l)
      exact ⟨_, (advanced_skip l (by rw [hk]; exact hks k (by simp))).followed hn⟩

theorem restricted_production_advanced (ct : CType) (l : TSLexer) :
    ∃ n, Advanced l (restricted_production ct l).2 n := by
  simp only [restricted_production]
  split_ifs with h1 h2 h3 h4 h5 h6 h7 h8
  · exact ⟨0, Advanced.here l⟩
  · exact ⟨1, advanced_skip l (by rw [h2]; decide)⟩
  · exact ⟨1, advanced_skip l (by rw [h3]; decide)⟩
  · exact ⟨1, advanced_skip l (by rw [h4]; decide)⟩
  · exact ⟨1, advanced_skip l (by rw [h5]; decide)⟩
  · exact ⟨1, advanced_skip l (by rw [h6]; decide)⟩
  · have h110 : (skip l).lookahead = 110 := by simpa using h7
    exact ⟨_, (advanced_skip l (by rw [h6]; decide)).followed
      (advanced_skip (skip l) (by rw [h110]; decide))⟩
  · have h110 : (skip l).lookahead = 110 := by simpa using h7
    have hs := (advanced_skip l (by rw [h6]; decide)).followed
      (advanced_skip (skip l) (by rw [h110]; decide))
    obtain ⟨n, hm⟩ := match_keyword_rest_advanced stanceof (by decide) (skip (skip l))
    rcases hmk : match_keyword_rest stanceof (skip (skip l)) with ⟨b, l3⟩
    rw [hmk] at hm
    cases b
    · exact ⟨_, hs.followed hm⟩
    · simp only
      split_ifs <;> exact ⟨_, hs.followed hm⟩
  · exact ⟨0, Advanced.here l⟩

theorem scan_automatic_semicolon_advanced (ct : CType) (h0 : ct.iswspace 0 = false)
    (l : TSLexer) :
    ∃ b l1 n, scan_automatic_semicolon ct l = some (b, l1) ∧
      Advanced (begin_token l) l1 n := by
  obtain ⟨e, n1, heq, hs, hbr⟩ := semicolon_loop_advanced ct h0
    ((begin_token l).input.length + 1) (begin_token l) false (Nat.lt_succ_self _)
  cases e with
  | returned b l1 => exact ⟨b, l1, n1, scan_of_returned ct l l1 b heq, hs⟩
  | broke l1 sc =>
    simp only [LoopExit.lexer] at hs
    have hs1 := advanced_skip l1 (hbr l1 sc rfl)
    obtain ⟨r, l3, sc3, n3, hp, hs3⟩ :=
      scan_whitespace_and_comments_advanced ct h0 (skip l1) sc true
    have hfin := scan_of_broke ct l l1 l3 sc sc3 r heq hp
    by_cases hr : r = .REJECT
    · rw [if_pos hr] at hfin
      exact ⟨false, l3, _, hfin, hs.followed (hs1.followed hs3)⟩
    · rw [if_neg hr] at hfin
      obtain ⟨n4, hs4⟩ := restricted_production_advanced ct l3
      exact ⟨_, _, _, hfin, hs.followed (hs1.followed (hs3.followed hs4))⟩

/-- C14: when NUL is no white space, `scan_whitespace_and_comments` (in both
modes) and `scan_automatic_semicolon` return for every input; the lexer
afterwards is the one after `n` skips, each made on a character that exists and
is not NUL, so `n` is at most the number of characters remaining at entry. -/
theorem C14_scanners_terminate (ct : CType) (h0 : ct.iswspace 0 = false) (l : TSLexer) :
    (∀ sc consume, ∃ r l1 sc1 n,
      scan_whitespace_and_comments ct l sc consume = some (r, l1, sc1) ∧
      l1 = skipN n l ∧ n ≤ l.input.length ∧ (∀ c ∈ l.input.take n, c ≠ 0) ∧
      l1.trace = l.trace ++ List.replicate n (LexEvent.advance true)) ∧
    (∃ b l1 n, scan_automatic_semicolon ct l = some (b, l1) ∧
      l1 = skipN n (begin_token l) ∧ n ≤ l.input.length ∧ (∀ c ∈ l.input.take n, c ≠ 0) ∧
      l1.trace = l.trace ++ LexEvent.mark_end :: List.replicate n (LexEvent.advance true)) := by
  refine ⟨?_, ?_⟩
  · intro sc consume
    obtain ⟨r, l1, sc1, n, heq, hn, hz, rfl⟩ :=
      scan_whitespace_and_comments_advanced ct h0 l sc consume
    exact ⟨r, _, sc1, n, heq, rfl, hn, hz, rfl⟩
  · obtain ⟨b, l1, n, heq, hn, hz, rfl⟩ := scan_automatic_semicolon_advanced ct h0 l
    exact ⟨b, _, n, heq, rfl, hn, hz, by simp [skipN, begin_token, TSLexer.mark_end]⟩

/-- C14 on an unterminated block comment, `/* never closed`, in probe mode and for
the semicolon scanner. -/
theorem C14_scanners_terminate_witness :
    (∃ r l1 sc1 n,
      scan_whitespace_and_comments asciiCType (lexerAt (codes "/* never closed") 0 []) false
        false = some (r, l1, sc1) ∧
      l1 = skipN n (lexerAt (codes "/* never closed") 0 []) ∧
      n ≤ (lexerAt (codes "/* never closed") 0 []).input.length ∧
      (∀ c ∈ (lexerAt (codes "/* never closed") 0 []).input.take n, c ≠ 0) ∧
      l1.trace = (lexerAt (codes "/* never closed") 0 []).trace ++
        List.replicate n (LexEvent.advance true)) ∧
    (∃ b l1 n, scan_automatic_semicolon asciiCType (lexerAt (codes "/* never closed") 0 []) =
        some (b, l1) ∧
      l1 = skipN n (begin_token (lexerAt (codes "/* never closed") 0 [])) ∧
      n ≤ (lexerAt (codes "/* never closed") 0 []).input.length ∧
      (∀ c ∈ (lexerAt (codes "/* never closed") 0 []).input.take n, c ≠ 0) ∧
      l1.trace = (lexerAt (codes "/* never closed") 0 []).trace ++
        LexEvent.mark_end :: List.replicate n (LexEvent.advance true)) :=
  ⟨(C14_scanners_terminate asciiCType (by decide)
      (lexerAt (codes "/* never closed") 0 [])).1 false false,
    (C14_scanners_terminate asciiCType (by decide) (lexerAt (codes "/* never closed") 0 [])).2⟩

/-! ## Probe mode over several comments -/

theorem noProbeExit_split (ts0 : List Trivia) (b : List Nat) (ts1 : List Trivia)
    (after : List Nat) (h : noProbeExit (ts0 ++ Trivia.block b :: ts1) after = true) :
    (render ts1 ++ after).headD 0 = 47 := by
  induction ts0 with
  | nil =>
    simp only [List.nil_append, noProbeExit, Bool.and_eq_true, beq_iff_eq] at h
    exact h.1
  | cons t ts ih =>
    cases t with
    | space c => exact ih (by simpa [noProbeExit] using h)
    | line body c => exact ih (by simpa [noProbeExit] using h)
    | block body =>
      simp only [List.cons_append, noProbeExit, Bool.and_eq_true] at h
      exact ih h.2

/-- The claim C15 fails: in probe mode on `/*` newline `*//* b */x` the second block
comment, which holds no line terminator, is closed in front of `x`, and the
verdict is ACCEPT, not NO_NEWLINE. -/
theorem C15_counterexample :
    (Trivia.block (codes " b ")).blockNewline = false ∧
    scan_whitespace_and_comments asciiCType (lexerAt (codes "/*\n*//* b */x") 0 []) false false =
      some (.ACCEPT, skipN 12 (lexerAt (codes "/*\n*//* b */x") 0 []), true) := by
  decide

/-- C15 as amended: in probe mode, when the scan reaches a block comment without
having returned before (every earlier block comment of the call is directly
followed by `/`) and the character after its closing `/` is not `/`, it returns
with the cursor just past that `*/` and the flag set; the verdict is ACCEPT if a
line terminator was crossed inside this block comment or an earlier one of the
same call, NO_NEWLINE otherwise. -/
theorem C15_probe_verdict_accumulates (ct : CType) (hct : ct.Conforming)
    (ts0 : List Trivia) (hwf0 : ∀ t ∈ ts0, t.wf ct = true) (body rest : List Nat)
    (hwf : (Trivia.block body).wf ct = true) (hrest : rest.headD 0 ≠ 47)
    (hthrough : noProbeExit ts0 ((Trivia.block body).chars ++ rest) = true)
    (l : TSLexer) (sc : Bool)
    (hin : l.input = render ts0 ++ ((Trivia.block body).chars ++ rest)) :
    scan_whitespace_and_comments ct l sc false =
        some (if (ts0 ++ [Trivia.block body]).any Trivia.blockNewline = true then .ACCEPT
            else .NO_NEWLINE,
          skipN ((render ts0).length + (Trivia.block body).chars.length) l, true) ∧
      (skipN ((render ts0).length + (Trivia.block body).chars.length) l).input = rest := by
  have hfuel : ts0.length < l.input.length + 1 := by
    have := length_le_render ts0
    rw [hin, List.length_append]; omega
  have hin1 := skipN_input_of l (render ts0) _ _ hin rfl
  refine ⟨?_, ?_⟩
  · rcases probe_trivia ct hct ts0 hwf0 (l.input.length + 1) l sc false _ hin hfuel with
      ⟨ta, b, tb, hts, hhd, _⟩ | ⟨_, fuel1, hpos, heq⟩
    · exfalso
      rw [hts] at hthrough
      exact hhd (noProbeExit_split ta b tb _ hthrough)
    · obtain ⟨g, rfl⟩ : ∃ g, fuel1 = g + 1 := ⟨fuel1 - 1, by omega⟩
      obtain ⟨hb0, hbns⟩ := wf_block ct body hwf
      have hin2 : (skipN (render ts0).length l).input =
          47 :: 42 :: (body ++ 42 :: 47 :: rest) := by
        rw [hin1]; simp [Trivia.chars]
      rw [scan_whitespace_and_comments, heq,
        loop_block ct false g _ _ _ body rest hct.slash hin2 hb0 hbns, if_pos ⟨hrest, rfl⟩,
        skipN_skipN]
      have hlen : (Trivia.block body).chars.length = body.length + 4 := by
        simp [Trivia.chars]
      rw [hlen]
      simp [Trivia.blockNewline]
  · exact skipN_input_of l (render ts0 ++ (Trivia.block body).chars) _ _
      (by rw [hin, List.append_assoc]) (by simp)

/-- C15 as amended, on `/*` newline `*//* b */x` (ACCEPT through the first comment) and
on `/* a *//* b */x` (NO_NEWLINE). -/
theorem C15_probe_verdict_accumulates_witness :
    (scan_whitespace_and_comments asciiCType (lexerAt (codes "/*\n*//* b */x") 0 []) false
        false =
      some (.ACCEPT, skipN (5 + 7) (lexerAt (codes "/*\n*//* b */x") 0 []), true) ∧
      (skipN (5 + 7) (lexerAt (codes "/*\n*//* b */x") 0 [])).input = codes "x") ∧
    (scan_whitespace_and_comments asciiCType (lexerAt (codes "/* a *//* b */x") 0 []) false
        false =
      some (.NO_NEWLINE, skipN (7 + 7) (lexerAt (codes "/* a *//* b */x") 0 []), true) ∧
      (skipN (7 + 7) (lexerAt (codes "/* a *//* b */x") 0 [])).input = codes "x") :=
  ⟨C15_probe_verdict_accumulates asciiCType asciiCType_conforming [.block (codes "\n")]
      (by decide) (codes " b ") (codes "x") (by decide) (by decide) (by decide) _ false rfl,
    C15_probe_verdict_accumulates asciiCType asciiCType_conforming [.block (codes " a ")]
      (by decide) (codes " b ") (codes "x") (by decide) (by decide) (by decide) _ false rfl⟩

/-! ## Included-range starts -/

/-- The claim C16 fails: on newline + ` ,` from position 0, with an included range
starting at position 1, the call returns false with the cursor at position 2:
it came to sit at position 1, advanced across it, and did not accept. -/
theorem C16_counterexample :
    (lexerAt (codes "\n ,") 0 [1]).included_range_starts = [1] ∧
    scan_automatic_semicolon asciiCType (lexerAt (codes "\n ,") 0 [1]) =
      some (false, skipN 2 (begin_token (lexerAt (codes "\n ,") 0 [1]))) ∧
    (skipN 2 (begin_token (lexerAt (codes "\n ,") 0 [1]))).pos = 2 := by
  decide

theorem range_start_iff (l : TSLexer) :
    l.is_at_included_range_start = true ↔ l.pos ∈ l.included_range_starts := by
  simp [TSLexer.is_at_included_range_start]

theorem semicolon_loop_range_start (ct : CType) (hct : ct.Conforming) (rest : List Nat) :
    ∀ (ws : List Nat) (l : TSLexer) (sc : Bool) (fuel j : Nat),
      (∀ c ∈ ws, ct.iswspace c = true ∧ isLineTerminator c = false) →
      l.input = ws ++ rest → j ≤ ws.length →
      (skipN j l).is_at_included_range_start = true →
      (j = ws.length → rest.headD 0 ≠ 47) → ws.length < fuel →
      ∃ k, k ≤ j ∧ (skipN k l).is_at_included_range_start = true ∧
        semicolon_loop ct fuel l sc = some (.returned true (skipN k l)) := by
  intro ws
  induction ws with
  | nil =>
    intro l sc fuel j _ hin hj hr hslash hf
    have hj0 : j = 0 := by simpa using hj
    subst hj0
    rw [skipN_zero] at hr
    obtain ⟨g, rfl⟩ : ∃ g, fuel = g + 1 := ⟨fuel - 1, by omega⟩
    refine ⟨0, Nat.le_refl _, by rw [skipN_zero]; exact hr, ?_⟩
    rw [skipN_zero]
    by_cases hz : l.lookahead = 0
    · exact semicolon_loop_eof ct g l sc hz
    · have h47 : l.lookahead ≠ 47 := by
        rw [TSLexer.lookahead, hin]; exact hslash rfl
      exact semicolon_loop_next_ret ct g l l l sc sc true hz (comment_check_other ct l sc h47)
        (boundary_check_range ct l sc hr)
  | cons d ws ih =>
    intro l sc fuel j hws hin hj hr hslash hf
    have hin1 : l.input = d :: (ws ++ rest) := by simpa using hin
    have hl : l.lookahead = d := lookahead_cons l _ _ hin1
    obtain ⟨hd, hlt⟩ := hws d (by simp)
    have hdne := hct.space_ne d hd
    obtain ⟨g, rfl⟩ : ∃ g, fuel = g + 1 := ⟨fuel - 1, by omega⟩
    have hcc := comment_check_other ct l sc (by rw [hl]; exact hdne.2.1)
    have h0 : l.lookahead ≠ 0 := by rw [hl]; exact hdne.1
    by_cases hr0 : l.is_at_included_range_start = true
    · refine ⟨0, Nat.zero_le _, by rw [skipN_zero]; exact hr0, ?_⟩
      rw [skipN_zero]
      exact semicolon_loop_next_ret ct g l l l sc sc true h0 hcc
        (boundary_check_range ct l sc hr0)
    · have hr2 : l.is_at_included_range_start = false := by simpa using hr0
      obtain ⟨i, rfl⟩ : ∃ i, j = i + 1 := by
        cases j with
        | zero => rw [skipN_zero] at hr; exact absurd hr hr0
        | succ i => exact ⟨i, rfl⟩
      have hstep := semicolon_loop_next_next ct g l l (skip l) sc sc sc h0 hcc
        (boundary_check_space ct l sc (by rw [hl]; exact hdne.2.2) hr2
          (by rw [hl]; exact hlt) (by rw [hl]; exact hd))
      have hsk : ∀ m, skipN m (skip l) = skipN (m + 1) l := by
        intro m; rw [skip_eq_skipN, skipN_skipN, Nat.add_comm]
      obtain ⟨k, hk, hkr, heq⟩ := ih (skip l) sc g i (fun c hc => hws c (by simp [hc]))
        (skip_input_cons l _ _ hin1) (by simpa using hj) (by rw [hsk]; exact hr)
        (fun h => hslash (by simp [h])) (by simpa using hf)
      rw [hsk] at hkr heq
      exact ⟨k + 1, by omega, hkr, by rw [hstep, heq]⟩

/-- C16 as amended (`is_at_included_range_start` a predicate on positions): when
only white space other than line terminators lies between the start and an
included-range start `p`, and `p` is not at a `/`, `scan_automatic_semicolon`
returns true with the cursor at `p` or at an earlier included-range start, so
it has not advanced across `p`. -/
theorem C16_stops_at_range_start_in_white_space (ct : CType) (hct : ct.Conforming)
    (ws rest : List Nat) (hws : ∀ c ∈ ws, ct.iswspace c = true ∧ isLineTerminator c = false)
    (l : TSLexer) (hin : l.input = ws ++ rest) (j : Nat) (hj : j ≤ ws.length)
    (hp : (l.pos + j) ∈ l.included_range_starts)
    (hslash : j = ws.length → rest.headD 0 ≠ 47) :
    ∃ k l1, k ≤ j ∧ scan_automatic_semicolon ct l = some (true, l1) ∧
      l1.pos = l.pos + k ∧ (l.pos + k) ∈ l.included_range_starts ∧
      l1.input = l.input.drop k := by
  have hlen : ∀ m, m ≤ j → m ≤ (begin_token l).input.length := by
    intro m hm
    rw [begin_token_input, hin, List.length_append]; omega
  have hr : (skipN j (begin_token l)).is_at_included_range_start = true := by
    rw [range_start_iff, skipN_starts, begin_token_starts,
      skipN_pos _ j (hlen j (Nat.le_refl _)), begin_token_pos]
    exact hp
  obtain ⟨k, hk, hkr, heq⟩ := semicolon_loop_range_start ct hct rest ws (begin_token l) false
    ((begin_token l).input.length + 1) j hws hin hj hr hslash
    (by rw [begin_token_input, hin, List.length_append]; omega)
  refine ⟨k, _, hk, scan_of_returned ct l _ true heq, ?_, ?_, rfl⟩
  · rw [skipN_pos _ k (hlen k hk), begin_token_pos]
  · rw [range_start_iff, skipN_starts, begin_token_starts, skipN_pos _ k (hlen k hk),
      begin_token_pos] at hkr
    exact hkr

/-- C16 as amended, on two blanks and `,` from position 4 with an included range
starting at position 6. -/
theorem C16_stops_at_range_start_in_white_space_witness :
    ∃ k l1, k ≤ 2 ∧ scan_automatic_semicolon asciiCType (lexerAt (codes "  , b") 4 [6]) =
        some (true, l1) ∧
      l1.pos = 4 + k ∧ (4 + k) ∈ [6] ∧ l1.input = (codes "  , b").drop k :=
  C16_stops_at_range_start_in_white_space asciiCType asciiCType_conforming (codes "  ")
    (codes ", b") (by decide) (lexerAt (codes "  , b") 4 [6]) rfl 2 (by decide) (by decide)
    (by decide)

/-! ## Inputs on which the code departs from the claims -/

/-- C17, the code at the failing input: a block comment directly at the end of
the input is declined, while the same comment followed by a blank, a line
comment or a blank alone at the end of the input are accepted. -/
theorem C17_block_comment_at_end_declined :
    verdict asciiCType (lexerAt (codes "/* c */") 1 []) = some false ∧
    verdict asciiCType (lexerAt (codes "/* c */ ") 1 []) = some true ∧
    verdict asciiCType (lexerAt (codes "// c") 1 []) = some true ∧
    verdict asciiCType (lexerAt (codes " ") 1 []) = some true := by
  decide

/-! ## In front of `,` and `=` -/

/-- The claim C18 fails: a block comment holding a newline, a blank and `=` is
accepted (the test against `,` and `=` is made on the blank right after the
comment); and `=` alone is accepted when an included range starts at it. -/
theorem C18_counterexample :
    verdict asciiCType (lexerAt (codes "/*\n*/ = b") 1 []) = some true ∧
    verdict asciiCType (lexerAt (codes " = b") 1 [2]) = some true := by
  decide

/-- In front of well-formed material without a line terminator inside a block
comment, followed by `,` or `=`, with no included range starting up to that
character, the first loop returns false or breaks at a white-space item. -/
theorem semicolon_loop_continuation (ct : CType) (hct : ct.Conforming) (c : Nat)
    (r : List Nat) (hc : c = 44 ∨ c = 61) :
    ∀ (fuel : Nat) (ts : List Trivia) (l : TSLexer) (sc : Bool),
      (∀ t ∈ ts, t.wf ct = true) → ts.any Trivia.blockNewline = false →
      l.input = render ts ++ c :: r →
      (∀ q ∈ l.included_range_starts, q < l.pos ∨ l.pos + (render ts).length < q) →
      (render ts).length < fuel →
      (∃ l1, semicolon_loop ct fuel l sc = some (.returned false l1)) ∨
      (∃ ts0 d ts1 sc1, ts = ts0 ++ Trivia.space d :: ts1 ∧
        semicolon_loop ct fuel l sc = some (.broke (skipN (render ts0).length l) sc1)) := by
  have hcs : ct.iswspace c = false := by
    rcases hc with rfl | rfl
    · exact hct.not_space 44 (by decide) (by decide) (by decide)
    · exact hct.not_space 61 (by decide) (by decide) (by decide)
  have hc0 : c ≠ 0 := by omega
  have hc47 : c ≠ 47 := by omega
  have hc125 : c ≠ 125 := by omega
  intro fuel
  induction fuel with
  | zero => intro ts l sc _ _ _ _ hf; omega
  | succ f ih =>
    have tail : ∀ (ts1 : List Trivia) (l l1 : TSLexer) (sc sc1 : Bool),
        (∀ t ∈ ts1, t.wf ct = true) → ts1.any Trivia.blockNewline = false →
        l.lookahead ≠ 0 → comment_check ct l sc = some (.next l1 sc1) →
        l1.input = render ts1 ++ c :: r → l1.lookahead ≠ 47 →
        (∀ q ∈ l1.included_range_starts, q < l1.pos ∨ l1.pos + (render ts1).length < q) →
        (render ts1).length < f + 1 →
        (∃ l2, semicolon_loop ct (f + 1) l sc = some (.returned false l2)) ∨
        (∃ ts0 d ts2 sc2, ts1 = ts0 ++ Trivia.space d :: ts2 ∧
          semicolon_loop ct (f + 1) l sc =
            some (.broke (skipN (render ts0).length l1) sc2)) := by
      intro ts1 l l1 sc sc1 hwf hnl h0 hcc hin hne hrange hlen
      have hr : l1.is_at_included_range_start = false :=
        not_range_start l1 1 (by decide) (fun q hq => by have := hrange q hq; omega)
      cases ts1 with
      | nil =>
        have hl : l1.lookahead = c := lookahead_cons l1 _ _ (by simpa [render] using hin)
        exact Or.inl ⟨l1, semicolon_loop_next_ret ct f l l1 l1 sc sc1 false h0 hcc
          (boundary_check_other ct l1 sc1 (by rw [hl]; exact hc125) hr
            (by rw [hl]; exact not_space_not_terminator ct hct c hcs) (by rw [hl]; exact hcs))⟩
      | cons t ts2 =>
        cases t with
        | space d =>
          have hin1 : l1.input = d :: (render ts2 ++ c :: r) := by
            simpa [render, Trivia.chars] using hin
          have hl : l1.lookahead = d := lookahead_cons l1 _ _ hin1
          have hd : ct.iswspace d = true := hwf (Trivia.space d) (by simp)
          have hdne := hct.space_ne d hd
          by_cases hlt : isLineTerminator d = true
          · refine Or.inr ⟨[], d, ts2, sc1, rfl, ?_⟩
            rw [semicolon_loop_next_brk ct f l l1 l1 sc sc1 sc1 h0 hcc
              (boundary_check_terminator ct l1 sc1 (by rw [hl]; exact hdne.2.2) hr
                (by rw [hl]; exact hlt))]
            simp [render, skipN_zero]
          · have hlt2 : isLineTerminator d = false := by simpa using hlt
            have hstep := semicolon_loop_next_next ct f l l1 (skip l1) sc sc1 sc1 h0 hcc
              (boundary_check_space ct l1 sc1 (by rw [hl]; exact hdne.2.2) hr
                (by rw [hl]; exact hlt2) (by rw [hl]; exact hd))
            have hlen1 : (render (Trivia.space d :: ts2)).length = (render ts2).length + 1 := by
              simp [render, Trivia.chars]
            have hrange2 : ∀ q ∈ (skip l1).included_range_starts,
                q < (skip l1).pos ∨ (skip l1).pos + (render ts2).length < q := by
              intro q hq
              rw [skip_pos l1 _ _ hin1]
              have := hrange q hq
              rw [hlen1] at this
              omega
            rcases ih ts2 (skip l1) sc1 (fun x hx => hwf x (by simp [hx]))
              (by simpa [Trivia.blockNewline] using hnl)
              (skip_input_cons l1 _ _ hin1) hrange2 (by rw [hlen1] at hlen; omega) with
              ⟨l2, heq⟩ | ⟨ts0, e, ts3, sc2, hts, heq⟩
            · exact Or.inl ⟨l2, by rw [hstep, heq]⟩
            · refine Or.inr ⟨Trivia.space d :: ts0, e, ts3, sc2, by simp [hts], ?_⟩
              rw [hstep, heq, skip_eq_skipN, skipN_skipN]
              simp [render, Trivia.chars, Nat.add_comm]
        | line body t =>
          exact absurd (lookahead_cons l1 47 _ (by simpa [render, Trivia.chars] using hin)) hne
        | block body =>
          exact absurd (lookahead_cons l1 47 _ (by simpa [render, Trivia.chars] using hin)) hne
    intro ts l sc hwf hnl hin hrange hlen
    have hother : l.lookahead ≠ 0 → l.lookahead ≠ 47 →
        (∃ l1, semicolon_loop ct (f + 1) l sc = some (.returned false l1)) ∨
        (∃ ts0 d ts1 sc1, ts = ts0 ++ Trivia.space d :: ts1 ∧
          semicolon_loop ct (f + 1) l sc =
            some (.broke (skipN (render ts0).length l) sc1)) :=
      fun h0 h47 => tail ts l l sc sc hwf hnl h0 (comment_check_other ct l sc h47) hin h47
        hrange hlen
    have hmain : l.lookahead = 47 →
        (∃ l1, semicolon_loop ct (f + 1) l sc = some (.returned false l1)) ∨
        (∃ ts0 d ts1 sc1, ts = ts0 ++ Trivia.space d :: ts1 ∧
          semicolon_loop ct (f + 1) l sc =
            some (.broke (skipN (render ts0).length l) sc1)) := by
      intro hl47
      have h0 : l.lookahead ≠ 0 := by rw [hl47]; decide
      have hfuel : ts.length < l.input.length + 1 := by
        have := length_le_render ts
        rw [hin, List.length_append]; omega
      rcases probe_trivia ct hct ts hwf (l.input.length + 1) l sc false (c :: r) hin hfuel
        with ⟨ts0, b, ts1, hts, hhd, heq⟩ | ⟨_, fuel1, hpos, heq⟩
      · have hrender : render ts = render (ts0 ++ [Trivia.block b]) ++ render ts1 := by
          rw [hts, render_append, render_append]; simp [render]
        have hin1 : (skipN (render (ts0 ++ [Trivia.block b])).length l).input =
            render ts1 ++ c :: r :=
          skipN_input_of l (render (ts0 ++ [Trivia.block b])) _ _
            (by rw [hin, hrender, List.append_assoc]) rfl
        have hla : (skipN (render (ts0 ++ [Trivia.block b])).length l).lookahead ≠ 47 := by
          rw [TSLexer.lookahead, hin1]; exact hhd
        have hnl0 : (false || (ts0 ++ [Trivia.block b]).any Trivia.blockNewline) = false := by
          rw [hts] at hnl
          simp only [List.any_append, List.any_cons, Bool.or_eq_false_iff] at hnl
          simp [hnl.1, hnl.2.1]
        rw [hnl0] at heq
        have hcc := comment_check_probe ct l _ sc true _ hl47 heq
        rw [if_neg (by simp), if_neg (by simp)] at hcc
        have hk : (render (ts0 ++ [Trivia.block b])).length ≤ l.input.length := by
          rw [hin, hrender]; simp only [List.length_append]; omega
        have hrange1 : ∀ q ∈ (skipN (render (ts0 ++ [Trivia.block b])).length
              l).included_range_starts,
            q < (skipN (render (ts0 ++ [Trivia.block b])).length l).pos ∨
            (skipN (render (ts0 ++ [Trivia.block b])).length l).pos +
              (render ts1).length < q := by
          intro q hq
          rw [skipN_pos l _ hk]
          have := hrange q hq
          rw [hrender, List.length_append] at this
          omega
        have hlen1 : (render ts1).length < f + 1 := by
          rw [hrender, List.length_append] at hlen; omega
        have hnl1 : ts1.any Trivia.blockNewline = false := by
          rw [hts] at hnl
          simp only [List.any_append, List.any_cons, Bool.or_eq_false_iff] at hnl
          exact hnl.2.2
        rcases tail ts1 l _ sc true (fun x hx => hwf x (by simp [hts, hx])) hnl1 h0 hcc hin1
          hla hrange1 hlen1 with ⟨l2, heq2⟩ | ⟨ts2, d, ts3, sc2, hts2, heq2⟩
        · exact Or.inl ⟨l2, heq2⟩
        · refine Or.inr ⟨ts0 ++ Trivia.block b :: ts2, d, ts3, sc2, by simp [hts, hts2], ?_⟩
          rw [heq2, skipN_skipN]
          simp [render_append, render, Nat.add_assoc]
      · have hin1 := skipN_input_of l (render ts) _ _ hin rfl
        have hla : (skipN (render ts).length l).lookahead = c := lookahead_cons _ _ _ hin1
        obtain ⟨g, rfl⟩ : ∃ g, fuel1 = g + 1 := ⟨fuel1 - 1, by omega⟩
        rw [loop_stop ct false g _ _ _ (by rw [hla]; exact hcs) (by rw [hla]; exact hc47)]
          at heq
        have hcc := comment_check_probe ct l _ sc _ _ hl47 heq
        rw [if_neg (by decide), if_neg (by rw [hla]; omega)] at hcc
        have hk : (render ts).length ≤ l.input.length := by
          rw [hin, List.length_append]; omega
        have hr : (skipN (render ts).length l).is_at_included_range_start = false :=
          not_range_start _ 1 (by decide) (fun q hq => by
            rw [skipN_pos l _ hk]
            have := hrange q hq
            omega)
        exact Or.inl ⟨_, semicolon_loop_next_ret ct f l _ _ sc _ false h0 hcc
          (boundary_check_other ct _ _ (by rw [hla]; exact hc125) hr
            (by rw [hla]; exact not_space_not_terminator ct hct c hcs)
            (by rw [hla]; exact hcs))⟩
    cases ts with
    | nil =>
      have hl : l.lookahead = c := lookahead_cons l _ _ (by simpa [render] using hin)
      exact hother (by rw [hl]; exact hc0) (by rw [hl]; exact hc47)
    | cons t ts2 =>
      cases t with
      | space d =>
        have hl : l.lookahead = d :=
          lookahead_cons l d (render ts2 ++ c :: r) (by simpa [render, Trivia.chars] using hin)
        have hdne := hct.space_ne d (hwf (Trivia.space d) (by simp))
        exact hother (by rw [hl]; exact hdne.1) (by rw [hl]; exact hdne.2.1)
      | line body t =>
        exact hmain (lookahead_cons l 47 _ (by simpa [render, Trivia.chars] using hin))
      | block body =>
        exact hmain (lookahead_cons l 47 _ (by simpa [render, Trivia.chars] using hin))

/-- C18 as amended: in front of `,` or `=`, whatever run of white space, line
terminators and well-formed comments precedes it in which no block comment
holds a line terminator, and with no included range starting at or before that
character, `scan_automatic_semicolon` declines. -/
theorem C18_decline_before_comma_or_equals (ct : CType) (hct : ct.Conforming)
    (ts : List Trivia) (hwf : ∀ t ∈ ts, t.wf ct = true)
    (hnl : ts.any Trivia.blockNewline = false) (c : Nat) (hc : c = 44 ∨ c = 61)
    (r : List Nat) (l : TSLexer) (hin : l.input = render ts ++ c :: r)
    (hrange : ∀ q ∈ l.included_range_starts, q < l.pos ∨ l.pos + (render ts).length < q) :
    ∃ l1, scan_automatic_semicolon ct l = some (false, l1) := by
  have hcs : ct.iswspace c = false := by
    rcases hc with rfl | rfl
    · exact hct.not_space 44 (by decide) (by decide) (by decide)
    · exact hct.not_space 61 (by decide) (by decide) (by decide)
  have hlen : (render ts).length < (begin_token l).input.length + 1 := by
    rw [begin_token_input, hin, List.length_append]; omega
  rcases semicolon_loop_continuation ct hct c r hc _ ts (begin_token l) false hwf hnl hin
    (fun q hq => by have := hrange q hq; rw [begin_token_pos]; exact this) hlen with
    ⟨l1, heq⟩ | ⟨ts0, d, ts1, sc1, hts, heq⟩
  · exact ⟨l1, scan_of_returned ct l l1 false heq⟩
  · have hin1 : (skip (skipN (render ts0).length (begin_token l))).input =
        render ts1 ++ c :: r := by
      rw [skip_skipN]
      exact skipN_input_of _ (render ts0 ++ [d]) _ _
        (by rw [begin_token_input, hin, hts, render_append]; simp [render, Trivia.chars])
        (by simp)
    have hacc := consume_accept ct hct ts1 (fun x hx => hwf x (by simp [hts, hx])) _ sc1
      (c :: r) hin1 hcs (by simp; omega)
    have hfin := scan_of_broke ct l _ _ sc1 _ _ heq hacc
    rw [if_neg (by decide), restricted_production_continuation ct _
      (Or.inl (by
        rw [skipN_lookahead_of _ (render ts1) _ _ hin1 rfl]
        rcases hc with rfl | rfl <;> simp [continuation_chars]))] at hfin
    exact ⟨_, hfin⟩

/-- C18 as amended, on ` /* a */ // b` newline ` /* c */ = 1`. -/
theorem C18_decline_before_comma_or_equals_witness :
    ∃ l1, scan_automatic_semicolon asciiCType
      (lexerAt (codes " /* a */ // b\n /* c */ = 1") 1 []) = some (false, l1) :=
  C18_decline_before_comma_or_equals asciiCType asciiCType_conforming
    [.space 32, .block (codes " a "), .space 32, .line (codes " b") 10, .space 32,
      .block (codes " c "), .space 32]
    (by decide) (by decide) 61 (Or.inr rfl) (codes " 1") _ rfl (by decide)

/-! ## A line comment before the line break -/

/-- The claim C19 fails: with a line comment before the newline `+b`, `*b`, `.b` and
`(b)` are accepted, without it they are declined. -/
theorem C19_counterexample :
    verdict asciiCType (lexerAt (codes "// x\n+b") 1 []) = some true ∧
    verdict asciiCType (lexerAt (codes "\n+b") 1 []) = some false ∧
    verdict asciiCType (lexerAt (codes "// x\n*b") 1 []) = some true ∧
    verdict asciiCType (lexerAt (codes "\n*b") 1 []) = some false ∧
    verdict asciiCType (lexerAt (codes "// x\n.b") 1 []) = some true ∧
    verdict asciiCType (lexerAt (codes "\n.b") 1 []) = some false ∧
    verdict asciiCType (lexerAt (codes "// x\n(b)") 1 []) = some true ∧
    verdict asciiCType (lexerAt (codes "\n(b)") 1 []) = some false := by
  decide

theorem render_line_spaces (body : List Nat) (t : Nat) (ws : List Nat) :
    render (Trivia.line body t :: ws.map Trivia.space) = 47 :: 47 :: (body ++ t :: ws) := by
  rw [render_cons, render_spaces]
  simp [Trivia.chars]

/-- C19 as amended: behind a line comment, its line terminator and further white
space, `scan_automatic_semicolon` accepts exactly when the next character (no
white space, not `/`; 0 at end of input) is neither `,` nor `=`; without the
comment the verdict is that of the `switch` at that character. So the comment
never turns an accept into a decline, and it turns every decline of the `switch`
other than on `,` and `=` into an accept. No included range starts at the
character (with the comment) or at the line terminator (without). -/
theorem C19_comment_accepts_unless_comma_or_equals (ct : CType) (hct : ct.Conforming)
    (body : List Nat) (hbody : body.all (fun c => c != 0 && !isLineTerminator c) = true)
    (t : Nat) (ht : isLineTerminator t = true) (ws : List Nat)
    (hws : ∀ c ∈ ws, ct.iswspace c = true) (rest : List Nat)
    (hcs : ct.iswspace (rest.headD 0) = false) (hc47 : rest.headD 0 ≠ 47)
    (lc lp : TSLexer) (hinc : lc.input = 47 :: 47 :: (body ++ t :: (ws ++ rest)))
    (hinp : lp.input = t :: (ws ++ rest))
    (hrc : ∀ q ∈ lc.included_range_starts, q ≠ lc.pos + (body.length + 3 + ws.length))
    (hrp : ∀ q ∈ lp.included_range_starts, q ≠ lp.pos) :
    ∃ l1 l2, scan_automatic_semicolon ct lc =
        some (decide (rest.headD 0 ≠ 44 ∧ rest.headD 0 ≠ 61), l1) ∧
      scan_automatic_semicolon ct lp = some (restricted_production ct l2) ∧
      l2.input = rest ∧
      ((restricted_production ct l2).1 = true → rest.headD 0 ≠ 44 ∧ rest.headD 0 ≠ 61) := by
  have hwfs : ∀ x ∈ ws.map Trivia.space, x.wf ct = true := by
    intro x hx
    obtain ⟨c, hc, rfl⟩ := List.mem_map.mp hx
    exact hws c hc
  have hwf : ∀ x ∈ Trivia.line body t :: ws.map Trivia.space, x.wf ct = true := by
    intro x hx
    rcases List.mem_cons.mp hx with rfl | hx
    · simp [Trivia.wf, hbody, ht]
    · exact hwfs x hx
  -- without the comment
  obtain ⟨l2, hplain, hl2⟩ := scan_from_terminator ct hct t ht (ws.map Trivia.space) hwfs rest
    hcs hc47 lp (by rw [render_spaces]; exact hinp) hrp
  have himp : (restricted_production ct l2).1 = true →
      rest.headD 0 ≠ 44 ∧ rest.headD 0 ≠ 61 := by
    intro hacc
    have hla : l2.lookahead = rest.headD 0 := by rw [TSLexer.lookahead, hl2]
    refine ⟨?_, ?_⟩ <;> intro hc
    · rw [restricted_production_continuation ct l2
        (Or.inl (by rw [hla, hc]; simp [continuation_chars]))] at hacc
      exact Bool.noConfusion hacc
    · rw [restricted_production_continuation ct l2
        (Or.inl (by rw [hla, hc]; simp [continuation_chars]))] at hacc
      exact Bool.noConfusion hacc
  -- with the comment
  have hin0 : (begin_token lc).input =
      render (Trivia.line body t :: ws.map Trivia.space) ++ rest := by
    rw [begin_token_input, hinc, render_line_spaces]; simp
  have hn : (render (Trivia.line body t :: ws.map Trivia.space)).length =
      body.length + 3 + ws.length := by
    rw [render_line_spaces]; simp; omega
  have hl47 : (begin_token lc).lookahead = 47 := lookahead_cons _ 47 _ hinc
  have h0 : (begin_token lc).lookahead ≠ 0 := by rw [hl47]; decide
  have hfuel : (Trivia.line body t :: ws.map Trivia.space).length <
      (begin_token lc).input.length + 1 := by
    have := length_le_render (Trivia.line body t :: ws.map Trivia.space)
    rw [hin0, List.length_append]; omega
  have hcomment : ∃ l1, scan_automatic_semicolon ct lc =
      some (decide (rest.headD 0 ≠ 44 ∧ rest.headD 0 ≠ 61), l1) := by
    rcases probe_trivia ct hct _ hwf _ (begin_token lc) false false rest hin0 hfuel with
      ⟨ts0, b, ts1, hts, _, _⟩ | ⟨_, fuel1, hpos, heq⟩
    · exfalso
      have hmem : Trivia.block b ∈ Trivia.line body t :: ws.map Trivia.space := by
        rw [hts]; simp
      rcases List.mem_cons.mp hmem with h | h
      · exact Trivia.noConfusion h
      · obtain ⟨c, _, hc⟩ := List.mem_map.mp h
        exact Trivia.noConfusion hc
    · have hin1 := skipN_input_of (begin_token lc) _ rest _ hin0 rfl
      have hla : (skipN (render (Trivia.line body t :: ws.map Trivia.space)).length
          (begin_token lc)).lookahead = rest.headD 0 := by rw [TSLexer.lookahead, hin1]
      obtain ⟨g, rfl⟩ : ∃ g, fuel1 = g + 1 := ⟨fuel1 - 1, by omega⟩
      rw [loop_stop ct false g _ _ _ (by rw [hla]; exact hcs) (by rw [hla]; exact hc47)] at heq
      have hcc := comment_check_probe ct (begin_token lc) _ false _ _ hl47 heq
      rw [if_neg (by decide)] at hcc
      by_cases hc : rest.headD 0 ≠ 44 ∧ rest.headD 0 ≠ 61
      · rw [if_pos ⟨rfl, by rw [hla]; exact hc.1, by rw [hla]; exact hc.2⟩] at hcc
        have hd : decide (rest.headD 0 ≠ 44 ∧ rest.headD 0 ≠ 61) = true := decide_eq_true hc
        rw [hd]
        exact ⟨_, scan_of_returned ct lc _ true (semicolon_loop_ret ct _ _ _ false true h0 hcc)⟩
      · rw [if_neg (by rw [hla]; exact fun h => hc h.2)] at hcc
        have hc2 : rest.headD 0 = 44 ∨ rest.headD 0 = 61 := by omega
        have hk : (render (Trivia.line body t :: ws.map Trivia.space)).length ≤
            (begin_token lc).input.length := by
          rw [hin0, List.length_append]; omega
        have hr : (skipN (render (Trivia.line body t :: ws.map Trivia.space)).length
            (begin_token lc)).is_at_included_range_start = false :=
          not_range_start _ 1 (by decide) (fun q hq => by
            rw [skipN_pos _ _ hk, begin_token_pos, hn]
            have := hrc q hq
            omega)
        have hd : decide (rest.headD 0 ≠ 44 ∧ rest.headD 0 ≠ 61) = false :=
          decide_eq_false hc
        rw [hd]
        exact ⟨_, scan_of_returned ct lc _ false (semicolon_loop_next_ret ct _ _ _ _ false _
          false h0 hcc (boundary_check_other ct _ _ (by rw [hla]; omega) hr
            (by rw [hla]; exact not_space_not_terminator ct hct _ hcs)
            (by rw [hla]; exact hcs)))⟩
  obtain ⟨l1, hl1⟩ := hcomment
  exact ⟨l1, l2, hl1, hplain, hl2, himp⟩

/-- C19 as amended, on `// x` newline ` +b` (accepted) against newline ` +b`. -/
theorem C19_comment_accepts_unless_comma_or_equals_witness :
    ∃ l1 l2, scan_automatic_semicolon asciiCType (lexerAt (codes "// x\n +b") 1 []) =
        some (decide ((codes "+b").headD 0 ≠ 44 ∧ (codes "+b").headD 0 ≠ 61), l1) ∧
      scan_automatic_semicolon asciiCType (lexerAt (codes "\n +b") 1 []) =
        some (restricted_production asciiCType l2) ∧
      l2.input = codes "+b" ∧
      ((restricted_production asciiCType l2).1 = true →
        (codes "+b").headD 0 ≠ 44 ∧ (codes "+b").headD 0 ≠ 61) :=
  C19_comment_accepts_unless_comma_or_equals asciiCType asciiCType_conforming (codes " x")
    (by decide) 10 (by decide) (codes " ") (by decide) (codes "+b") (by decide) (by decide)
    (lexerAt (codes "// x\n +b") 1 []) (lexerAt (codes "\n +b") 1 []) rfl rfl (by decide)
    (by decide)

/-! ## What consume mode can return -/

theorem skip_whitespace_result (ct : CType) :
    ∀ (fuel : Nat) (l l0 : TSLexer), skip_whitespace ct fuel l = some l0 →
      ct.iswspace l0.lookahead = false := by
  intro fuel
  induction fuel with
  | zero => intro l l0 h; simp [skip_whitespace] at h
  | succ f ih =>
    intro l l0 h
    by_cases hw : ct.iswspace l.lookahead = true
    · rw [skip_whitespace_step ct f l hw] at h
      exact ih (skip l) l0 h
    · have hw2 : ct.iswspace l.lookahead = false := by simpa using hw
      rw [skip_whitespace_stop ct f l hw2] at h
      obtain rfl : l = l0 := by simpa using h
      exact hw2

theorem scan_block_comment_consume :
    ∀ (fuel : Nat) (l : TSLexer) (sc sbn : Bool) (e : BlockExit),
      scan_block_comment true fuel l sc sbn = some e →
      ∃ l1 sc1 sbn1, e = .done l1 sc1 sbn1 := by
  intro fuel
  induction fuel with
  | zero => intro l sc sbn e h; simp [scan_block_comment] at h
  | succ f ih =>
    intro l sc sbn e h
    rw [scan_block_comment] at h
    by_cases h0 : l.lookahead ≠ 0
    · rw [if_pos h0] at h
      by_cases hstar : l.lookahead = 42
      · rw [if_pos hstar] at h
        by_cases hsl : (skip l).lookahead = 47
        · simp only [hsl, if_true] at h
          rw [if_neg (fun hh => Bool.noConfusion hh.2)] at h
          exact ⟨_, _, _, (Option.some.inj h).symm⟩
        · simp only [hsl, if_false] at h
          exact ih _ _ _ e h
      · rw [if_neg hstar] at h
        split_ifs at h <;> exact ih _ _ _ e h
    · rw [if_neg h0] at h
      exact ⟨_, _, _, (Option.some.inj h).symm⟩

theorem loop_consume_result (ct : CType) :
    ∀ (fuel : Nat) (l l1 : TSLexer) (sc sbn sc1 : Bool) (r : WhitespaceResult),
      scan_whitespace_and_comments_loop ct true fuel l sc sbn = some (r, l1, sc1) →
      r = .REJECT ∨ (r = .ACCEPT ∧ ct.iswspace l1.lookahead = false ∧ l1.lookahead ≠ 47) := by
  intro fuel
  induction fuel with
  | zero => intro l l1 sc sbn sc1 r h; simp [scan_whitespace_and_comments_loop] at h
  | succ f ih =>
    intro l l1 sc sbn sc1 r h
    rw [scan_whitespace_and_comments_loop] at h
    cases hw : skip_whitespace ct (l.input.length + 1) l with
    | none => rw [hw] at h; simp at h
    | some l0 =>
      have hns := skip_whitespace_result ct _ l l0 hw
      rw [hw] at h
      by_cases h47 : l0.lookahead = 47
      · simp only [h47, if_true] at h
        by_cases h47b : (skip l0).lookahead = 47
        · simp only [h47b, if_true] at h
          cases hlc : skip_line_comment ((skip (skip l0)).input.length + 1) (skip (skip l0)) with
          | none => rw [hlc] at h; simp at h
          | some l3 =>
            rw [hlc] at h
            exact ih _ _ _ _ _ _ h
        · simp only [h47b, if_false] at h
          by_cases h42 : (skip l0).lookahead = 42
          · simp only [h42, if_true] at h
            cases hbc : scan_block_comment true ((skip (skip l0)).input.length + 1)
                (skip (skip l0)) sc sbn with
            | none => rw [hbc] at h; simp at h
            | some e =>
              obtain ⟨l3, sc3, sbn3, rfl⟩ := scan_block_comment_consume _ _ _ _ e hbc
              rw [hbc] at h
              exact ih _ _ _ _ _ _ h
          · simp only [h42, if_false] at h
            left
            have := Option.some.inj h
            exact (congrArg Prod.fst this).symm
      · simp only [h47, if_false] at h
        have := Option.some.inj h
        obtain ⟨hr, hl, _⟩ : WhitespaceResult.ACCEPT = r ∧ l0 = l1 ∧ sc = sc1 := by
          simpa using this
        subst hl
        exact Or.inr ⟨hr.symm, hns, h47⟩

/-- C20: in consume mode `scan_whitespace_and_comments` returns (when NUL is no
white space), and only REJECT or ACCEPT, never NO_NEWLINE; on ACCEPT the
lookahead is neither white space nor `/`. So the lexer on which the `switch` of
`scan_automatic_semicolon` is run never has the lookahead `/`: its `case '/'`
decides for no input. -/
theorem C20_consume_never_stops_at_slash (ct : CType) (h0 : ct.iswspace 0 = false)
    (l : TSLexer) (sc : Bool) :
    (∃ r l1 sc1, scan_whitespace_and_comments ct l sc true = some (r, l1, sc1) ∧
      (r = .REJECT ∨
        (r = .ACCEPT ∧ ct.iswspace l1.lookahead = false ∧ l1.lookahead ≠ 47))) ∧
    (∀ l3, switch_lexer ct l = some l3 →
      l3.lookahead ≠ 47 ∧ ct.iswspace l3.lookahead = false ∧
      scan_automatic_semicolon ct l = some (restricted_production ct l3)) := by
  refine ⟨?_, ?_⟩
  · obtain ⟨r, l1, sc1, heq, _⟩ := scan_whitespace_and_comments_total ct h0 l sc true
    exact ⟨r, l1, sc1, heq, loop_consume_result ct _ l l1 sc false sc1 r heq⟩
  · intro l3 hsw
    simp only [switch_lexer] at hsw
    cases hloop : semicolon_loop ct ((begin_token l).input.length + 1) (begin_token l) false with
    | none => rw [hloop] at hsw; simp at hsw
    | some e =>
      rw [hloop] at hsw
      cases e with
      | returned b l1 => simp at hsw
      | broke l1 s1 =>
        simp only at hsw
        cases hscan : scan_whitespace_and_comments ct (skip l1) s1 true with
        | none => rw [hscan] at hsw; simp at hsw
        | some res =>
          obtain ⟨r, l4, s4⟩ := res
          rw [hscan] at hsw
          simp only at hsw
          by_cases hr : r = .REJECT
          · rw [if_pos hr] at hsw; simp at hsw
          · rw [if_neg hr] at hsw
            obtain rfl : l4 = l3 := by simpa using hsw
            have hfin := scan_of_broke ct l l1 l4 s1 s4 r hloop hscan
            rw [if_neg hr] at hfin
            rcases loop_consume_result ct _ (skip l1) l4 s1 false s4 r hscan with h | h
            · exact absurd h hr
            · exact ⟨h.2.2, h.2.1, hfin⟩

/-- C20 on newline + ` /* c */ // d` + newline + `/ 2`, where consume mode returns
REJECT at the lone `/`, and on newline + ` /* c */ * 2`, where the `switch` is
run at the `*`. -/
theorem C20_consume_never_stops_at_slash_witness :
    (∃ r l1 sc1, scan_whitespace_and_comments asciiCType
        (lexerAt (codes " /* c */ // d\n/ 2") 1 []) false true = some (r, l1, sc1) ∧
      (r = .REJECT ∨
        (r = .ACCEPT ∧ asciiCType.iswspace l1.lookahead = false ∧ l1.lookahead ≠ 47))) ∧
    ((skipN 10 (begin_token (lexerAt (codes "\n /* c */ * 2") 1 []))).lookahead ≠ 47 ∧
      asciiCType.iswspace
        (skipN 10 (begin_token (lexerAt (codes "\n /* c */ * 2") 1 []))).lookahead = false ∧
      scan_automatic_semicolon asciiCType (lexerAt (codes "\n /* c */ * 2") 1 []) =
        some (restricted_production asciiCType
          (skipN 10 (begin_token (lexerAt (codes "\n /* c */ * 2") 1 []))))) :=
  ⟨(C20_consume_never_stops_at_slash asciiCType (by decide)
      (lexerAt (codes " /* c */ // d\n/ 2") 1 []) false).1,
    (C20_consume_never_stops_at_slash asciiCType (by decide)
      (lexerAt (codes "\n /* c */ * 2") 1 []) false).2 _ (by decide)⟩

end Fujin
